import Mathlib

/-!
SLIC superpixel filter: a shallow embedding of `PISLICMain.cpp`

The embedding follows `FilterPlugIn/Source/HSV/PISLICMain.cpp`.

* `double` arithmetic is kept abstract: every definition is generic in a type `R`
  carrying the operations the source uses (`DoubleOps R`).  No law is assumed of
  them, so each theorem holds for whatever the machine arithmetic does; where a theorem
  needs a law of the arithmetic, it says so in a hypothesis that IEEE doubles satisfy:
  `LtStrict R` (the comparison `<` is irreflexive and transitive, NaN included),
  `CastExact R w h` (the cast `(int)` gives back a pixel coordinate) and
  `ExactOnImage R w h` (sums of pixel coordinates are exact, a rounded mean stays between
  the bounds of its terms).  Concrete runs use the exact rationals (`ratOps`) or, where the
  overflow of `double` matters, the rationals with the infinities and NaN (`xOps`).
* `std::vector` is `List`, indexing is `List.getD`, element assignment is `List.set`.
* `TriglavPlugInInt`, `int` and `size_t` values are mathematical integers; the
  images considered have `0 < width`, `0 < height` (the caller checks this before
  `Initialize`), and no overflow of the machine types is modelled, except in the product
  `ns * ns` of line 320 (`mulInt32`).
* The host is an oracle: `host i` is the result the host writes on the `i`-th call
  of `TriglavPlugInFilterRunProcess` made by `Execute`, and the calls made to the
  host are collected in a trace.
-/

namespace SLIC

/-! ## Arithmetic on `double` -/

/-- The operations on `double` used by the source.  `+ - * /`, unary minus and decimal
literals come from the parent classes; `lt a b` is `a < b`, `pow` is `std::pow`,
`ofInt` is the conversion of an integer to `double`, `toInt` is the cast `(int)x`
(also used for `(BYTE)x`), `dblMax` is `std::numeric_limits<double>::max()`, `abs` is
`std::abs`. -/
class DoubleOps (R : Type) extends Add R, Sub R, Mul R, Div R, Neg R, OfScientific R where
  lt : R → R → Bool
  pow : R → R → R
  ofInt : Int → R
  toInt : R → Int
  dblMax : R
  abs : R → R

open DoubleOps

/-- Source: `typedef unsigned char BYTE`. -/
abbrev BYTE := Fin 256

/-- The cast `(BYTE)n` of an integer. -/
def toBYTE (n : Int) : BYTE := ⟨(n % 256).toNat, by omega⟩

/-- Source: `a > b` on doubles. -/
def dgt {R : Type} [DoubleOps R] (a b : R) : Bool := lt b a

/-- Source: `std::min(a, b)`, which is `(b < a) ? b : a`. -/
def dmin {R : Type} [DoubleOps R] (a b : R) : R := if lt b a then b else a

/-- Source: `std::max(a, b)`, which is `(a < b) ? b : a`. -/
def dmax {R : Type} [DoubleOps R] (a b : R) : R := if lt a b then b else a

/-- Source: `struct SlicColor`. -/
structure SlicColor (R : Type) where
  l : R
  a : R
  b : R

/-- Source: `struct SlicCluster`. -/
structure SlicCluster (R : Type) where
  l : R
  a : R
  b : R
  x : R
  y : R
  count : Int

instance {R : Type} [DoubleOps R] : Inhabited (SlicColor R) := ⟨⟨0.0, 0.0, 0.0⟩⟩

instance {R : Type} [DoubleOps R] : Inhabited (SlicCluster R) := ⟨⟨0.0, 0.0, 0.0, 0.0, 0.0, 0⟩⟩

/-! ## Colour conversion -/

/-- Source: `RGB2LAB`, lines 109-144. -/
def RGB2LAB {R : Type} [DoubleOps R] (r g b : BYTE) : SlicColor R :=
  let var_R : R := ofInt (r.val : Int) / 255.0
  let var_G : R := ofInt (g.val : Int) / 255.0
  let var_B : R := ofInt (b.val : Int) / 255.0
  let var_R := if dgt var_R 0.04045 then pow ((var_R + 0.055) / 1.055) 2.4 else var_R / 12.92
  let var_G := if dgt var_G 0.04045 then pow ((var_G + 0.055) / 1.055) 2.4 else var_G / 12.92
  let var_B := if dgt var_B 0.04045 then pow ((var_B + 0.055) / 1.055) 2.4 else var_B / 12.92
  let var_R := var_R * 100.0
  let var_G := var_G * 100.0
  let var_B := var_B * 100.0
  let X := var_R * 0.4124 + var_G * 0.3576 + var_B * 0.1805
  let Y := var_R * 0.2126 + var_G * 0.7152 + var_B * 0.0722
  let Z := var_R * 0.0193 + var_G * 0.1192 + var_B * 0.9505
  let var_X := X / 95.047
  let var_Y := Y / 100.000
  let var_Z := Z / 108.883
  let var_X := if dgt var_X 0.008856 then pow var_X (1.0 / 3.0) else (7.787 * var_X) + (16.0 / 116.0)
  let var_Y := if dgt var_Y 0.008856 then pow var_Y (1.0 / 3.0) else (7.787 * var_Y) + (16.0 / 116.0)
  let var_Z := if dgt var_Z 0.008856 then pow var_Z (1.0 / 3.0) else (7.787 * var_Z) + (16.0 / 116.0)
  { l := (116.0 * var_Y) - 16.0
    a := 500.0 * (var_X - var_Y)
    b := 200.0 * (var_Y - var_Z) }

/-- Source: `LAB2RGB`, lines 147-186. -/
def LAB2RGB {R : Type} [DoubleOps R] (lVal aVal bVal : R) : BYTE × BYTE × BYTE :=
  let var_Y : R := (lVal + 16.0) / 116.0
  let var_X : R := aVal / 500.0 + var_Y
  let var_Z : R := var_Y - bVal / 200.0
  let var_Y := if dgt (pow var_Y (ofInt 3)) 0.008856 then pow var_Y (ofInt 3)
    else (var_Y - 16.0 / 116.0) / 7.787
  let var_X := if dgt (pow var_X (ofInt 3)) 0.008856 then pow var_X (ofInt 3)
    else (var_X - 16.0 / 116.0) / 7.787
  let var_Z := if dgt (pow var_Z (ofInt 3)) 0.008856 then pow var_Z (ofInt 3)
    else (var_Z - 16.0 / 116.0) / 7.787
  let X := var_X * 95.047
  let Y := var_Y * 100.000
  let Z := var_Z * 108.883
  let var_R := X * 3.2406 + Y * (-1.5372) + Z * (-0.4986)
  let var_G := X * (-0.9689) + Y * 1.8758 + Z * 0.0415
  let var_B := X * 0.0557 + Y * (-0.2040) + Z * 1.0570
  let var_R := var_R / 100.0
  let var_G := var_G / 100.0
  let var_B := var_B / 100.0
  let var_R := if dgt var_R 0.0031308 then 1.055 * pow var_R (1.0 / 2.4) - 0.055 else 12.92 * var_R
  let var_G := if dgt var_G 0.0031308 then 1.055 * pow var_G (1.0 / 2.4) - 0.055 else 12.92 * var_G
  let var_B := if dgt var_B 0.0031308 then 1.055 * pow var_B (1.0 / 2.4) - 0.055 else 12.92 * var_B
  let var_R := dmax 0.0 (dmin 1.0 var_R)
  let var_G := dmax 0.0 (dmin 1.0 var_G)
  let var_B := dmax 0.0 (dmin 1.0 var_B)
  (toBYTE (toInt (var_R * 255.0)), toBYTE (toInt (var_G * 255.0)), toBYTE (toInt (var_B * 255.0)))

/-! ## Loops and vectors -/

/-- The values taken by `i` in `for (i = lo; i < hi; i++)`. -/
def intRange (lo hi : Int) : List Int :=
  (List.range (hi - lo).toNat).map (fun (i : Nat) => lo + (i : Int))

/-- The values taken by `v` in `for (v = start; v < bound; v += step)`, at most `fuel` of them. -/
def strideFrom (step bound : Int) : Nat → Int → List Int
  | 0, _ => []
  | fuel + 1, v => if v < bound then v :: strideFrom step bound fuel (v + step) else []

/-- The values taken by `v` in `for (v = start; v < bound; v += step)`; with `1 ≤ step` and
`0 ≤ start` the loop ends within `bound` rounds (`strideRange_fuel`). -/
def strideRange (start step bound : Int) : List Int :=
  strideFrom step bound bound.toNat start

/-- Source: `std::vector::resize(n)` with value-initialised new elements `d`. -/
def resize {α : Type} (v : List α) (n : Nat) (d : α) : List α :=
  v.take n ++ List.replicate (n - v.length) d

/-- Source: `std::vector::assign(n, d)`. -/
def assign {α : Type} (n : Nat) (d : α) : List α := List.replicate n d

/-! ## The processor -/

/-- Source: the data members of `class SLICProcessor`, lines 190-196. -/
structure SLICProcessor (R : Type) where
  width : Int
  height : Int
  labData : List (SlicColor R)
  labels : List Int
  distances : List R
  clusters : List (SlicCluster R)
  resultRGB : List BYTE
  validPixels : List Bool

/-- The body of the pixel loop of `Initialize`, lines 213-232; `src o` is the byte at
offset `o` of `srcBuffer`. -/
def initPixel {R : Type} [DoubleOps R] (w : Int) (src : Int → BYTE) (rowBytes pixelBytes : Int)
    (y x : Int) (p : SLICProcessor R) : SLICProcessor R :=
  let idx := (y * w + x).toNat
  let px := y * rowBytes + x * pixelBytes
  let r := src (px + 0)
  let g := src (px + 1)
  let b := src (px + 2)
  let alpha : BYTE := if pixelBytes ≥ 4 then src (px + 3) else 255
  { p with
    labData := p.labData.set idx (RGB2LAB r g b)
    validPixels := p.validPixels.set idx (alpha != 0)
    resultRGB :=
      (((p.resultRGB.set (idx * 4 + 0) r).set (idx * 4 + 1) g).set (idx * 4 + 2) b).set
        (idx * 4 + 3) alpha }

/-- Source: `SLICProcessor::Initialize`, lines 199-235. -/
def Initialize {R : Type} [DoubleOps R] (p : SLICProcessor R) (w h : Int) (src : Int → BYTE)
    (rowBytes pixelBytes : Int) : SLICProcessor R :=
  let totalPixels := w.toNat * h.toNat
  let p0 : SLICProcessor R :=
    { width := w
      height := h
      labData := resize p.labData totalPixels default
      labels := assign totalPixels (-1)
      distances := assign totalPixels dblMax
      clusters := p.clusters
      resultRGB := resize p.resultRGB (totalPixels * 4) 0
      validPixels := resize p.validPixels totalPixels false }
  (intRange 0 h).foldl
    (fun p y => (intRange 0 w).foldl (fun p x => initPixel w src rowBytes pixelBytes y x p) p) p0

/-- The cluster pushed by line 276 for the centre `(cx, cy)`. -/
def seedCluster {R : Type} [DoubleOps R] (p : SLICProcessor R) (cx cy : Int) : SlicCluster R :=
  let c := p.labData.getD (cy * p.width + cx).toNat default
  { l := c.l, a := c.a, b := c.b, x := ofInt cx, y := ofInt cy, count := 0 }

/-- The neighbourhood search of lines 258-270: the first valid pixel `(nx, ny)` of
`[startX, endX) x [startY, endY)`, rows first, if there is one. -/
def findValid {R : Type} (p : SLICProcessor R) (startX endX startY endY : Int) :
    Option (Int × Int) :=
  (intRange startY endY).findSome? fun ny =>
    (intRange startX endX).findSome? fun nx =>
      if p.validPixels.getD (ny * p.width + nx).toNat false then some (nx, ny) else none

/-- The body of the seeding loops for the grid point `(x, y)`, lines 244-276. -/
def seedPoint {R : Type} [DoubleOps R] (p : SLICProcessor R) (step y x : Int)
    (clusters : List (SlicCluster R)) : List (SlicCluster R) :=
  let centerIdx := (y * p.width + x).toNat
  if !(p.validPixels.getD centerIdx false) then
    let searchRange := step / 2
    let startY := max 0 (y - searchRange)
    let endY := min p.height (y + searchRange)
    let startX := max 0 (x - searchRange)
    let endX := min p.width (x + searchRange)
    match findValid p startX endX startY endY with
    | none => clusters
    | some (nx, ny) => clusters ++ [seedCluster p nx ny]
  else clusters ++ [seedCluster p x y]

/-- The seeding phase of `Execute`, lines 241-278 (`step` already clamped). -/
def seedClusters {R : Type} [DoubleOps R] (p : SLICProcessor R) (step : Int) :
    List (SlicCluster R) :=
  (strideRange (step / 2) step p.height).foldl
    (fun cl y => (strideRange (step / 2) step p.width).foldl
      (fun cl x => seedPoint p step y x cl) cl) []

/-- Source: the product `a * b` of two `int`, as in `ns * ns` of line 320: the product
reduced to 32 bits in two's complement, which is what the compiled code computes when the
product does not fit (from `ns = 46341` on). -/
def mulInt32 (a b : Int) : Int := (a * b + 2 ^ 31) % 2 ^ 32 - 2 ^ 31

/-- The body of the assignment loops for cluster `k` and pixel `(x, y)`, lines 308-325;
the state is `(labels, distances)`. -/
def assignPixel {R : Type} [DoubleOps R] (p : SLICProcessor R) (m : R) (ns : Int) (k : Nat)
    (y x : Int) (ld : List Int × List R) : List Int × List R :=
  let idx := (y * p.width + x).toNat
  if !(p.validPixels.getD idx false) then ld
  else
    let pixel := p.labData.getD idx default
    let c := p.clusters.getD k default
    let d_lab := pow (pixel.l - c.l) (ofInt 2) + pow (pixel.a - c.a) (ofInt 2)
      + pow (pixel.b - c.b) (ofInt 2)
    let d_xy := pow (ofInt x - c.x) (ofInt 2) + pow (ofInt y - c.y) (ofInt 2)
    let D := d_lab + (m * m / ofInt (mulInt32 ns ns)) * d_xy
    if lt D (ld.2.getD idx dblMax) then (ld.1.set idx (k : Int), ld.2.set idx D) else ld

/-- The window scan of cluster `k`, lines 297-327. -/
def assignCluster {R : Type} [DoubleOps R] (p : SLICProcessor R) (m : R) (ns : Int) (k : Nat)
    (ld : List Int × List R) : List Int × List R :=
  let cx := toInt (p.clusters.getD k default).x
  let cy := toInt (p.clusters.getD k default).y
  let startX := max 0 (cx - ns)
  let startY := max 0 (cy - ns)
  let endX := min p.width (cx + ns)
  let endY := min p.height (cy + ns)
  (intRange startY endY).foldl
    (fun ld y => (intRange startX endX).foldl (fun ld x => assignPixel p m ns k y x ld) ld) ld

/-- The assignment sweep, lines 296-328. -/
def assignment {R : Type} [DoubleOps R] (p : SLICProcessor R) (m : R) (ns : Int) :
    SLICProcessor R :=
  let ld := (List.range p.clusters.length).foldl (fun ld k => assignCluster p m ns k ld)
    (p.labels, p.distances)
  { p with labels := ld.1, distances := ld.2 }

/-- The accumulator reset of lines 334-337. -/
def zeroClusters {R : Type} [DoubleOps R] (clusters : List (SlicCluster R)) :
    List (SlicCluster R) :=
  clusters.map fun _ => { l := 0.0, a := 0.0, b := 0.0, x := 0.0, y := 0.0, count := 0 }

/-- The body of the accumulation loop for pixel `i`, lines 340-349. -/
def accumulatePixel {R : Type} [DoubleOps R] (p : SLICProcessor R) (i : Nat)
    (clusters : List (SlicCluster R)) : List (SlicCluster R) :=
  if !(p.validPixels.getD i false) then clusters
  else
    let k := p.labels.getD i (-1)
    if k ≥ 0 ∧ k < (clusters.length : Int) then
      let c := clusters.getD k.toNat default
      let px := p.labData.getD i default
      clusters.set k.toNat
        { l := c.l + px.l, a := c.a + px.a, b := c.b + px.b
          x := c.x + ofInt ((i : Int) % p.width), y := c.y + ofInt ((i : Int) / p.width)
          count := c.count + 1 }
    else clusters

/-- The accumulation loop, lines 339-350. -/
def accumulate {R : Type} [DoubleOps R] (p : SLICProcessor R)
    (clusters : List (SlicCluster R)) : List (SlicCluster R) :=
  (List.range (p.width * p.height).toNat).foldl (fun cl i => accumulatePixel p i cl) clusters

/-- The body of the averaging loop for cluster `k`, lines 354-363. -/
def averageCluster {R : Type} [DoubleOps R] (prevClusters : List (SlicCluster R)) (k : Nat)
    (clusters : List (SlicCluster R)) : List (SlicCluster R) :=
  let c := clusters.getD k default
  if c.count > 0 then
    clusters.set k
      { l := c.l / ofInt c.count, a := c.a / ofInt c.count, b := c.b / ofInt c.count
        x := c.x / ofInt c.count, y := c.y / ofInt c.count, count := c.count }
  else clusters.set k (prevClusters.getD k default)

/-- The averaging loop, lines 353-364. -/
def average {R : Type} [DoubleOps R] (prevClusters clusters : List (SlicCluster R)) :
    List (SlicCluster R) :=
  (List.range clusters.length).foldl (fun cl k => averageCluster prevClusters k cl) clusters

/-- The update of one iteration, lines 331-364: snapshot, reset, accumulate, average or
roll back. -/
def updateClusters {R : Type} [DoubleOps R] (p : SLICProcessor R) : SLICProcessor R :=
  let prevClusters := p.clusters
  { p with clusters := average prevClusters (accumulate p (zeroClusters p.clusters)) }

/-- The part of the body of the iteration loop that follows the poll, lines 295-369. -/
def iteration {R : Type} [DoubleOps R] (m : R) (ns : Int) (iter : Nat) (p : SLICProcessor R) :
    SLICProcessor R :=
  let p := updateClusters (assignment p m ns)
  if iter < 9 then { p with distances := assign (p.width * p.height).toNat dblMax } else p

/-- The body of the render loop for pixel `i`, lines 380-388. -/
def renderPixel {R : Type} [DoubleOps R] (p : SLICProcessor R) (i : Nat)
    (resultRGB : List BYTE) : List BYTE :=
  let k := p.labels.getD i (-1)
  if k ≥ 0 ∧ k < (p.clusters.length : Int) then
    let c := p.clusters.getD k.toNat default
    let rgb := LAB2RGB c.l c.a c.b
    ((resultRGB.set (i * 4 + 0) rgb.1).set (i * 4 + 1) rgb.2.1).set (i * 4 + 2) rgb.2.2
  else resultRGB

/-- The render loop, lines 379-389. -/
def render {R : Type} [DoubleOps R] (p : SLICProcessor R) : SLICProcessor R :=
  { p with
    resultRGB := (List.range (p.width * p.height).toNat).foldl
      (fun res i => renderPixel p i res) p.resultRGB }

/-! ## The host -/

/-- The constants of the plug-in SDK header that `Execute` uses; the header is not part of
the sources, so their values are parameters. -/
structure HostConsts where
  kTriglavPlugInFilterRunProcessStateContinue : Int
  kTriglavPlugInFilterRunProcessResultContinue : Int
  kTriglavPlugInFilterRunProcessResultRestart : Int
  kTriglavPlugInFilterRunProcessResultExit : Int

/-- A call made to the host.  Calls that only read from the host or release a bitmap are
not recorded.  For the bitmap and offscreen calls the arguments kept are the size of the
bitmap, the position in the offscreen and, for `setBitmapProc`, the pixels written. -/
inductive HostCall where
  | FilterRunSetProgressTotal (total : Int)
  | FilterRunSetProgressDone (done : Int)
  | FilterRunProcess (state : Int)
  | BitmapCreate (width height : Int)
  | OffscreenGetBitmap (left top width height : Int)
  | OffscreenSetBitmap (left top width height : Int) (pixels : List BYTE)
  | FilterRunUpdateDestinationOffscreenRect (left top right bottom : Int)
  deriving DecidableEq, Repr

/-- What `Execute` has changed so far: the processor, `*pCurrentProgress` (`none` for a null
pointer) and the calls made to the host, oldest first. -/
structure ExecState (R : Type) where
  proc : SLICProcessor R
  progress : Option Int
  calls : List HostCall

/-- Source: lines 284-287 and 374-377, `if (pCurrentProgress) \x7b ... \x7d`. -/
def reportProgress {R : Type} (progressUnit : Int) (s : ExecState R) : ExecState R :=
  match s.progress with
  | none => s
  | some cur =>
    { s with
      progress := some (cur + progressUnit)
      calls := s.calls ++ [HostCall.FilterRunSetProgressDone (cur + progressUnit)] }

/-- The iteration loop `for (iter = ...; iter < 10; iter++)` with `n` rounds left, lines
282-370.  The result is `some r` when the loop returns `r` early. -/
def iterLoop {R : Type} [DoubleOps R] (K : HostConsts) (m : R) (ns : Int) (host : Nat → Int)
    (progressUnit : Int) : Nat → Nat → ExecState R → Option Int × ExecState R
  | 0, _, s => (none, s)
  | n + 1, iter, s =>
    let s := reportProgress progressUnit s
    let processResult := host iter
    let s := { s with
      calls := s.calls ++ [HostCall.FilterRunProcess K.kTriglavPlugInFilterRunProcessStateContinue] }
    if processResult = K.kTriglavPlugInFilterRunProcessResultExit
        ∨ processResult = K.kTriglavPlugInFilterRunProcessResultRestart then
      (some processResult, s)
    else iterLoop K m ns host progressUnit n (iter + 1) { s with proc := iteration m ns iter s.proc }

/-- Source: line 238, `if (step < 2) step = 2;`. -/
def clampStep (step : Int) : Int := if step < 2 then 2 else step

/-- Source: `SLICProcessor::Execute`, lines 237-391.  The result is the returned value
together with the final state. -/
def Execute {R : Type} [DoubleOps R] (K : HostConsts) (p : SLICProcessor R) (step : Int) (m : R)
    (host : Nat → Int) (pCurrentProgress : Option Int) (progressUnit : Int) :
    Int × ExecState R :=
  let step := clampStep step
  let p := { p with clusters := seedClusters p step }
  let ns := step
  match iterLoop K m ns host progressUnit 10 0 ⟨p, pCurrentProgress, []⟩ with
  | (some processResult, s) => (processResult, s)
  | (none, s) =>
    let s := reportProgress progressUnit s
    (K.kTriglavPlugInFilterRunProcessResultContinue, { s with proc := render s.proc })

/-- The part of one pass of the filter run that sets up the progress and runs the
processor, lines 587-606 of `TriglavPluginCall`: declare the total, `Initialize`, report the
first unit, `Execute` with `&currentProgress` and unit 1.  The result is what `Execute`
returned and the state with all the calls of the pass so far. -/
def filterRunProcess {R : Type} [DoubleOps R] (K : HostConsts) (processor : SLICProcessor R)
    (width height : Int) (srcRaw : Int → BYTE) (srcRowBytes srcPixelBytes : Int)
    (cellSize : Int) (compactness : R) (host : Nat → Int) : Int × ExecState R :=
  let calls := [HostCall.FilterRunSetProgressTotal 12]
  let processor := Initialize processor width height srcRaw srcRowBytes srcPixelBytes
  let currentProgress : Int := 1
  let calls := calls ++ [HostCall.FilterRunSetProgressDone currentProgress]
  let execResult := Execute K processor cellSize compactness host (some currentProgress) 1
  (execResult.1, { execResult.2 with calls := calls ++ execResult.2.calls })

/-! ## A concrete arithmetic and a concrete image -/

/-- Exact rational arithmetic as an instance of the operations on `double`: `+ - * /`,
comparison and the conversions are exact, `toInt` truncates towards zero, powers with a
natural exponent are exact, and a power with another exponent (which has no rational
value in general) is replaced by its base.  It agrees with the machine arithmetic wherever
every value met is exactly representable; it is used to run the definitions on examples. -/
instance ratOps : DoubleOps ℚ where
  lt a b := decide (a < b)
  pow x y := if y.den = 1 then x ^ y.num.toNat else x
  ofInt n := (n : ℚ)
  toInt q := Int.tdiv q.num (q.den : Int)
  dblMax := (2 ^ 53 - 1) * 2 ^ 971
  abs q := |q|

/-- Sample values of the SDK constants (state continue, results continue, restart, exit). -/
def sampleConsts : HostConsts := ⟨0x0102, 0x0101, 0x0102, 0x0103⟩

/-- The processor as constructed at line 531, before its first `Initialize`. -/
def freshProcessor : SLICProcessor ℚ := ⟨0, 0, [], [], [], [], [], []⟩

/-- A 2x2 RGBA bitmap with 8 bytes per row: the pixel `(0, 0)` is transparent, the other
three are opaque dark red, green and blue.  With channels this small both conversions stay
in their linear branches, so no power with a fractional exponent is taken and `ratOps`
computes the exact values. -/
def sampleBitmap (o : Int) : BYTE :=
  [1, 2, 3, 0, 10, 0, 0, 255, 0, 10, 0, 255, 0, 0, 10, 255].getD o.toNat 0

/-- A host that answers continue to every poll. -/
def hostContinue : Nat → Int := fun _ => 0x0101

/-- A host that answers continue three times and then exit. -/
def hostExitAtThree : Nat → Int := fun i => if i = 3 then 0x0103 else 0x0101

/-- A processor with one valid pixel and two clusters of its colour on it. -/
def twoClustersOnePixel : SLICProcessor ℚ :=
  { width := 1, height := 1
    labData := [⟨50, 0, 0⟩]
    labels := [-1]
    distances := [DoubleOps.dblMax]
    clusters := [⟨50, 0, 0, 0, 0, 0⟩, ⟨50, 0, 0, 0, 0, 0⟩]
    resultRGB := [119, 119, 119, 255]
    validPixels := [true] }

/-! ## Vocabulary of the statements -/


/-- The totals declared, in the order of the declarations. -/
def totals (calls : List HostCall) : List Int :=
  calls.filterMap fun c => match c with
    | HostCall.FilterRunSetProgressTotal t => some t
    | _ => none


/-- The byte `px[c]` of the source pixel `(x, y)`: offset `y * rowBytes + x * pixelBytes + c`. -/
def srcByte (src : Int → BYTE) (rowBytes pixelBytes x y c : Int) : BYTE :=
  src (y * rowBytes + x * pixelBytes + c)

/-- The alpha of the source pixel `(x, y)` as line 220 reads it. -/
def srcAlpha (src : Int → BYTE) (rowBytes pixelBytes x y : Int) : BYTE :=
  if pixelBytes ≥ 4 then srcByte src rowBytes pixelBytes x y 3 else 255

/-- The Lab colour of the source pixel `(x, y)`. -/
def srcLab {R : Type} [DoubleOps R] (src : Int → BYTE) (rowBytes pixelBytes x y : Int) :
    SlicColor R :=
  RGB2LAB (srcByte src rowBytes pixelBytes x y 0) (srcByte src rowBytes pixelBytes x y 1)
    (srcByte src rowBytes pixelBytes x y 2)

/-- The entries of pixel `i` in `labData`, `validPixels` and `resultRGB` are the given ones. -/
def PixelIs {R : Type} [DoubleOps R] (p : SLICProcessor R) (i : Nat) (lab : SlicColor R)
    (r g b alpha : BYTE) : Prop :=
  p.labData.getD i default = lab ∧ p.validPixels.getD i false = (alpha != 0) ∧
    p.resultRGB.getD (i * 4 + 0) 0 = r ∧ p.resultRGB.getD (i * 4 + 1) 0 = g ∧
    p.resultRGB.getD (i * 4 + 2) 0 = b ∧ p.resultRGB.getD (i * 4 + 3) 0 = alpha

/-- The entries of pixel `(x, y)` are those of the source pixel `(x, y)`. -/
def PixelIsSource {R : Type} [DoubleOps R] (w : Int) (src : Int → BYTE)
    (rowBytes pixelBytes : Int) (p : SLICProcessor R) (x y : Int) : Prop :=
  PixelIs p (y * w + x).toNat (srcLab src rowBytes pixelBytes x y)
    (srcByte src rowBytes pixelBytes x y 0) (srcByte src rowBytes pixelBytes x y 1)
    (srcByte src rowBytes pixelBytes x y 2) (srcAlpha src rowBytes pixelBytes x y)

/-- The fields of the processor that the pixel loop of `Initialize` leaves alone, and the
sizes of the vectors it writes. -/
def InitFrame {R : Type} [DoubleOps R] (p0 : SLICProcessor R) (w h : Int)
    (p : SLICProcessor R) : Prop :=
  p.width = w ∧ p.height = h ∧ p.labels = assign (w.toNat * h.toNat) (-1) ∧
    p.distances = assign (w.toNat * h.toNat) dblMax ∧ p.clusters = p0.clusters ∧
    p.labData.length = w.toNat * h.toNat ∧ p.validPixels.length = w.toNat * h.toNat ∧
    p.resultRGB.length = w.toNat * h.toNat * 4

/-- The host result `r` makes `Execute` return early (line 291). -/
def isStop (K : HostConsts) (r : Int) : Prop :=
  r = K.kTriglavPlugInFilterRunProcessResultExit
    ∨ r = K.kTriglavPlugInFilterRunProcessResultRestart

instance (K : HostConsts) (r : Int) : Decidable (isStop K r) := by
  unfold isStop; infer_instance

/-- The processor after the rounds `iter, iter + 1, ..., iter + n - 1` of the iteration loop
have run to their end. -/
def iterationsFrom {R : Type} [DoubleOps R] (m : R) (ns : Int) :
    Nat → Nat → SLICProcessor R → SLICProcessor R
  | 0, _, p => p
  | n + 1, iter, p => iterationsFrom m ns n (iter + 1) (iteration m ns iter p)

/-- The processor when the first `n` rounds of the iteration loop of `Execute` have run to
their end: seeding with the clamped step, then `n` times assignment, update and reset. -/
def afterIterations {R : Type} [DoubleOps R] (p : SLICProcessor R) (step : Int) (m : R)
    (n : Nat) : SLICProcessor R :=
  iterationsFrom m (clampStep step) n 0 { p with clusters := seedClusters p (clampStep step) }

/-- The calls that `n` rounds of the iteration loop make when each of them reaches its poll:
per round the progress report (if there is a progress counter), then one poll. -/
def roundCalls (K : HostConsts) (progressUnit : Int) : Nat → Option Int → List HostCall
  | 0, _ => []
  | n + 1, cur =>
    (match cur with
      | none => []
      | some c => [HostCall.FilterRunSetProgressDone (c + progressUnit)])
    ++ [HostCall.FilterRunProcess K.kTriglavPlugInFilterRunProcessStateContinue]
    ++ roundCalls K progressUnit n (cur.map (· + progressUnit))

/-- The progress counter after `n` reports. -/
def progressAfter (progressUnit : Int) : Nat → Option Int → Option Int
  | 0, cur => cur
  | n + 1, cur => progressAfter progressUnit n (cur.map (· + progressUnit))

/-- The polls among the calls. -/
def polls (calls : List HostCall) : List HostCall :=
  calls.filter fun c => match c with
    | HostCall.FilterRunProcess _ => true
    | _ => false

/-- The values reported as done, in the order of the reports. -/
def doneValues (calls : List HostCall) : List Int :=
  calls.filterMap fun c => match c with
    | HostCall.FilterRunSetProgressDone d => some d
    | _ => none

/-- Every entry of `labels` is the sentinel `-1` or an index below `n`, and it is the
sentinel wherever `valid` is false. -/
def LabelListOK (n : Nat) (valid : List Bool) (labels : List Int) : Prop :=
  ∀ i : Nat, (labels.getD i (-1) = -1 ∨
      (0 ≤ labels.getD i (-1) ∧ labels.getD i (-1) < (n : Int))) ∧
    (valid.getD i false = false → labels.getD i (-1) = -1)

/-- Every label of the processor is the sentinel `-1` or the index of a cluster, and no
invalid pixel has a label. -/
def LabelsOK {R : Type} (p : SLICProcessor R) : Prop :=
  LabelListOK p.clusters.length p.validPixels p.labels

/-- The label `k` is the index of a cluster of `p` (the test of lines 342 and 381). -/
def labelInRange {R : Type} (p : SLICProcessor R) (k : Int) : Prop :=
  0 ≤ k ∧ k < (p.clusters.length : Int)

instance {R : Type} (p : SLICProcessor R) (k : Int) : Decidable (labelInRange p k) := by
  unfold labelInRange; infer_instance

/-- The processors `p` and `q` differ at most in labels, distances and the values (not the
number) of the clusters. -/
def SameImage {R : Type} (p q : SLICProcessor R) : Prop :=
  q.width = p.width ∧ q.height = p.height ∧ q.labData = p.labData ∧
    q.validPixels = p.validPixels ∧ q.resultRGB = p.resultRGB ∧
    q.clusters.length = p.clusters.length

/-- The cluster `c` is the one line 276 creates for the centre `(cx, cy)`, a valid pixel of
the image of `p`. -/
def SeededAt {R : Type} [DoubleOps R] (p : SLICProcessor R) (c : SlicCluster R)
    (cx cy : Int) : Prop :=
  0 ≤ cx ∧ cx < p.width ∧ 0 ≤ cy ∧ cy < p.height ∧
    p.validPixels.getD (cy * p.width + cx).toNat false = true ∧ c = seedCluster p cx cy

/-! ## Vocabulary of the seeding -/

/-- The pixel `(x, y)` of the processor is valid: `validPixels[y * width + x]`. -/
def validAt {R : Type} (p : SLICProcessor R) (x y : Int) : Bool :=
  p.validPixels.getD (y * p.width + x).toNat false

/-- The pixel `(ax, ay)` lies in the square searched around the grid point `(x, y)`, lines
253-256: `[x - step/2, x + step/2) x [y - step/2, y + step/2)` clipped to the image. -/
def inSearchSquare {R : Type} (p : SLICProcessor R) (step x y ax ay : Int) : Prop :=
  max 0 (x - step / 2) ≤ ax ∧ ax < min p.width (x + step / 2) ∧
    max 0 (y - step / 2) ≤ ay ∧ ay < min p.height (y + step / 2)

/-- The pixel `(nx, ny)` is the first valid pixel of the square searched around `(x, y)` in
row-major order: it is valid, and every pixel of the square in an earlier row, or in the
same row further left, is invalid. -/
def FirstValid {R : Type} (p : SLICProcessor R) (step x y nx ny : Int) : Prop :=
  inSearchSquare p step x y nx ny ∧ validAt p nx ny = true ∧
    ∀ ax ay, inSearchSquare p step x y ax ay → (ay < ny ∨ (ay = ny ∧ ax < nx)) →
      validAt p ax ay = false

/-- The number of rounds of `for (v = start; v < bound; v += step)`:
`ceil((bound - start) / step)`, and 0 when `bound ≤ start`. -/
def gridCount (start step bound : Int) : Nat :=
  ((bound - start + step - 1) / step).toNat

/-- A 4x4 RGBA bitmap with 16 bytes per row, every pixel dark grey and opaque except the
pixel `(2, 2)`, which is transparent (its alpha is the byte at offset 43). -/
def holeBitmap (o : Int) : BYTE :=
  if o = 43 then 0 else if o % 4 = 3 then 255 else 10

/-- The claim that the neighbourhood search around the grid point `(x, y)` returns a valid
pixel nearest to the grid point: no valid pixel of the searched square is strictly closer
(in Euclidean distance) to `(x, y)` than the pixel returned. -/
def RelocatesToNearest {R : Type} (p : SLICProcessor R) (step x y : Int) : Prop :=
  ∀ nx ny,
    findValid p (max 0 (x - step / 2)) (min p.width (x + step / 2))
      (max 0 (y - step / 2)) (min p.height (y + step / 2)) = some (nx, ny) →
    ∀ ax ay, inSearchSquare p step x y ax ay → validAt p ax ay = true →
      ¬ ((ax - x) ^ 2 + (ay - y) ^ 2 < (nx - x) ^ 2 + (ny - y) ^ 2)

/-- The clusters seeded so far are those of pairwise different centres, all of which lie
before the cell of the grid point in row `i`, column `j` of the grid of spacing `S`: in a
row of cells above, or in the same row of cells further left. -/
def CentresBefore {R : Type} [DoubleOps R] (p : SLICProcessor R) (S : Int) (i j : Nat)
    (clusters : List (SlicCluster R)) : Prop :=
  ∃ centres : List (Int × Int),
    clusters = centres.map (fun c => seedCluster p c.1 c.2) ∧ centres.Nodup ∧
      ∀ c ∈ centres, c.2 < (i : Int) * S ∨ (c.2 < ((i : Int) + 1) * S ∧ c.1 < (j : Int) * S)

instance {R : Type} (p : SLICProcessor R) (step x y ax ay : Int) :
    Decidable (inSearchSquare p step x y ax ay) := by
  unfold inSearchSquare; infer_instance

/-- A 4x4 RGBA bitmap with 16 bytes per row, every pixel opaque red `(255, 0, 0, 255)`. -/
def redBitmap (o : Int) : BYTE :=
  if o % 4 = 0 ∨ o % 4 = 3 then 255 else 0

/-! ## Vocabulary of the update -/

/-- The valid pixels labelled `k`, by ascending index: the pixels that the accumulation loop
adds to cluster `k`. -/
def members {R : Type} (p : SLICProcessor R) (k : Nat) : List Nat :=
  (List.range (p.width * p.height).toNat).filter
    (fun i => p.validPixels.getD i false && decide (p.labels.getD i (-1) = (k : Int)))

/-- The sum of a list of doubles as the accumulation loop forms it: starting from `0.0`, the
values are added one by one in the order of the list. -/
def sumOf {R : Type} [DoubleOps R] (vals : List R) : R :=
  vals.foldl (· + ·) 0.0

/-- The cluster `c` after lines 343-348 have added pixel `i` to it. -/
def addPixel {R : Type} [DoubleOps R] (p : SLICProcessor R) (c : SlicCluster R) (i : Nat) :
    SlicCluster R :=
  { l := c.l + (p.labData.getD i default).l
    a := c.a + (p.labData.getD i default).a
    b := c.b + (p.labData.getD i default).b
    x := c.x + ofInt ((i : Int) % p.width)
    y := c.y + ofInt ((i : Int) / p.width)
    count := c.count + 1 }

/-- The processor of the sample bitmap after seeding with step 2 and one assignment sweep
with compactness 20. -/
def sampleAssigned : SLICProcessor ℚ :=
  assignment
    { Initialize freshProcessor 2 2 sampleBitmap 8 4 with
      clusters := seedClusters (Initialize freshProcessor 2 2 sampleBitmap 8 4) 2 } 20 2

/-! ## The property callback -/

/-- Source: line 43. -/
def kItemKeyCellSize : Int := 1

/-- Source: line 44. -/
def kItemKeyCompactness : Int := 2

/-- The constants of the plug-in SDK header that the property callback uses; their values
are parameters. -/
structure PropertyConsts where
  kTriglavPlugInPropertyCallBackResultNoModify : Int
  kTriglavPlugInPropertyCallBackResultModify : Int
  kTriglavPlugInPropertyCallBackNotifyValueChanged : Int

/-- The two procedures of `TriglavPlugInPropertyService` that the callback calls, applied to
the property object of the call: the value of the item with the given key. -/
structure TriglavPlugInPropertyService (R : Type) where
  getIntegerValueProc : Int → Int
  getDecimalValueProc : Int → R

/-- Source: `struct SLICFilterInfo`, lines 55-60; `pPropertyService` is `none` for a null
pointer. -/
structure SLICFilterInfo (R : Type) where
  cellSize : Int
  compactness : R
  pPropertyService : Option (TriglavPlugInPropertyService R)

/-- Source: `TriglavPlugInFilterPropertyCallBack`, lines 63-94; `data` is `none` for a null
pointer.  The result is `*result` together with the filter info after the call. -/
def TriglavPlugInFilterPropertyCallBack {R : Type} [DoubleOps R] (C : PropertyConsts)
    (itemKey notify : Int) (data : Option (SLICFilterInfo R)) :
    Int × Option (SLICFilterInfo R) :=
  let result := C.kTriglavPlugInPropertyCallBackResultNoModify
  match data with
  | none => (result, none)
  | some pFilterInfo =>
    match pFilterInfo.pPropertyService with
    | none => (result, some pFilterInfo)
    | some service =>
      if notify = C.kTriglavPlugInPropertyCallBackNotifyValueChanged then
        if itemKey = kItemKeyCellSize then
          let value := service.getIntegerValueProc itemKey
          if pFilterInfo.cellSize ≠ value then
            (C.kTriglavPlugInPropertyCallBackResultModify,
              some { pFilterInfo with cellSize := value })
          else (result, some pFilterInfo)
        else if itemKey = kItemKeyCompactness then
          let value := service.getDecimalValueProc itemKey
          if dgt (abs (pFilterInfo.compactness - value)) 1e-6 then
            (C.kTriglavPlugInPropertyCallBackResultModify,
              some { pFilterInfo with compactness := value })
          else (result, some pFilterInfo)
        else (result, some pFilterInfo)
      else (result, some pFilterInfo)

/-! ## The filter run -/

/-- The constants of the plug-in SDK header that the filter run uses besides those of
`Execute`; their values are parameters. -/
structure RunConsts where
  kTriglavPlugInCallResultSuccess : Int
  kTriglavPlugInCallResultFailed : Int
  kTriglavPlugInFilterRunProcessStateStart : Int
  kTriglavPlugInFilterRunProcessStateEnd : Int

/-- What the host answers during one pass of the loop of the filter run, lines 540-664:
the result of the poll with state start, the values of the two properties, the extent of
the source offscreen, whether `createProc` and `getBitmapProc` succeed for the source
bitmap, the source bitmap (address, row bytes, pixel bytes), the results of the polls of
`Execute`, whether `createProc` succeeds for the destination bitmap, and the result of the
poll with state end. -/
structure PassAnswers (R : Type) where
  startResult : Int
  cellSize : Int
  compactness : R
  left : Int
  top : Int
  right : Int
  bottom : Int
  createSrc : Bool
  getBitmap : Bool
  srcRaw : Int → BYTE
  srcRowBytes : Int
  srcPixelBytes : Int
  execHost : Nat → Int
  createDst : Bool
  endResult : Int

/-- How a pass leaves the body of the loop: by `break`, or with `restart = true`. -/
inductive PassEnd where
  | breakLoop
  | restart
  deriving DecidableEq, Repr

/-- The state after a pass: how it ended, the processor, and the calls the pass made to the
host, oldest first. -/
structure PassResult (R : Type) where
  ending : PassEnd
  processor : SLICProcessor R
  calls : List HostCall

/-- One pass of the loop of the filter run, lines 540-664 (`restart` is true at the head of
every pass). -/
def filterRunPass {R : Type} [DoubleOps R] (K : HostConsts) (Kr : RunConsts)
    (processor : SLICProcessor R) (a : PassAnswers R) : PassResult R :=
  let calls := [HostCall.FilterRunProcess Kr.kTriglavPlugInFilterRunProcessStateStart]
  if a.startResult = K.kTriglavPlugInFilterRunProcessResultExit then
    ⟨PassEnd.breakLoop, processor, calls⟩
  else
    let width := a.right - a.left
    let height := a.bottom - a.top
    if width ≤ 0 ∨ height ≤ 0 then ⟨PassEnd.breakLoop, processor, calls⟩
    else
      let calls := calls ++ [HostCall.BitmapCreate width height]
      if !a.createSrc then ⟨PassEnd.breakLoop, processor, calls⟩
      else
        let calls := calls ++ [HostCall.OffscreenGetBitmap a.left a.top width height]
        if !a.getBitmap then ⟨PassEnd.breakLoop, processor, calls⟩
        else
          let exec := filterRunProcess K processor width height a.srcRaw a.srcRowBytes
            a.srcPixelBytes a.cellSize a.compactness a.execHost
          let calls := calls ++ exec.2.calls
          if exec.1 = K.kTriglavPlugInFilterRunProcessResultRestart then
            ⟨PassEnd.restart, exec.2.proc, calls⟩
          else if exec.1 = K.kTriglavPlugInFilterRunProcessResultExit then
            ⟨PassEnd.breakLoop, exec.2.proc, calls⟩
          else
            let calls := calls ++ [HostCall.BitmapCreate width height]
            if !a.createDst then ⟨PassEnd.breakLoop, exec.2.proc, calls⟩
            else
              let calls := calls ++
                [HostCall.OffscreenSetBitmap a.left a.top width height exec.2.proc.resultRGB,
                  HostCall.FilterRunUpdateDestinationOffscreenRect a.left a.top a.right a.bottom,
                  HostCall.FilterRunProcess Kr.kTriglavPlugInFilterRunProcessStateEnd]
              if a.endResult = K.kTriglavPlugInFilterRunProcessResultRestart then
                ⟨PassEnd.restart, exec.2.proc, calls⟩
              else ⟨PassEnd.breakLoop, exec.2.proc, calls⟩

/-- The loop `while (true)` of the filter run, lines 538-665, from pass number `n` on, with
at most `fuel` passes; `answers n` is what the host answers during pass `n`.  The result is
`none` when the host asks for a restart in each of the `fuel` passes. -/
def filterRunLoop {R : Type} [DoubleOps R] (K : HostConsts) (Kr : RunConsts)
    (answers : Nat → PassAnswers R) :
    Nat → Nat → SLICProcessor R → List HostCall → Option (SLICProcessor R × List HostCall)
  | 0, _, _, _ => none
  | fuel + 1, n, processor, calls =>
    let r := filterRunPass K Kr processor (answers n)
    match r.ending with
    | PassEnd.breakLoop => some (r.processor, calls ++ r.calls)
    | PassEnd.restart => filterRunLoop K Kr answers fuel (n + 1) r.processor (calls ++ r.calls)

/-- Source: `TriglavPluginCall` for the selector `kTriglavPlugInSelectorFilterRun`, lines
398 and 491-681, when no exception is thrown; `present` says whether the plug-in server,
the filter run record and the services are all non-null.  The result is `*result` and the
calls made to the host. -/
def TriglavPluginCallFilterRun {R : Type} [DoubleOps R] (K : HostConsts) (Kr : RunConsts)
    (present : Bool) (answers : Nat → PassAnswers R) (fuel : Nat) :
    Option (Int × List HostCall) :=
  let result := Kr.kTriglavPlugInCallResultFailed
  if present then
    let processor : SLICProcessor R := ⟨0, 0, [], [], [], [], [], []⟩
    match filterRunLoop K Kr answers fuel 0 processor [] with
    | none => none
    | some (_, calls) => some (Kr.kTriglavPlugInCallResultSuccess, calls)
  else some (result, [])

/-- Sample values of the SDK constants of the property callback (no modify, modify, value
changed). -/
def samplePropertyConsts : PropertyConsts := ⟨0, 1, 0x21⟩

/-- Sample values of the SDK constants of the filter run (success, failed, state start,
state end). -/
def sampleRunConsts : RunConsts := ⟨0, -1, 0x0101, 0x0103⟩

/-- A host whose source offscreen has the empty extent `[5, 5) x [7, 9)` (width 0). -/
def emptyExtentAnswers : PassAnswers ℚ :=
  { startResult := 0x0101, cellSize := 30, compactness := 20
    left := 5, top := 7, right := 5, bottom := 9
    createSrc := true, getBitmap := true
    srcRaw := sampleBitmap, srcRowBytes := 8, srcPixelBytes := 4
    execHost := hostContinue, createDst := true, endResult := 0x0101 }

/-- A property service whose integer item has the value 40 and whose decimal item has the
value 20. -/
def sampleService : TriglavPlugInPropertyService ℚ := ⟨fun _ => 40, fun _ => 20⟩

/-- The filter info of line 418-420 (cell size 30, compactness 20) with `sampleService`. -/
def sampleFilterInfo : SLICFilterInfo ℚ := ⟨30, 20, some sampleService⟩

/-! ## Vocabulary of the assignment sweep -/

/-- The pixel `(x, y)` lies in the window that the sweep scans for the cluster `c`, lines
297-304: `[cx - ns, cx + ns) x [cy - ns, cy + ns)` clipped to the image, `(cx, cy)` the
centre cast to `int`. -/
def inWindow {R : Type} [DoubleOps R] (p : SLICProcessor R) (ns : Int) (c : SlicCluster R)
    (x y : Int) : Prop :=
  max 0 (toInt c.x - ns) ≤ x ∧ x < min p.width (toInt c.x + ns) ∧
    max 0 (toInt c.y - ns) ≤ y ∧ y < min p.height (toInt c.y + ns)

instance {R : Type} [DoubleOps R] (p : SLICProcessor R) (ns : Int) (c : SlicCluster R)
    (x y : Int) : Decidable (inWindow p ns c x y) := by
  unfold inWindow; infer_instance

/-- The distance `D` of lines 313-320 between the pixel `(x, y)` and the cluster `c`. -/
def distTo {R : Type} [DoubleOps R] (p : SLICProcessor R) (m : R) (ns : Int)
    (c : SlicCluster R) (x y : Int) : R :=
  pow ((p.labData.getD (y * p.width + x).toNat default).l - c.l) (ofInt 2)
      + pow ((p.labData.getD (y * p.width + x).toNat default).a - c.a) (ofInt 2)
      + pow ((p.labData.getD (y * p.width + x).toNat default).b - c.b) (ofInt 2)
    + (m * m / ofInt (mulInt32 ns ns))
      * (pow (ofInt x - c.x) (ofInt 2) + pow (ofInt y - c.y) (ofInt 2))

/-- What the sweep does to the label and the stored distance of the valid pixel `(x, y)`
when it processes cluster `k`: if the window of the cluster contains the pixel and `D` is
below the stored distance, the pair becomes `(k, D)`. -/
def pixelStep {R : Type} [DoubleOps R] (p : SLICProcessor R) (m : R) (ns : Int) (x y : Int)
    (ld : Int × R) (k : Nat) : Int × R :=
  if inWindow p ns (p.clusters.getD k default) x y ∧
      lt (distTo p m ns (p.clusters.getD k default) x y) ld.2 = true then
    ((k : Int), distTo p m ns (p.clusters.getD k default) x y)
  else ld

/-- The comparison `<` of the arithmetic is irreflexive and transitive.  The comparison of
IEEE doubles is: a NaN is below nothing and nothing is below it, so no instance of the two
laws involves one. -/
structure LtStrict (R : Type) [DoubleOps R] : Prop where
  irrefl : ∀ a : R, lt a a = false
  trans : ∀ a b c : R, lt a b = true → lt b c = true → lt a c = true

/-- The claim that the owner of pixel `i` after an assignment sweep does not depend on the
order of the clusters: for every reordering of the clusters, the cluster that pixel `i` is
labelled with after the sweep over the reordered clusters is the cluster it is labelled
with after the sweep over the clusters in their own order. -/
def OwnerOrderIndependent {R : Type} [DoubleOps R] (p : SLICProcessor R) (m : R) (ns : Int)
    (i : Nat) : Prop :=
  ∀ reordered : List (SlicCluster R), reordered.Perm p.clusters →
    reordered.getD ((assignment { p with clusters := reordered } m ns).labels.getD i (-1)).toNat
        default
      = p.clusters.getD ((assignment p m ns).labels.getD i (-1)).toNat default

/-- A processor on a 3x1 image of one colour with two clusters of that colour, at `(0, 0)`
and at `(2, 0)`, before a sweep: the pixel `(1, 0)` is equally far from both. -/
def tiePixels : SLICProcessor ℚ :=
  { width := 3, height := 1
    labData := [⟨50, 0, 0⟩, ⟨50, 0, 0⟩, ⟨50, 0, 0⟩]
    labels := [-1, -1, -1]
    distances := [DoubleOps.dblMax, DoubleOps.dblMax, DoubleOps.dblMax]
    clusters := [⟨50, 0, 0, 0, 0, 0⟩, ⟨50, 0, 0, 2, 0, 0⟩]
    resultRGB := [119, 119, 119, 255, 119, 119, 119, 255, 119, 119, 119, 255]
    validPixels := [true, true, true] }


/-! ## Vocabulary of the first iteration and of the cluster centres -/

/-- Doubles with their special values and without rounding: a finite value is an exact
rational, `pinf` and `ninf` are the infinities and `nan` is NaN.  Signed zeros, underflow
and the rounding of finite results are not modelled. -/
inductive XReal where
  | fin (q : ℚ)
  | pinf
  | ninf
  | nan
deriving DecidableEq

/-- The double for the exact result `q` of an operation: an infinity from
`2 ^ 1024 - 2 ^ 970` on, where rounding to nearest overflows, the largest finite double
between that and the largest finite double, and `q` itself otherwise. -/
def XReal.ofRat (q : ℚ) : XReal :=
  if 2 ^ 1024 - 2 ^ 970 ≤ q then XReal.pinf
  else if q ≤ -(2 ^ 1024 - 2 ^ 970) then XReal.ninf
  else if (2 ^ 53 - 1) * 2 ^ 971 < q then XReal.fin ((2 ^ 53 - 1) * 2 ^ 971)
  else if q < -((2 ^ 53 - 1) * 2 ^ 971) then XReal.fin (-((2 ^ 53 - 1) * 2 ^ 971))
  else XReal.fin q

/-- Unary minus. -/
def XReal.neg : XReal → XReal
  | XReal.fin q => XReal.fin (-q)
  | XReal.pinf => XReal.ninf
  | XReal.ninf => XReal.pinf
  | XReal.nan => XReal.nan

/-- Addition: `inf + -inf` is NaN. -/
def XReal.add : XReal → XReal → XReal
  | XReal.fin a, XReal.fin b => XReal.ofRat (a + b)
  | XReal.nan, _ => XReal.nan
  | _, XReal.nan => XReal.nan
  | XReal.pinf, XReal.ninf => XReal.nan
  | XReal.ninf, XReal.pinf => XReal.nan
  | XReal.pinf, _ => XReal.pinf
  | _, XReal.pinf => XReal.pinf
  | XReal.ninf, _ => XReal.ninf
  | _, XReal.ninf => XReal.ninf

/-- The product of an infinity of sign `positive` and the finite value `a`: NaN for
`a = 0`. -/
def XReal.infTimes (positive : Bool) (a : ℚ) : XReal :=
  if a = 0 then XReal.nan
  else if (0 < a) = (positive = true) then XReal.pinf
  else XReal.ninf

/-- Multiplication: `inf * 0` is NaN. -/
def XReal.mul : XReal → XReal → XReal
  | XReal.fin a, XReal.fin b => XReal.ofRat (a * b)
  | XReal.nan, _ => XReal.nan
  | _, XReal.nan => XReal.nan
  | XReal.fin a, XReal.pinf => XReal.infTimes true a
  | XReal.pinf, XReal.fin a => XReal.infTimes true a
  | XReal.fin a, XReal.ninf => XReal.infTimes false a
  | XReal.ninf, XReal.fin a => XReal.infTimes false a
  | XReal.pinf, XReal.pinf => XReal.pinf
  | XReal.ninf, XReal.ninf => XReal.pinf
  | XReal.pinf, XReal.ninf => XReal.ninf
  | XReal.ninf, XReal.pinf => XReal.ninf

/-- Division: `0 / 0` and `inf / inf` are NaN, a non-zero value divided by zero is an
infinity, a finite value divided by an infinity is 0. -/
def XReal.div : XReal → XReal → XReal
  | XReal.fin a, XReal.fin b =>
    if b = 0 then (if a = 0 then XReal.nan else if 0 < a then XReal.pinf else XReal.ninf)
    else XReal.ofRat (a / b)
  | XReal.nan, _ => XReal.nan
  | _, XReal.nan => XReal.nan
  | XReal.fin _, _ => XReal.fin 0
  | XReal.pinf, XReal.fin b => if 0 ≤ b then XReal.pinf else XReal.ninf
  | XReal.ninf, XReal.fin b => if 0 ≤ b then XReal.ninf else XReal.pinf
  | _, _ => XReal.nan

/-- The comparison `a < b`: false whenever one side is NaN. -/
def XReal.lt : XReal → XReal → Bool
  | XReal.fin a, XReal.fin b => decide (a < b)
  | XReal.ninf, XReal.fin _ => true
  | XReal.ninf, XReal.pinf => true
  | XReal.fin _, XReal.pinf => true
  | _, _ => false

/-- The power with a natural exponent, by repeated multiplication. -/
def XReal.npow (x : XReal) : Nat → XReal
  | 0 => XReal.fin 1
  | n + 1 => XReal.mul (XReal.npow x n) x

/-- The arithmetic on `XReal` as an instance of the operations on `double`.  `std::pow`
is modelled for exponents that are natural numbers only and gives NaN otherwise; the cast
`(int)` of an infinity or a NaN gives `-2 ^ 31`, the value the x86 conversion produces. -/
instance xOps : DoubleOps XReal where
  add := XReal.add
  sub a b := XReal.add a (XReal.neg b)
  mul := XReal.mul
  div := XReal.div
  neg := XReal.neg
  ofScientific mantissa exponentSign decimalExponent :=
    XReal.ofRat (OfScientific.ofScientific mantissa exponentSign decimalExponent)
  lt := XReal.lt
  pow x y := match y with
    | XReal.fin e => if e.den = 1 ∧ 0 ≤ e.num then XReal.npow x e.num.toNat else XReal.nan
    | _ => XReal.nan
  ofInt n := XReal.ofRat n
  toInt x := match x with
    | XReal.fin q => Int.tdiv q.num (q.den : Int)
    | _ => -2 ^ 31
  dblMax := XReal.fin ((2 ^ 53 - 1) * 2 ^ 971)
  abs x := match x with
    | XReal.fin q => XReal.fin |q|
    | XReal.nan => XReal.nan
    | _ => XReal.pinf

theorem getD_set_ne {α : Type} (v : List α) {i j : Nat} (a d : α) (h : i ≠ j) :
    (v.set i a).getD j d = v.getD j d := by
  simp [List.getD_eq_getElem?_getD, List.getElem?_set_ne h]

theorem getD_set_self {α : Type} (v : List α) {i : Nat} (a d : α) (h : i < v.length) :
    (v.set i a).getD i d = a := by
  simp [List.getD_eq_getElem?_getD, List.getElem?_set_self, h]

/-- A property kept by every round of a loop holds after the loop. -/
theorem foldl_inv {α σ : Type} (f : σ → α → σ) (P : σ → Prop) :
    ∀ (l : List α) (s : σ), P s → (∀ s a, a ∈ l → P s → P (f s a)) → P (l.foldl f s) := by
  intro l
  induction l with
  | nil => intro s h _; exact h
  | cons a tl ih =>
    intro s h hstep
    simp only [List.foldl_cons]
    apply ih
    · exact hstep s a (List.mem_cons_self a tl) h
    · intro s' b hb hs'
      exact hstep s' b (List.mem_cons_of_mem a hb) hs'

/-- A loop over distinct items whose round for `a` establishes `Q a` and keeps `Q b` for the
other items `b` establishes `Q` for every item. -/
theorem foldl_writes {α σ : Type} (f : σ → α → σ) (P : σ → Prop) (Q : α → σ → Prop) :
    ∀ (l : List α) (s : σ), l.Nodup → P s →
      (∀ s a, a ∈ l → P s → P (f s a)) →
      (∀ s a, a ∈ l → P s → Q a (f s a)) →
      (∀ s a b, a ∈ l → b ∈ l → a ≠ b → P s → Q b s → Q b (f s a)) →
      P (l.foldl f s) ∧ ∀ b ∈ l, Q b (l.foldl f s) := by
  intro l
  induction l with
  | nil => intro s _ h _ _ _; exact ⟨h, by simp⟩
  | cons a tl ih =>
    intro s hnd hP hPs hset hkeep
    simp only [List.foldl_cons]
    have hnd' := List.nodup_cons.mp hnd
    have ha : a ∈ a :: tl := List.mem_cons_self a tl
    have htl : ∀ c, c ∈ tl → c ∈ a :: tl := fun c hc => List.mem_cons_of_mem a hc
    have IH := ih (f s a) hnd'.2 (hPs s a ha hP)
      (fun s' c hc h => hPs s' c (htl c hc) h)
      (fun s' c hc h => hset s' c (htl c hc) h)
      (fun s' c b hc hb hne h hq => hkeep s' c b (htl c hc) (htl b hb) hne h hq)
    refine ⟨IH.1, ?_⟩
    intro b hb
    rcases List.mem_cons.mp hb with rfl | hb'
    · have := foldl_inv f (fun s => P s ∧ Q b s) tl (f s b) ⟨hPs s b ha hP, hset s b ha hP⟩
        (fun s' c hc h => ⟨hPs s' c (htl c hc) h.1,
          hkeep s' c b (htl c hc) ha (fun e => hnd'.1 (e ▸ hc)) h.1 h.2⟩)
      exact this.2
    · exact IH.2 b hb'

theorem mem_intRange {lo hi v : Int} : v ∈ intRange lo hi ↔ lo ≤ v ∧ v < hi := by
  unfold intRange
  simp only [List.mem_map, List.mem_range]
  constructor
  · rintro ⟨i, hi', rfl⟩
    omega
  · intro h
    exact ⟨(v - lo).toNat, by omega, by omega⟩

theorem nodup_intRange (lo hi : Int) : (intRange lo hi).Nodup := by
  unfold intRange
  apply List.Nodup.map _ (List.nodup_range _)
  intro a b h
  simp only at h
  omega

theorem mem_strideFrom {step bound : Int} (hstep : 0 ≤ step) :
    ∀ (fuel : Nat) (s v : Int), v ∈ strideFrom step bound fuel s → s ≤ v ∧ v < bound := by
  intro fuel
  induction fuel with
  | zero => intro s v h; simp [strideFrom] at h
  | succ n ih =>
    intro s v h
    unfold strideFrom at h
    split at h
    · rcases List.mem_cons.mp h with rfl | h'
      · omega
      · have := ih (s + step) v h'
        omega
    · simp at h

theorem mem_strideRange {start step bound v : Int} (hstep : 0 ≤ step)
    (h : v ∈ strideRange start step bound) : start ≤ v ∧ v < bound :=
  mem_strideFrom hstep _ _ _ h

/-- A stride loop with `1 ≤ step` that still has `bound - v` rounds of fuel never runs out
of fuel: more fuel gives the same values. -/
theorem strideFrom_fuel {step bound : Int} (hstep : 1 ≤ step) :
    ∀ (fuel : Nat) (v : Int), (bound - v).toNat ≤ fuel →
      strideFrom step bound (fuel + 1) v = strideFrom step bound fuel v := by
  intro fuel
  induction fuel with
  | zero =>
    intro v h
    have : ¬ v < bound := by omega
    simp [strideFrom, this]
  | succ n ih =>
    intro v h
    have e1 : ∀ (k : Nat) (u : Int), strideFrom step bound (k + 1) u
        = if u < bound then u :: strideFrom step bound k (u + step) else [] := fun _ _ => rfl
    rw [e1 (n + 1) v, e1 n v]
    split
    · rw [ih (v + step) (by omega)]
    · rfl

/-- The fuel `bound` of `strideRange` is enough when `0 ≤ start` and `1 ≤ step`. -/
theorem strideRange_fuel {start step bound : Int} (hstart : 0 ≤ start) (hstep : 1 ≤ step)
    (extra : Nat) :
    strideFrom step bound (bound.toNat + extra) start = strideRange start step bound := by
  unfold strideRange
  induction extra with
  | zero => rfl
  | succ n ih =>
    rw [← ih, ← Nat.add_assoc]
    exact strideFrom_fuel hstep _ _ (by omega)

/-- Pixels of one image have different indices. -/
theorem idx_inj {w x y x' y' : Int} (hx : 0 ≤ x) (hxw : x < w) (hx' : 0 ≤ x') (hxw' : x' < w)
    (hy : 0 ≤ y) (hy' : 0 ≤ y') (h : (y * w + x).toNat = (y' * w + x').toNat) :
    x = x' ∧ y = y' := by
  have h1 : 0 ≤ y * w := mul_nonneg hy (by omega)
  have h2 : 0 ≤ y' * w := mul_nonneg hy' (by omega)
  have h3 : y * w + x = y' * w + x' := by omega
  have hyy : y = y' := by
    rcases lt_trichotomy y y' with hlt | heq | hgt
    · have : (y + 1) * w ≤ y' * w := mul_le_mul_of_nonneg_right (by omega) (by omega)
      have e : (y + 1) * w = y * w + w := by ring
      omega
    · exact heq
    · have : (y' + 1) * w ≤ y * w := mul_le_mul_of_nonneg_right (by omega) (by omega)
      have e : (y' + 1) * w = y' * w + w := by ring
      omega
  subst hyy
  exact ⟨by omega, rfl⟩

/-- The index of a pixel of the image is below the number of pixels. -/
theorem idx_lt {w h x y : Int} (hx : 0 ≤ x) (hxw : x < w) (hy : 0 ≤ y) (hyh : y < h) :
    (y * w + x).toNat < w.toNat * h.toNat := by
  have h1 : 0 ≤ y * w := mul_nonneg hy (by omega)
  have h2 : (y + 1) * w ≤ h * w := mul_le_mul_of_nonneg_right (by omega) (by omega)
  have e : (y + 1) * w = y * w + w := by ring
  have h3 : ((w.toNat * h.toNat : Nat) : Int) = h * w := by
    push_cast
    rw [Int.toNat_of_nonneg (by omega : 0 ≤ w), Int.toNat_of_nonneg (by omega : 0 ≤ h)]
    ring
  omega

/-! ## Lemmas on `Initialize` -/

theorem length_resize {α : Type} (v : List α) (n : Nat) (d : α) : (resize v n d).length = n := by
  simp [resize, List.length_take]
  omega

theorem initPixel_frame {R : Type} [DoubleOps R] (p0 : SLICProcessor R) (w h : Int)
    (src : Int → BYTE) (rb pb y x : Int) (p : SLICProcessor R) (hp : InitFrame p0 w h p) :
    InitFrame p0 w h (initPixel w src rb pb y x p) := by
  obtain ⟨h1, h2, h3, h4, h5, h6, h7, h8⟩ := hp
  refine ⟨h1, h2, h3, h4, h5, ?_, ?_, ?_⟩ <;> simp [initPixel, h6, h7, h8]

theorem initPixel_set {R : Type} [DoubleOps R] (p0 : SLICProcessor R) (w h : Int)
    (src : Int → BYTE) (rb pb y x : Int) (p : SLICProcessor R) (hp : InitFrame p0 w h p)
    (hx : 0 ≤ x) (hxw : x < w) (hy : 0 ≤ y) (hyh : y < h) :
    PixelIsSource w src rb pb (initPixel w src rb pb y x p) x y := by
  obtain ⟨_, _, _, _, _, h6, h7, h8⟩ := hp
  have hi := idx_lt hx hxw hy hyh
  unfold PixelIsSource PixelIs initPixel
  refine ⟨?_, ?_, ?_, ?_, ?_, ?_⟩
  · exact getD_set_self _ _ _ (by omega)
  · rw [getD_set_self _ _ _ (by omega)]; rfl
  · rw [getD_set_ne _ _ _ (by omega), getD_set_ne _ _ _ (by omega), getD_set_ne _ _ _ (by omega),
      getD_set_self _ _ _ (by omega)]; rfl
  · rw [getD_set_ne _ _ _ (by omega), getD_set_ne _ _ _ (by omega),
      getD_set_self _ _ _ (by simp; omega)]; rfl
  · rw [getD_set_ne _ _ _ (by omega), getD_set_self _ _ _ (by simp; omega)]; rfl
  · rw [getD_set_self _ _ _ (by simp; omega)]; rfl

theorem initPixel_keep {R : Type} [DoubleOps R] (w : Int) (src : Int → BYTE)
    (rb pb y x : Int) (p : SLICProcessor R) (i : Nat) (lab : SlicColor R) (r g b al : BYTE)
    (hne : (y * w + x).toNat ≠ i) (hq : PixelIs p i lab r g b al) :
    PixelIs (initPixel w src rb pb y x p) i lab r g b al := by
  obtain ⟨h1, h2, h3, h4, h5, h6⟩ := hq
  unfold PixelIs initPixel
  refine ⟨?_, ?_, ?_, ?_, ?_, ?_⟩
  · rw [getD_set_ne _ _ _ hne]; exact h1
  · rw [getD_set_ne _ _ _ hne]; exact h2
  · rw [getD_set_ne _ _ _ (by omega), getD_set_ne _ _ _ (by omega), getD_set_ne _ _ _ (by omega),
      getD_set_ne _ _ _ (by omega)]; exact h3
  · rw [getD_set_ne _ _ _ (by omega), getD_set_ne _ _ _ (by omega), getD_set_ne _ _ _ (by omega),
      getD_set_ne _ _ _ (by omega)]; exact h4
  · rw [getD_set_ne _ _ _ (by omega), getD_set_ne _ _ _ (by omega), getD_set_ne _ _ _ (by omega),
      getD_set_ne _ _ _ (by omega)]; exact h5
  · rw [getD_set_ne _ _ _ (by omega), getD_set_ne _ _ _ (by omega), getD_set_ne _ _ _ (by omega),
      getD_set_ne _ _ _ (by omega)]; exact h6

/-- What `Initialize` leaves behind: the frame, and every pixel of the image carries its
source colour, validity and bytes. -/
theorem Initialize_spec {R : Type} [DoubleOps R] (p0 : SLICProcessor R) (w h : Int)
    (src : Int → BYTE) (rb pb : Int) :
    InitFrame p0 w h (Initialize p0 w h src rb pb) ∧
      ∀ x y, 0 ≤ x → x < w → 0 ≤ y → y < h →
        PixelIsSource w src rb pb (Initialize p0 w h src rb pb) x y := by
  unfold Initialize
  have hrow : ∀ (y : Int) (s : SLICProcessor R), 0 ≤ y → y < h → InitFrame p0 w h s →
      InitFrame p0 w h ((intRange 0 w).foldl (fun p x => initPixel w src rb pb y x p) s) ∧
      ∀ x ∈ intRange 0 w, PixelIsSource w src rb pb
        ((intRange 0 w).foldl (fun p x => initPixel w src rb pb y x p) s) x y := by
    intro y s hy hyh hs
    apply foldl_writes _ (InitFrame p0 w h) (fun x p => PixelIsSource w src rb pb p x y) _ _
      (nodup_intRange 0 w) hs
    · intro s a _ hs; exact initPixel_frame p0 w h src rb pb y a s hs
    · intro s a ha hs
      have := mem_intRange.mp ha
      exact initPixel_set p0 w h src rb pb y a s hs this.1 this.2 hy hyh
    · intro s a b ha hb hne _ hq
      have ha' := mem_intRange.mp ha
      have hb' := mem_intRange.mp hb
      apply initPixel_keep _ _ _ _ _ _ _ _ _ _ _ _ _ _ hq
      intro e
      exact hne (idx_inj ha'.1 ha'.2 hb'.1 hb'.2 hy hy e).1
  have hkeeprow : ∀ (y y' : Int) (s : SLICProcessor R), 0 ≤ y → 0 ≤ y' → y ≠ y' →
      (∀ x ∈ intRange 0 w, PixelIsSource w src rb pb s x y') →
      ∀ x ∈ intRange 0 w, PixelIsSource w src rb pb
        ((intRange 0 w).foldl (fun p x => initPixel w src rb pb y x p) s) x y' := by
    intro y y' s hy hy' hne hq x hx
    apply foldl_inv _ (fun p => PixelIsSource w src rb pb p x y') _ _ (hq x hx)
    intro s a ha hs
    have ha' := mem_intRange.mp ha
    have hx' := mem_intRange.mp hx
    apply initPixel_keep _ _ _ _ _ _ _ _ _ _ _ _ _ _ hs
    intro e
    exact hne (idx_inj ha'.1 ha'.2 hx'.1 hx'.2 hy hy' e).2
  have hinit : InitFrame p0 w h
      { width := w, height := h
        labData := resize p0.labData (w.toNat * h.toNat) default
        labels := assign (w.toNat * h.toNat) (-1)
        distances := assign (w.toNat * h.toNat) dblMax
        clusters := p0.clusters
        resultRGB := resize p0.resultRGB (w.toNat * h.toNat * 4) 0
        validPixels := resize p0.validPixels (w.toNat * h.toNat) false } :=
    ⟨rfl, rfl, rfl, rfl, rfl, length_resize _ _ _, length_resize _ _ _, length_resize _ _ _⟩
  have := foldl_writes
    (fun p y => (intRange 0 w).foldl (fun p x => initPixel w src rb pb y x p) p)
    (InitFrame p0 w h) (fun y p => ∀ x ∈ intRange 0 w, PixelIsSource w src rb pb p x y)
    (intRange 0 h) _ (nodup_intRange 0 h) hinit
    (fun s a ha hs => (hrow a s (mem_intRange.mp ha).1 (mem_intRange.mp ha).2 hs).1)
    (fun s a ha hs => (hrow a s (mem_intRange.mp ha).1 (mem_intRange.mp ha).2 hs).2)
    (fun s a b ha hb hne _ hq =>
      hkeeprow a b s (mem_intRange.mp ha).1 (mem_intRange.mp hb).1 hne hq)
  refine ⟨this.1, ?_⟩
  intro x y hx hxw hy hyh
  exact this.2 y (mem_intRange.mpr ⟨hy, hyh⟩) x (mem_intRange.mpr ⟨hx, hxw⟩)

/-! ## Lemmas on the iteration -/

theorem getD_set_eq_or {α : Type} (v : List α) (i j : Nat) (a d : α) :
    ((v.set i a).getD j d = a ∧ i = j) ∨ (v.set i a).getD j d = v.getD j d := by
  by_cases h : i = j
  · subst h
    by_cases hl : i < v.length
    · exact Or.inl ⟨getD_set_self v a d hl, rfl⟩
    · right
      rw [List.set_eq_of_length_le (by omega)]
  · exact Or.inr (getD_set_ne v a d h)

theorem length_average {R : Type} [DoubleOps R] (prev cl : List (SlicCluster R)) :
    (average prev cl).length = cl.length := by
  unfold average
  apply foldl_inv _ (fun (c : List (SlicCluster R)) => c.length = cl.length) _ _ rfl
  intro s a _ hs
  unfold averageCluster
  simp only
  split <;> simpa using hs

theorem length_accumulate {R : Type} [DoubleOps R] (p : SLICProcessor R)
    (cl : List (SlicCluster R)) : (accumulate p cl).length = cl.length := by
  unfold accumulate
  apply foldl_inv _ (fun (c : List (SlicCluster R)) => c.length = cl.length) _ _ rfl
  intro s a _ hs
  unfold accumulatePixel
  simp only
  split
  · exact hs
  · split
    · simpa using hs
    · exact hs

theorem length_updateClusters {R : Type} [DoubleOps R] (p : SLICProcessor R) :
    (updateClusters p).clusters.length = p.clusters.length := by
  simp [updateClusters, length_average, length_accumulate, zeroClusters]

theorem sameImage_refl {R : Type} (p : SLICProcessor R) : SameImage p p :=
  ⟨rfl, rfl, rfl, rfl, rfl, rfl⟩

theorem sameImage_iteration {R : Type} [DoubleOps R] (m : R) (ns : Int) (iter : Nat)
    (p q : SLICProcessor R) (h : SameImage p q) : SameImage p (iteration m ns iter q) := by
  obtain ⟨h1, h2, h3, h4, h5, h6⟩ := h
  have hl : (updateClusters (assignment q m ns)).clusters.length = p.clusters.length := by
    rw [length_updateClusters]; exact h6
  unfold iteration
  simp only
  split
  · exact ⟨h1, h2, h3, h4, h5, hl⟩
  · exact ⟨h1, h2, h3, h4, h5, hl⟩

theorem assignPixel_labels {R : Type} [DoubleOps R] (p : SLICProcessor R) (m : R) (ns : Int)
    (k : Nat) (hk : k < p.clusters.length) (y x : Int) (ld : List Int × List R)
    (h : LabelListOK p.clusters.length p.validPixels ld.1) :
    LabelListOK p.clusters.length p.validPixels (assignPixel p m ns k y x ld).1 := by
  unfold assignPixel
  simp only
  split
  · exact h
  · rename_i hv
    split
    · intro i
      rcases getD_set_eq_or ld.1 (y * p.width + x).toNat i (k : Int) (-1) with ⟨e, rfl⟩ | e
      · simp only [e]
        refine ⟨Or.inr ⟨by omega, by omega⟩, ?_⟩
        intro hf
        exact absurd (by rw [hf]; rfl) hv
      · simp only [e]
        exact h i
    · exact h

theorem assignment_labels {R : Type} [DoubleOps R] (p : SLICProcessor R) (m : R) (ns : Int)
    (h : LabelsOK p) : LabelsOK (assignment p m ns) := by
  unfold LabelsOK assignment
  simp only
  apply foldl_inv _
    (fun (ld : List Int × List R) => LabelListOK p.clusters.length p.validPixels ld.1) _ _
    (show LabelListOK _ _ (p.labels, p.distances).1 from h)
  intro ld k hk hld
  have hk' := List.mem_range.mp hk
  unfold assignCluster
  simp only
  apply foldl_inv _
    (fun (ld : List Int × List R) => LabelListOK p.clusters.length p.validPixels ld.1) _ _ hld
  intro ld y _ hld
  apply foldl_inv _
    (fun (ld : List Int × List R) => LabelListOK p.clusters.length p.validPixels ld.1) _ _ hld
  intro ld x _ hld
  exact assignPixel_labels p m ns k hk' y x ld hld

theorem iteration_labels {R : Type} [DoubleOps R] (m : R) (ns : Int) (iter : Nat)
    (p : SLICProcessor R) (h : LabelsOK p) : LabelsOK (iteration m ns iter p) := by
  have h1 := assignment_labels p m ns h
  have h2 : LabelsOK (updateClusters (assignment p m ns)) := by
    unfold LabelsOK
    rw [length_updateClusters]
    exact h1
  unfold iteration
  simp only
  split
  · exact h2
  · exact h2

/-! ## Lemmas on the render loop -/

theorem length_renderPixel {R : Type} [DoubleOps R] (p : SLICProcessor R) (i : Nat)
    (res : List BYTE) : (renderPixel p i res).length = res.length := by
  unfold renderPixel
  simp only
  split <;> simp

/-- The render loop never writes an alpha byte. -/
theorem render_alpha {R : Type} [DoubleOps R] (p : SLICProcessor R) (j : Nat) :
    (render p).resultRGB.getD (j * 4 + 3) 0 = p.resultRGB.getD (j * 4 + 3) 0 := by
  unfold render
  simp only
  apply foldl_inv _
    (fun (res : List BYTE) => res.getD (j * 4 + 3) 0 = p.resultRGB.getD (j * 4 + 3) 0) _ _ rfl
  intro res i _ hres
  unfold renderPixel
  simp only
  split
  · rw [getD_set_ne _ _ _ (by omega), getD_set_ne _ _ _ (by omega),
      getD_set_ne _ _ _ (by omega)]
    exact hres
  · exact hres

/-- The render loop leaves every byte of a pixel without a label in range alone. -/
theorem render_unlabelled {R : Type} [DoubleOps R] (p : SLICProcessor R) (j : Nat)
    (h : ¬ labelInRange p (p.labels.getD j (-1))) (c : Nat) (hc : c < 4) :
    (render p).resultRGB.getD (j * 4 + c) 0 = p.resultRGB.getD (j * 4 + c) 0 := by
  unfold render
  simp only
  apply foldl_inv _
    (fun (res : List BYTE) => res.getD (j * 4 + c) 0 = p.resultRGB.getD (j * 4 + c) 0) _ _ rfl
  intro res i _ hres
  unfold renderPixel
  simp only
  split
  · rename_i hin
    have hne : i ≠ j := by
      intro e
      subst e
      exact h hin
    rw [getD_set_ne _ _ _ (by omega), getD_set_ne _ _ _ (by omega),
      getD_set_ne _ _ _ (by omega)]
    exact hres
  · exact hres

/-- A pixel whose label is in range gets the colour of its cluster. -/
theorem render_labelled {R : Type} [DoubleOps R] (p : SLICProcessor R) (j : Nat)
    (hj : j < (p.width * p.height).toNat)
    (hlen : p.resultRGB.length = (p.width * p.height).toNat * 4)
    (h : labelInRange p (p.labels.getD j (-1))) :
    ((render p).resultRGB.getD (j * 4 + 0) 0, (render p).resultRGB.getD (j * 4 + 1) 0,
      (render p).resultRGB.getD (j * 4 + 2) 0)
      = LAB2RGB (p.clusters.getD (p.labels.getD j (-1)).toNat default).l
          (p.clusters.getD (p.labels.getD j (-1)).toNat default).a
          (p.clusters.getD (p.labels.getD j (-1)).toNat default).b := by
  unfold render
  simp only
  have := foldl_writes (fun res i => renderPixel p i res)
    (fun (res : List BYTE) => res.length = (p.width * p.height).toNat * 4)
    (fun (i : Nat) (res : List BYTE) => labelInRange p (p.labels.getD i (-1)) →
      (res.getD (i * 4 + 0) 0, res.getD (i * 4 + 1) 0, res.getD (i * 4 + 2) 0)
        = LAB2RGB (p.clusters.getD (p.labels.getD i (-1)).toNat default).l
            (p.clusters.getD (p.labels.getD i (-1)).toNat default).a
            (p.clusters.getD (p.labels.getD i (-1)).toNat default).b)
    (List.range (p.width * p.height).toNat) p.resultRGB (List.nodup_range _) hlen
    (fun res i _ hres => by beta_reduce at hres ⊢; rw [length_renderPixel]; exact hres)
    (fun res i hi hres hin => by
      have hi' := List.mem_range.mp hi
      have hin' : p.labels.getD i (-1) ≥ 0 ∧ p.labels.getD i (-1) < (p.clusters.length : Int) :=
        hin
      beta_reduce at hres ⊢
      unfold renderPixel
      simp only
      rw [if_pos hin']
      rw [getD_set_ne _ _ _ (by omega), getD_set_ne _ _ _ (by omega),
        getD_set_self _ _ _ (by omega), getD_set_ne _ _ _ (by omega),
        getD_set_self _ _ _ (by simp; omega), getD_set_self _ _ _ (by simp; omega)])
    (fun res i b _ _ hne _ hq hin => by
      beta_reduce at hq ⊢
      rw [← hq hin]
      unfold renderPixel
      simp only
      split
      · rw [getD_set_ne _ _ _ (by omega), getD_set_ne _ _ _ (by omega),
          getD_set_ne _ _ _ (by omega), getD_set_ne _ _ _ (by omega),
          getD_set_ne _ _ _ (by omega), getD_set_ne _ _ _ (by omega),
          getD_set_ne _ _ _ (by omega), getD_set_ne _ _ _ (by omega),
          getD_set_ne _ _ _ (by omega)]
      · rfl)
  exact this.2 j (List.mem_range.mpr hj) h

/-! ## Lemmas on the iteration loop and on `Execute` -/

theorem reportProgress_proc {R : Type} (u : Int) (s : ExecState R) :
    (reportProgress u s).proc = s.proc := by
  unfold reportProgress
  split <;> rfl

/-- Whatever the host answers, a property of the processor kept by `iteration` is kept by
the iteration loop. -/
theorem iterLoop_inv {R : Type} [DoubleOps R] (K : HostConsts) (m : R) (ns : Int)
    (host : Nat → Int) (u : Int) (P : SLICProcessor R → Prop)
    (hP : ∀ iter q, P q → P (iteration m ns iter q)) :
    ∀ (n iter : Nat) (s : ExecState R), P s.proc →
      P (iterLoop K m ns host u n iter s).2.proc := by
  intro n
  induction n with
  | zero => intro iter s h; exact h
  | succ n ih =>
    intro iter s h
    unfold iterLoop
    simp only
    split
    · simpa [reportProgress_proc] using h
    · apply ih
      simp only [reportProgress_proc]
      exact hP iter s.proc h

/-- The iteration loop when none of its `n` polls stops it. -/
theorem iterLoop_complete {R : Type} [DoubleOps R] (K : HostConsts) (m : R) (ns : Int)
    (host : Nat → Int) (u : Int) :
    ∀ (n iter : Nat) (s : ExecState R), (∀ j, j < n → ¬ isStop K (host (iter + j))) →
      iterLoop K m ns host u n iter s
        = (none, ⟨iterationsFrom m ns n iter s.proc, progressAfter u n s.progress,
            s.calls ++ roundCalls K u n s.progress⟩) := by
  intro n
  induction n with
  | zero =>
    intro iter s _
    simp [iterLoop, iterationsFrom, progressAfter, roundCalls]
  | succ n ih =>
    intro iter s h
    have h0 : ¬ (host iter = K.kTriglavPlugInFilterRunProcessResultExit
        ∨ host iter = K.kTriglavPlugInFilterRunProcessResultRestart) := h 0 (by omega)
    unfold iterLoop
    simp only [if_neg h0]
    rw [ih (iter + 1) _ (fun j hj => by
      have := h (j + 1) (by omega)
      rwa [show iter + 1 + j = iter + (j + 1) by omega])]
    obtain ⟨proc, progress, calls⟩ := s
    cases progress <;>
      simp [reportProgress, iterationsFrom, progressAfter, roundCalls]

/-- The iteration loop when the poll of round `iter + i` is the first that stops it. -/
theorem iterLoop_stop {R : Type} [DoubleOps R] (K : HostConsts) (m : R) (ns : Int)
    (host : Nat → Int) (u : Int) :
    ∀ (n iter : Nat) (s : ExecState R) (i : Nat), i < n →
      (∀ j, j < i → ¬ isStop K (host (iter + j))) → isStop K (host (iter + i)) →
      iterLoop K m ns host u n iter s
        = (some (host (iter + i)), ⟨iterationsFrom m ns i iter s.proc,
            progressAfter u (i + 1) s.progress,
            s.calls ++ roundCalls K u (i + 1) s.progress⟩) := by
  intro n
  induction n with
  | zero => intro iter s i hi; omega
  | succ n ih =>
    intro iter s i hi hbefore hstop
    unfold iterLoop
    cases i with
    | zero =>
      have h0 : host iter = K.kTriglavPlugInFilterRunProcessResultExit
          ∨ host iter = K.kTriglavPlugInFilterRunProcessResultRestart := hstop
      simp only [if_pos h0]
      obtain ⟨proc, progress, calls⟩ := s
      cases progress <;>
        simp [reportProgress, iterationsFrom, progressAfter, roundCalls]
    | succ i =>
      have h0 : ¬ (host iter = K.kTriglavPlugInFilterRunProcessResultExit
          ∨ host iter = K.kTriglavPlugInFilterRunProcessResultRestart) := hbefore 0 (by omega)
      simp only [if_neg h0]
      rw [ih (iter + 1) _ i (by omega) (fun j hj => by
        have := hbefore (j + 1) (by omega)
        rwa [show iter + 1 + j = iter + (j + 1) by omega])
        (by rwa [show iter + 1 + i = iter + (i + 1) by omega])]
      have e : iter + 1 + i = iter + (i + 1) := by omega
      obtain ⟨proc, progress, calls⟩ := s
      cases progress <;>
        simp [reportProgress, iterationsFrom, progressAfter, roundCalls, e]

/-- The result of `Execute` when none of the ten polls stops it: ten iterations, the last progress report
and the render loop. -/
theorem Execute_complete {R : Type} [DoubleOps R] (K : HostConsts) (p : SLICProcessor R)
    (step : Int) (m : R) (host : Nat → Int) (prog : Option Int) (u : Int)
    (h : ∀ j, j < 10 → ¬ isStop K (host j)) :
    Execute K p step m host prog u
      = (K.kTriglavPlugInFilterRunProcessResultContinue,
          ⟨render (afterIterations p step m 10), progressAfter u 11 prog,
            roundCalls K u 10 prog ++
              (match progressAfter u 10 prog with
                | none => []
                | some c => [HostCall.FilterRunSetProgressDone (c + u)])⟩) := by
  unfold Execute
  simp only
  rw [iterLoop_complete K m (clampStep step) host u 10 0 _ (fun j hj => by simpa using h j hj)]
  simp only [afterIterations, List.nil_append]
  generalize hq : progressAfter u 10 prog = q
  have e : progressAfter u 11 prog = q.map (· + u) := by
    rw [← hq]
    have : ∀ (n : Nat) (c : Option Int),
        progressAfter u (n + 1) c = (progressAfter u n c).map (· + u) := by
      intro n
      induction n with
      | zero => intro c; rfl
      | succ n ih => intro c; exact ih (c.map (· + u))
    exact this 10 prog
  rw [e]
  cases q <;> simp [reportProgress]

/-- The result of `Execute` when the poll of round `i` is the first that stops it: `i` iterations and no
render loop. -/
theorem Execute_stop {R : Type} [DoubleOps R] (K : HostConsts) (p : SLICProcessor R)
    (step : Int) (m : R) (host : Nat → Int) (prog : Option Int) (u : Int) (i : Nat)
    (hi : i < 10) (hbefore : ∀ j, j < i → ¬ isStop K (host j)) (hstop : isStop K (host i)) :
    Execute K p step m host prog u
      = (host i, ⟨afterIterations p step m i, progressAfter u (i + 1) prog,
          roundCalls K u (i + 1) prog⟩) := by
  unfold Execute
  simp only
  rw [iterLoop_stop K m (clampStep step) host u 10 0 _ i hi
    (fun j hj => by simpa using hbefore j hj) (by simpa using hstop)]
  simp only [afterIterations, List.nil_append, Nat.zero_add]

/-- Either a poll of `Execute` is the first to stop it, or none of the ten does. -/
theorem first_stop (K : HostConsts) (host : Nat → Int) :
    ∀ n : Nat, (∀ j, j < n → ¬ isStop K (host j)) ∨
      ∃ i, i < n ∧ (∀ j, j < i → ¬ isStop K (host j)) ∧ isStop K (host i) := by
  intro n
  induction n with
  | zero => left; intro j hj; omega
  | succ n ih =>
    rcases ih with h | ⟨i, hi, hb, hs⟩
    · by_cases hn : isStop K (host n)
      · exact Or.inr ⟨n, by omega, h, hn⟩
      · left
        intro j hj
        rcases Nat.lt_succ_iff_lt_or_eq.mp hj with hlt | rfl
        · exact h j hlt
        · exact hn
    · exact Or.inr ⟨i, by omega, hb, hs⟩

theorem sameImage_iterationsFrom {R : Type} [DoubleOps R] (m : R) (ns : Int)
    (p : SLICProcessor R) :
    ∀ (n iter : Nat) (q : SLICProcessor R), SameImage p q →
      SameImage p (iterationsFrom m ns n iter q) := by
  intro n
  induction n with
  | zero => intro iter q h; exact h
  | succ n ih =>
    intro iter q h
    exact ih (iter + 1) _ (sameImage_iteration m ns iter p q h)

theorem labels_iterationsFrom {R : Type} [DoubleOps R] (m : R) (ns : Int) :
    ∀ (n iter : Nat) (q : SLICProcessor R), LabelsOK q →
      LabelsOK (iterationsFrom m ns n iter q) := by
  intro n
  induction n with
  | zero => intro iter q h; exact h
  | succ n ih =>
    intro iter q h
    exact ih (iter + 1) _ (iteration_labels m ns iter q h)

/-- The image data of the processor after `n` completed iterations is that of the start. -/
theorem afterIterations_frame {R : Type} [DoubleOps R] (p : SLICProcessor R) (step : Int)
    (m : R) (n : Nat) :
    (afterIterations p step m n).width = p.width ∧
      (afterIterations p step m n).height = p.height ∧
      (afterIterations p step m n).labData = p.labData ∧
      (afterIterations p step m n).validPixels = p.validPixels ∧
      (afterIterations p step m n).resultRGB = p.resultRGB ∧
      (afterIterations p step m n).clusters.length = (seedClusters p (clampStep step)).length :=
  sameImage_iterationsFrom m (clampStep step)
    { p with clusters := seedClusters p (clampStep step) } n 0 _ (sameImage_refl _)

/-- A processor all of whose labels are the sentinel has its labels in order. -/
theorem labelsOK_of_unlabelled {R : Type} (p : SLICProcessor R) (n : Nat)
    (h : p.labels = assign n (-1)) : LabelsOK p := by
  intro i
  have : p.labels.getD i (-1) = -1 := by
    rw [h, assign, List.getD_eq_getElem?_getD, List.getElem?_replicate]
    split <;> rfl
  exact ⟨Or.inl this, fun _ => this⟩

/-- After any number of completed iterations on a processor without labels, the labels are
in order. -/
theorem afterIterations_labels {R : Type} [DoubleOps R] (p : SLICProcessor R) (step : Int)
    (m : R) (n t : Nat) (h : p.labels = assign t (-1)) :
    LabelsOK (afterIterations p step m n) :=
  labels_iterationsFrom m (clampStep step) n 0 _
    (labelsOK_of_unlabelled { p with clusters := seedClusters p (clampStep step) } t h)

theorem length_assignPixel {R : Type} [DoubleOps R] (p : SLICProcessor R) (m : R) (ns : Int)
    (k : Nat) (y x : Int) (ld : List Int × List R) :
    (assignPixel p m ns k y x ld).1.length = ld.1.length := by
  unfold assignPixel
  simp only
  split
  · rfl
  · split
    · simp
    · rfl

theorem length_labels_iteration {R : Type} [DoubleOps R] (m : R) (ns : Int) (iter : Nat)
    (p : SLICProcessor R) : (iteration m ns iter p).labels.length = p.labels.length := by
  have h1 : (assignment p m ns).labels.length = p.labels.length := by
    unfold assignment
    simp only
    apply foldl_inv _ (fun (ld : List Int × List R) => ld.1.length = p.labels.length) _ _ rfl
    intro ld k _ hld
    unfold assignCluster
    simp only
    apply foldl_inv _ (fun (ld : List Int × List R) => ld.1.length = p.labels.length) _ _ hld
    intro ld y _ hld
    apply foldl_inv _ (fun (ld : List Int × List R) => ld.1.length = p.labels.length) _ _ hld
    intro ld x _ hld
    rw [length_assignPixel]
    exact hld
  unfold iteration
  simp only
  split
  · exact h1
  · exact h1

theorem length_labels_afterIterations {R : Type} [DoubleOps R] (p : SLICProcessor R)
    (step : Int) (m : R) (n : Nat) :
    (afterIterations p step m n).labels.length = p.labels.length := by
  have : ∀ (n iter : Nat) (q : SLICProcessor R),
      (iterationsFrom m (clampStep step) n iter q).labels.length = q.labels.length := by
    intro n
    induction n with
    | zero => intro iter q; rfl
    | succ n ih =>
      intro iter q
      exact (ih (iter + 1) _).trans (length_labels_iteration m _ iter q)
  exact this n 0 _

/-- The processor that `Execute` returns is the one after some number of completed
iterations, rendered or not. -/
theorem Execute_proc {R : Type} [DoubleOps R] (K : HostConsts) (p : SLICProcessor R)
    (step : Int) (m : R) (host : Nat → Int) (prog : Option Int) (u : Int) :
    (Execute K p step m host prog u).2.proc = render (afterIterations p step m 10) ∨
      ∃ i, i < 10 ∧ (Execute K p step m host prog u).2.proc = afterIterations p step m i := by
  rcases first_stop K host 10 with h | ⟨i, hi, hb, hs⟩
  · left
    rw [Execute_complete K p step m host prog u h]
  · right
    refine ⟨i, hi, ?_⟩
    rw [Execute_stop K p step m host prog u i hi hb hs]

/-! ## Lemmas on the update -/

/-- A loop that rewrites entry `j` of a vector from entry `j` alone rewrites each entry
once. -/
theorem foldl_range_set {α : Type} (F : Nat → α → α) (d : α) :
    ∀ (n : Nat) (v : List α) (k : Nat), k < v.length →
      ((List.range n).foldl (fun l j => l.set j (F j (l.getD j d))) v).getD k d
        = if k < n then F k (v.getD k d) else v.getD k d := by
  intro n
  induction n with
  | zero => intro v k _; simp
  | succ n ih =>
    intro v k hk
    have hlen : ((List.range n).foldl (fun l j => l.set j (F j (l.getD j d))) v).length
        = v.length := by
      apply foldl_inv _ (fun (l : List α) => l.length = v.length) _ _ rfl
      intro s a _ hs
      simpa using hs
    rw [List.range_succ, List.foldl_append]
    simp only [List.foldl_cons, List.foldl_nil]
    by_cases e : n = k
    · subst e
      rw [getD_set_self _ _ _ (by omega), ih v n hk]
      simp
    · rw [getD_set_ne _ _ _ e, ih v k hk]
      by_cases hkn : k < n
      · rw [if_pos hkn, if_pos (by omega)]
      · rw [if_neg hkn, if_neg (by omega)]

/-- The averaging loop, entry by entry: the mean if the count is positive, else the
snapshot. -/
theorem average_getD {R : Type} [DoubleOps R] (prev cl : List (SlicCluster R)) (k : Nat)
    (hk : k < cl.length) :
    (average prev cl).getD k default
      = if (cl.getD k default).count > 0 then
          { l := (cl.getD k default).l / ofInt (cl.getD k default).count
            a := (cl.getD k default).a / ofInt (cl.getD k default).count
            b := (cl.getD k default).b / ofInt (cl.getD k default).count
            x := (cl.getD k default).x / ofInt (cl.getD k default).count
            y := (cl.getD k default).y / ofInt (cl.getD k default).count
            count := (cl.getD k default).count }
        else prev.getD k default := by
  have e : (fun (l : List (SlicCluster R)) (j : Nat) => averageCluster prev j l)
      = fun l j => l.set j ((fun (j : Nat) (c : SlicCluster R) =>
          if c.count > 0 then
            ({ l := c.l / ofInt c.count, a := c.a / ofInt c.count, b := c.b / ofInt c.count
               x := c.x / ofInt c.count, y := c.y / ofInt c.count, count := c.count } :
              SlicCluster R)
          else prev.getD j default) j (l.getD j default)) := by
    funext l j
    unfold averageCluster
    simp only
    split <;> rfl
  unfold average
  rw [e]
  exact (foldl_range_set (fun (j : Nat) (c : SlicCluster R) =>
      if c.count > 0 then
        ({ l := c.l / ofInt c.count, a := c.a / ofInt c.count, b := c.b / ofInt c.count
           x := c.x / ofInt c.count, y := c.y / ofInt c.count, count := c.count } :
          SlicCluster R)
      else prev.getD j default) default cl.length cl k hk).trans (if_pos hk)

/-- The accumulation loop leaves alone a cluster that no valid pixel is labelled with. -/
theorem accumulate_untouched {R : Type} [DoubleOps R] (p : SLICProcessor R)
    (cl : List (SlicCluster R)) (k : Nat)
    (h : ∀ i, i < (p.width * p.height).toNat → p.validPixels.getD i false = true →
      p.labels.getD i (-1) ≠ (k : Int)) :
    (accumulate p cl).getD k default = cl.getD k default := by
  unfold accumulate
  apply foldl_inv _
    (fun (c : List (SlicCluster R)) => c.getD k default = cl.getD k default) _ _ rfl
  intro s i hi hs
  have hi' := List.mem_range.mp hi
  unfold accumulatePixel
  simp only
  split
  · exact hs
  · rename_i hv
    split
    · rename_i hin
      have hv' : p.validPixels.getD i false = true := by
        cases hb : p.validPixels.getD i false
        · rw [hb] at hv; exact absurd rfl hv
        · rfl
      have := h i hi' hv'
      rw [getD_set_ne _ _ _ (by omega)]
      exact hs
    · exact hs

/-! ## Lemmas on the seeding -/

theorem two_le_clampStep (step : Int) : 2 ≤ clampStep step := by
  unfold clampStep
  split <;> omega

theorem findValid_some {R : Type} (p : SLICProcessor R) (sx ex sy ey nx ny : Int)
    (h : findValid p sx ex sy ey = some (nx, ny)) :
    sx ≤ nx ∧ nx < ex ∧ sy ≤ ny ∧ ny < ey ∧
      p.validPixels.getD (ny * p.width + nx).toNat false = true := by
  unfold findValid at h
  obtain ⟨b, hb, h1⟩ := List.exists_of_findSome?_eq_some h
  obtain ⟨a, ha, h2⟩ := List.exists_of_findSome?_eq_some h1
  have ha' := mem_intRange.mp ha
  have hb' := mem_intRange.mp hb
  split at h2
  · rename_i hv
    simp only [Option.some.injEq, Prod.mk.injEq] at h2
    obtain ⟨rfl, rfl⟩ := h2
    exact ⟨ha'.1, ha'.2, hb'.1, hb'.2, hv⟩
  · simp at h2

theorem seedPoint_seeded {R : Type} [DoubleOps R] (p : SLICProcessor R) (step y x : Int)
    (cl : List (SlicCluster R)) (hx : 0 ≤ x) (hxw : x < p.width) (hy : 0 ≤ y)
    (hyh : y < p.height) (h : ∀ c ∈ cl, ∃ cx cy, SeededAt p c cx cy) :
    ∀ c ∈ seedPoint p step y x cl, ∃ cx cy, SeededAt p c cx cy := by
  unfold seedPoint
  simp only
  split
  · split
    · exact h
    · rename_i nx ny hf
      have := findValid_some p _ _ _ _ nx ny hf
      intro c hc
      rcases List.mem_append.mp hc with hc | hc
      · exact h c hc
      · simp only [List.mem_singleton] at hc
        exact ⟨nx, ny, by omega, by omega, by omega, by omega, this.2.2.2.2, hc⟩
  · rename_i hv
    intro c hc
    rcases List.mem_append.mp hc with hc | hc
    · exact h c hc
    · simp only [List.mem_singleton] at hc
      refine ⟨x, y, hx, hxw, hy, hyh, ?_, hc⟩
      cases hb : p.validPixels.getD (y * p.width + x).toNat false
      · rw [hb] at hv; exact absurd rfl hv
      · rfl

/-- Every cluster of the seeding sits on a valid pixel of the image. -/
theorem seedClusters_seeded {R : Type} [DoubleOps R] (p : SLICProcessor R) (step : Int)
    (hstep : 2 ≤ step) : ∀ c ∈ seedClusters p step, ∃ cx cy, SeededAt p c cx cy := by
  unfold seedClusters
  apply foldl_inv _
    (fun (cl : List (SlicCluster R)) => ∀ c ∈ cl, ∃ cx cy, SeededAt p c cx cy) _ _
    (by intro c hc; simp at hc)
  intro cl y hy hcl
  have hy' := mem_strideRange (by omega) hy
  apply foldl_inv _
    (fun (cl : List (SlicCluster R)) => ∀ c ∈ cl, ∃ cx cy, SeededAt p c cx cy) _ _ hcl
  intro cl x hx hcl
  have hx' := mem_strideRange (by omega) hx
  exact seedPoint_seeded p step y x cl (by omega) hx'.2 (by omega) hy'.2 hcl

/-- The accumulation loop reads labels and colours at valid pixels only. -/
theorem accumulate_congr {R : Type} [DoubleOps R] (q q' : SLICProcessor R)
    (cl : List (SlicCluster R)) (hw : q'.width = q.width) (hh : q'.height = q.height)
    (hv : q'.validPixels = q.validPixels)
    (hvalid : ∀ i, q.validPixels.getD i false = true →
      q'.labels.getD i (-1) = q.labels.getD i (-1) ∧
        q'.labData.getD i default = q.labData.getD i default) :
    accumulate q' cl = accumulate q cl := by
  unfold accumulate
  rw [hw, hh]
  apply List.foldl_ext
  intro c i _
  unfold accumulatePixel
  simp only
  rw [hv, hw]
  cases hb : q.validPixels.getD i false
  · rfl
  · rw [(hvalid i hb).1, (hvalid i hb).2]

/-! ## Lemmas on the host calls -/

theorem polls_roundCalls (K : HostConsts) (u : Int) :
    ∀ (n : Nat) (c : Option Int), (polls (roundCalls K u n c)).length = n := by
  intro n
  induction n with
  | zero => intro c; rfl
  | succ n ih =>
    intro c
    have := ih (c.map (· + u))
    cases c <;> simp [roundCalls, polls, List.filter_append] <;> simpa [polls] using this

theorem totals_roundCalls (K : HostConsts) (u : Int) :
    ∀ (n : Nat) (c : Option Int), totals (roundCalls K u n c) = [] := by
  intro n
  induction n with
  | zero => intro c; rfl
  | succ n ih =>
    intro c
    have := ih (c.map (· + u))
    cases c <;> simp [roundCalls, totals, List.filterMap_append] <;> simpa [totals] using this

theorem doneValues_roundCalls (K : HostConsts) (u : Int) :
    ∀ (n : Nat) (c : Int), doneValues (roundCalls K u n (some c))
      = (List.range n).map (fun (j : Nat) => c + ((j : Int) + 1) * u) := by
  intro n
  induction n with
  | zero => intro c; rfl
  | succ n ih =>
    intro c
    have := ih (c + u)
    rw [List.range_succ_eq_map, List.map_cons, List.map_map]
    simp only [roundCalls, doneValues, List.filterMap_append, List.filterMap_cons,
      List.filterMap_nil, Option.map_some', List.cons_append, List.nil_append]
    simp only [doneValues] at this
    rw [this]
    simp only [List.cons.injEq]
    refine ⟨by push_cast; ring, ?_⟩
    apply List.map_congr_left
    intro j _
    simp only [Function.comp, Nat.succ_eq_add_one]
    push_cast
    ring

/-! ## The claims -/

/-- C1, alpha preservation: after `Initialize` and `Execute`, whatever the host answers (so
whether `Execute` completes or returns early), the alpha byte of every pixel `(x, y)` of
`resultRGB` is the alpha of the source pixel, which is the byte `px[3]` when
`pixelBytes >= 4` and `255` otherwise. -/
theorem alpha_preservation {R : Type} [DoubleOps R] (K : HostConsts) (p0 : SLICProcessor R)
    (w h : Int) (src : Int → BYTE) (rowBytes pixelBytes step : Int) (m : R) (host : Nat → Int)
    (pCurrentProgress : Option Int) (progressUnit x y : Int)
    (hx : 0 ≤ x) (hxw : x < w) (hy : 0 ≤ y) (hyh : y < h) :
    (Execute K (Initialize p0 w h src rowBytes pixelBytes) step m host pCurrentProgress
        progressUnit).2.proc.resultRGB.getD ((y * w + x).toNat * 4 + 3) 0
      = (if pixelBytes ≥ 4 then src (y * rowBytes + x * pixelBytes + 3) else 255) := by
  have hsrc := ((Initialize_spec p0 w h src rowBytes pixelBytes).2 x y hx hxw hy hyh).2.2.2.2.2
  have hfr := fun n =>
    (afterIterations_frame (Initialize p0 w h src rowBytes pixelBytes) step m n).2.2.2.2.1
  rcases Execute_proc K (Initialize p0 w h src rowBytes pixelBytes) step m host
    pCurrentProgress progressUnit with e | ⟨i, _, e⟩
  · rw [e, render_alpha, hfr 10]
    exact hsrc
  · rw [e, hfr i]
    exact hsrc

/-- C2, label domain: after `Initialize` every label is the sentinel `-1`; after any number
`n` of completed iterations of `Execute`, and in the processor `Execute` returns whatever
the host answers, the label field has one entry per pixel and every entry is `-1` or an
index `k` with `0 <= k < clusters.size()`. -/
theorem label_domain {R : Type} [DoubleOps R] (K : HostConsts) (p0 : SLICProcessor R)
    (w h : Int) (src : Int → BYTE) (rowBytes pixelBytes step : Int) (m : R) :
    (Initialize p0 w h src rowBytes pixelBytes).labels = List.replicate (w.toNat * h.toNat) (-1)
    ∧ (∀ n : Nat,
        (afterIterations (Initialize p0 w h src rowBytes pixelBytes) step m n).labels.length
          = w.toNat * h.toNat
        ∧ ∀ k ∈ (afterIterations (Initialize p0 w h src rowBytes pixelBytes) step m n).labels,
          k = -1 ∨ (0 ≤ k ∧ k < ((afterIterations (Initialize p0 w h src rowBytes pixelBytes)
            step m n).clusters.length : Int)))
    ∧ (∀ (host : Nat → Int) (pCurrentProgress : Option Int) (progressUnit : Int),
        (Execute K (Initialize p0 w h src rowBytes pixelBytes) step m host pCurrentProgress
          progressUnit).2.proc.labels.length = w.toNat * h.toNat
        ∧ ∀ k ∈ (Execute K (Initialize p0 w h src rowBytes pixelBytes) step m host
            pCurrentProgress progressUnit).2.proc.labels,
          k = -1 ∨ (0 ≤ k ∧ k < ((Execute K (Initialize p0 w h src rowBytes pixelBytes) step m
            host pCurrentProgress progressUnit).2.proc.clusters.length : Int))) := by
  have hfr := (Initialize_spec p0 w h src rowBytes pixelBytes).1
  have hlab : (Initialize p0 w h src rowBytes pixelBytes).labels
      = assign (w.toNat * h.toNat) (-1) := hfr.2.2.1
  have hmem : ∀ (q : SLICProcessor R), LabelsOK q →
      ∀ k ∈ q.labels, k = -1 ∨ (0 ≤ k ∧ k < (q.clusters.length : Int)) := by
    intro q hq k hk
    obtain ⟨i, hi, rfl⟩ := List.getElem_of_mem hk
    have := (hq i).1
    rw [List.getD_eq_getElem?_getD, List.getElem?_eq_getElem hi] at this
    exact this
  have hn : ∀ n : Nat,
      (afterIterations (Initialize p0 w h src rowBytes pixelBytes) step m n).labels.length
        = w.toNat * h.toNat
      ∧ ∀ k ∈ (afterIterations (Initialize p0 w h src rowBytes pixelBytes) step m n).labels,
        k = -1 ∨ (0 ≤ k ∧ k < ((afterIterations (Initialize p0 w h src rowBytes pixelBytes)
          step m n).clusters.length : Int)) := by
    intro n
    refine ⟨?_, hmem _ (afterIterations_labels _ step m n _ hlab)⟩
    rw [length_labels_afterIterations, hlab]
    simp [assign]
  refine ⟨hlab, hn, ?_⟩
  intro host prog u
  rcases Execute_proc K (Initialize p0 w h src rowBytes pixelBytes) step m host prog u
    with e | ⟨i, _, e⟩
  · rw [e]
    exact hn 10
  · rw [e]
    exact hn i

/-- C3, no empty-cluster collapse: in an iteration (any round `iter`, any processor `p` it
starts from), a cluster `k` that no valid pixel is labelled with when the update sweep runs
has count 0 after the accumulation; and a cluster `k` with count 0 after the accumulation
is, after the average-or-rollback step, the cluster it was before the update sweep zeroed
the accumulators (same `l`, `a`, `b`, `x`, `y`, and also `count`). -/
theorem empty_cluster_rollback {R : Type} [DoubleOps R] (m : R) (ns : Int) (iter : Nat)
    (p : SLICProcessor R) (k : Nat) (hk : k < p.clusters.length) :
    ((∀ i, i < (p.width * p.height).toNat → p.validPixels.getD i false = true →
        (assignment p m ns).labels.getD i (-1) ≠ (k : Int)) →
      ((accumulate (assignment p m ns) (zeroClusters (assignment p m ns).clusters)).getD k
        default).count = 0)
    ∧ (((accumulate (assignment p m ns) (zeroClusters (assignment p m ns).clusters)).getD k
        default).count = 0 →
      (iteration m ns iter p).clusters.getD k default = p.clusters.getD k default) := by
  constructor
  · intro hempty
    have hacc := accumulate_untouched (assignment p m ns)
      (zeroClusters (assignment p m ns).clusters) k hempty
    have hk' : k < (assignment p m ns).clusters.length := hk
    rw [hacc]
    unfold zeroClusters
    rw [List.getD_eq_getElem?_getD, List.getElem?_map, List.getElem?_eq_getElem hk']
    rfl
  · intro hcount
    have hupd : (updateClusters (assignment p m ns)).clusters.getD k default
        = p.clusters.getD k default := by
      unfold updateClusters
      simp only
      rw [average_getD _ _ k (by rw [length_accumulate]; simpa [zeroClusters] using hk),
        if_neg (by rw [hcount]; omega)]
      rfl
    unfold iteration
    simp only
    split
    · exact hupd
    · exact hupd

/-- C4, seeding on valid pixels: for every image, step and `k`, the `k`-th cluster created
by the seeding phase of `Execute` has integer coordinates `(cx, cy)` inside the image, the
source pixel there is valid (its alpha is not 0), the cluster's Lab colour is the Lab colour
of that source pixel, its position is `(cx, cy)` and its count is 0. -/
theorem seeds_on_valid_pixels {R : Type} [DoubleOps R] (p0 : SLICProcessor R) (w h : Int)
    (src : Int → BYTE) (rowBytes pixelBytes step : Int) (k : Nat)
    (hk : k < (seedClusters (Initialize p0 w h src rowBytes pixelBytes)
      (clampStep step)).length) :
    ∃ cx cy : Int, 0 ≤ cx ∧ cx < w ∧ 0 ≤ cy ∧ cy < h ∧
      (if pixelBytes ≥ 4 then src (cy * rowBytes + cx * pixelBytes + 3) else 255) ≠ 0 ∧
      (seedClusters (Initialize p0 w h src rowBytes pixelBytes) (clampStep step)).getD k default
        = { l := (RGB2LAB (src (cy * rowBytes + cx * pixelBytes + 0))
              (src (cy * rowBytes + cx * pixelBytes + 1))
              (src (cy * rowBytes + cx * pixelBytes + 2)) : SlicColor R).l
            a := (RGB2LAB (src (cy * rowBytes + cx * pixelBytes + 0))
              (src (cy * rowBytes + cx * pixelBytes + 1))
              (src (cy * rowBytes + cx * pixelBytes + 2)) : SlicColor R).a
            b := (RGB2LAB (src (cy * rowBytes + cx * pixelBytes + 0))
              (src (cy * rowBytes + cx * pixelBytes + 1))
              (src (cy * rowBytes + cx * pixelBytes + 2)) : SlicColor R).b
            x := ofInt cx, y := ofInt cy, count := 0 } := by
  obtain ⟨hfr, hpix⟩ := Initialize_spec p0 w h src rowBytes pixelBytes
  have hmem : (seedClusters (Initialize p0 w h src rowBytes pixelBytes) (clampStep step)).getD k
      default ∈ seedClusters (Initialize p0 w h src rowBytes pixelBytes) (clampStep step) := by
    rw [List.getD_eq_getElem?_getD, List.getElem?_eq_getElem hk]
    exact List.getElem_mem hk
  obtain ⟨cx, cy, h1, h2, h3, h4, hv, hc⟩ :=
    seedClusters_seeded _ _ (two_le_clampStep step) _ hmem
  rw [hfr.1] at h2 hv
  rw [hfr.2.1] at h4
  obtain ⟨q1, q2, -⟩ := hpix cx cy h1 h2 h3 h4
  refine ⟨cx, cy, h1, h2, h3, h4, ?_, ?_⟩
  · intro e
    rw [hv] at q2
    have e' : srcAlpha src rowBytes pixelBytes cx cy = 0 := e
    rw [e'] at q2
    exact absurd q2 (by decide)
  · rw [hc]
    unfold seedCluster
    simp only
    rw [hfr.1, q1]
    rfl

/-- C5, pixels without a cluster keep their colour: after `Initialize` and a completed
`Execute` (no poll stops it), a pixel `(x, y)` that is invalid (source alpha 0) or ends with
the label `-1` has its four output bytes equal to the source pixel's R, G, B and alpha;
after any number `n` of completed iterations an invalid pixel has the label `-1`; and the
accumulation loop gives the same accumulators for any two processors that agree on the
image size, the validity mask and the labels and colours of the valid pixels. -/
theorem unlabelled_pixels_keep_colour {R : Type} [DoubleOps R] (K : HostConsts)
    (p0 : SLICProcessor R) (w h : Int) (src : Int → BYTE) (rowBytes pixelBytes step : Int)
    (m : R) (host : Nat → Int) (pCurrentProgress : Option Int) (progressUnit x y : Int)
    (hx : 0 ≤ x) (hxw : x < w) (hy : 0 ≤ y) (hyh : y < h)
    (hhost : ∀ j, j < 10 → ¬ isStop K (host j)) :
    ((srcAlpha src rowBytes pixelBytes x y = 0 ∨
        (Execute K (Initialize p0 w h src rowBytes pixelBytes) step m host pCurrentProgress
          progressUnit).2.proc.labels.getD (y * w + x).toNat (-1) = -1) →
      (Execute K (Initialize p0 w h src rowBytes pixelBytes) step m host pCurrentProgress
          progressUnit).2.proc.resultRGB.getD ((y * w + x).toNat * 4 + 0) 0
        = src (y * rowBytes + x * pixelBytes + 0) ∧
      (Execute K (Initialize p0 w h src rowBytes pixelBytes) step m host pCurrentProgress
          progressUnit).2.proc.resultRGB.getD ((y * w + x).toNat * 4 + 1) 0
        = src (y * rowBytes + x * pixelBytes + 1) ∧
      (Execute K (Initialize p0 w h src rowBytes pixelBytes) step m host pCurrentProgress
          progressUnit).2.proc.resultRGB.getD ((y * w + x).toNat * 4 + 2) 0
        = src (y * rowBytes + x * pixelBytes + 2) ∧
      (Execute K (Initialize p0 w h src rowBytes pixelBytes) step m host pCurrentProgress
          progressUnit).2.proc.resultRGB.getD ((y * w + x).toNat * 4 + 3) 0
        = srcAlpha src rowBytes pixelBytes x y)
    ∧ (srcAlpha src rowBytes pixelBytes x y = 0 → ∀ n : Nat,
        (afterIterations (Initialize p0 w h src rowBytes pixelBytes) step m n).labels.getD
          (y * w + x).toNat (-1) = -1)
    ∧ (∀ (q q' : SLICProcessor R) (cl : List (SlicCluster R)),
        q'.width = q.width → q'.height = q.height → q'.validPixels = q.validPixels →
        (∀ i, q.validPixels.getD i false = true →
          q'.labels.getD i (-1) = q.labels.getD i (-1) ∧
            q'.labData.getD i default = q.labData.getD i default) →
        accumulate q' cl = accumulate q cl) := by
  obtain ⟨hfr, hpix⟩ := Initialize_spec p0 w h src rowBytes pixelBytes
  obtain ⟨-, q2, q3, q4, q5, q6⟩ := hpix x y hx hxw hy hyh
  have hlab : (Initialize p0 w h src rowBytes pixelBytes).labels
      = assign (w.toNat * h.toNat) (-1) := hfr.2.2.1
  have hinv : srcAlpha src rowBytes pixelBytes x y = 0 → ∀ n : Nat,
      (afterIterations (Initialize p0 w h src rowBytes pixelBytes) step m n).labels.getD
        (y * w + x).toNat (-1) = -1 := by
    intro ha n
    apply (afterIterations_labels _ step m n _ hlab (y * w + x).toNat).2
    rw [(afterIterations_frame _ step m n).2.2.2.1, q2, ha]
    rfl
  refine ⟨?_, hinv, fun q q' cl hw hh hv hvalid => accumulate_congr q q' cl hw hh hv hvalid⟩
  intro hcase
  rw [Execute_complete K _ step m host pCurrentProgress progressUnit hhost] at hcase ⊢
  simp only at hcase ⊢
  have hl : (afterIterations (Initialize p0 w h src rowBytes pixelBytes) step m 10).labels.getD
      (y * w + x).toNat (-1) = -1 := by
    rcases hcase with ha | hl
    · exact hinv ha 10
    · exact hl
  have hnot : ¬ labelInRange (afterIterations (Initialize p0 w h src rowBytes pixelBytes) step m
      10) ((afterIterations (Initialize p0 w h src rowBytes pixelBytes) step m 10).labels.getD
        (y * w + x).toNat (-1)) := by
    rw [hl]
    intro hin
    have := hin.1
    omega
  have hres := (afterIterations_frame (Initialize p0 w h src rowBytes pixelBytes) step m
    10).2.2.2.2.1
  refine ⟨?_, ?_, ?_, ?_⟩
  · rw [render_unlabelled _ _ hnot 0 (by omega), hres]; exact q3
  · rw [render_unlabelled _ _ hnot 1 (by omega), hres]; exact q4
  · rw [render_unlabelled _ _ hnot 2 (by omega), hres]; exact q5
  · rw [render_unlabelled _ _ hnot 3 (by omega), hres]; exact q6

/-- C6, region rendering: after `Initialize` and a completed `Execute` (no poll stops it),
for every pixel `(x, y)` whose final label is in range the output R, G, B bytes are
`LAB2RGB` of the final `l`, `a`, `b` of the cluster with that label; so another pixel
`(x2, y2)` with the same label has the same output R, G, B. -/
theorem region_rendering {R : Type} [DoubleOps R] (K : HostConsts) (p0 : SLICProcessor R)
    (w h : Int) (src : Int → BYTE) (rowBytes pixelBytes step : Int) (m : R) (host : Nat → Int)
    (pCurrentProgress : Option Int) (progressUnit x y : Int)
    (hx : 0 ≤ x) (hxw : x < w) (hy : 0 ≤ y) (hyh : y < h)
    (hhost : ∀ j, j < 10 → ¬ isStop K (host j))
    (hlabel : labelInRange
      (Execute K (Initialize p0 w h src rowBytes pixelBytes) step m host pCurrentProgress
        progressUnit).2.proc
      ((Execute K (Initialize p0 w h src rowBytes pixelBytes) step m host pCurrentProgress
        progressUnit).2.proc.labels.getD (y * w + x).toNat (-1))) :
    (((Execute K (Initialize p0 w h src rowBytes pixelBytes) step m host pCurrentProgress
          progressUnit).2.proc.resultRGB.getD ((y * w + x).toNat * 4 + 0) 0,
      (Execute K (Initialize p0 w h src rowBytes pixelBytes) step m host pCurrentProgress
          progressUnit).2.proc.resultRGB.getD ((y * w + x).toNat * 4 + 1) 0,
      (Execute K (Initialize p0 w h src rowBytes pixelBytes) step m host pCurrentProgress
          progressUnit).2.proc.resultRGB.getD ((y * w + x).toNat * 4 + 2) 0)
      = LAB2RGB
          ((Execute K (Initialize p0 w h src rowBytes pixelBytes) step m host pCurrentProgress
            progressUnit).2.proc.clusters.getD
              ((Execute K (Initialize p0 w h src rowBytes pixelBytes) step m host
                pCurrentProgress progressUnit).2.proc.labels.getD (y * w + x).toNat
                  (-1)).toNat default).l
          ((Execute K (Initialize p0 w h src rowBytes pixelBytes) step m host pCurrentProgress
            progressUnit).2.proc.clusters.getD
              ((Execute K (Initialize p0 w h src rowBytes pixelBytes) step m host
                pCurrentProgress progressUnit).2.proc.labels.getD (y * w + x).toNat
                  (-1)).toNat default).a
          ((Execute K (Initialize p0 w h src rowBytes pixelBytes) step m host pCurrentProgress
            progressUnit).2.proc.clusters.getD
              ((Execute K (Initialize p0 w h src rowBytes pixelBytes) step m host
                pCurrentProgress progressUnit).2.proc.labels.getD (y * w + x).toNat
                  (-1)).toNat default).b)
    ∧ ∀ x2 y2 : Int, 0 ≤ x2 → x2 < w → 0 ≤ y2 → y2 < h →
        (Execute K (Initialize p0 w h src rowBytes pixelBytes) step m host pCurrentProgress
            progressUnit).2.proc.labels.getD (y2 * w + x2).toNat (-1)
          = (Execute K (Initialize p0 w h src rowBytes pixelBytes) step m host pCurrentProgress
            progressUnit).2.proc.labels.getD (y * w + x).toNat (-1) →
        ((Execute K (Initialize p0 w h src rowBytes pixelBytes) step m host pCurrentProgress
            progressUnit).2.proc.resultRGB.getD ((y2 * w + x2).toNat * 4 + 0) 0,
          (Execute K (Initialize p0 w h src rowBytes pixelBytes) step m host pCurrentProgress
            progressUnit).2.proc.resultRGB.getD ((y2 * w + x2).toNat * 4 + 1) 0,
          (Execute K (Initialize p0 w h src rowBytes pixelBytes) step m host pCurrentProgress
            progressUnit).2.proc.resultRGB.getD ((y2 * w + x2).toNat * 4 + 2) 0)
        = ((Execute K (Initialize p0 w h src rowBytes pixelBytes) step m host pCurrentProgress
            progressUnit).2.proc.resultRGB.getD ((y * w + x).toNat * 4 + 0) 0,
          (Execute K (Initialize p0 w h src rowBytes pixelBytes) step m host pCurrentProgress
            progressUnit).2.proc.resultRGB.getD ((y * w + x).toNat * 4 + 1) 0,
          (Execute K (Initialize p0 w h src rowBytes pixelBytes) step m host pCurrentProgress
            progressUnit).2.proc.resultRGB.getD ((y * w + x).toNat * 4 + 2) 0) := by
  obtain ⟨hfr, -⟩ := Initialize_spec p0 w h src rowBytes pixelBytes
  have hF := afterIterations_frame (Initialize p0 w h src rowBytes pixelBytes) step m 10
  have htot : ((afterIterations (Initialize p0 w h src rowBytes pixelBytes) step m 10).width
      * (afterIterations (Initialize p0 w h src rowBytes pixelBytes) step m 10).height).toNat
      = w.toNat * h.toNat := by
    rw [hF.1, hF.2.1, hfr.1, hfr.2.1]
    have : ((w.toNat * h.toNat : Nat) : Int) = w * h := by
      push_cast
      rw [Int.toNat_of_nonneg (by omega : 0 ≤ w), Int.toNat_of_nonneg (by omega : 0 ≤ h)]
    omega
  have hlen : (afterIterations (Initialize p0 w h src rowBytes pixelBytes) step m
      10).resultRGB.length
      = ((afterIterations (Initialize p0 w h src rowBytes pixelBytes) step m 10).width
        * (afterIterations (Initialize p0 w h src rowBytes pixelBytes) step m 10).height).toNat
        * 4 := by
    rw [htot, hF.2.2.2.2.1]
    exact hfr.2.2.2.2.2.2.2
  rw [Execute_complete K _ step m host pCurrentProgress progressUnit hhost] at hlabel ⊢
  simp only at hlabel ⊢
  have key : ∀ x' y' : Int, 0 ≤ x' → x' < w → 0 ≤ y' → y' < h →
      labelInRange (afterIterations (Initialize p0 w h src rowBytes pixelBytes) step m 10)
        ((afterIterations (Initialize p0 w h src rowBytes pixelBytes) step m 10).labels.getD
          (y' * w + x').toNat (-1)) → _ :=
    fun x' y' h1 h2 h3 h4 hin =>
      render_labelled (afterIterations (Initialize p0 w h src rowBytes pixelBytes) step m 10)
        (y' * w + x').toNat (by rw [htot]; exact idx_lt h1 h2 h3 h4) hlen hin
  refine ⟨key x y hx hxw hy hyh hlabel, ?_⟩
  intro x2 y2 h1 h2 h3 h4 hsame
  have hsame' : (afterIterations (Initialize p0 w h src rowBytes pixelBytes) step m
      10).labels.getD (y2 * w + x2).toNat (-1)
      = (afterIterations (Initialize p0 w h src rowBytes pixelBytes) step m 10).labels.getD
        (y * w + x).toNat (-1) := hsame
  rw [key x y hx hxw hy hyh hlabel, key x2 y2 h1 h2 h3 h4 (by rw [hsame']; exact hlabel),
    hsame']

/-- C7, step clamping: for every `step < 2`, zero and negative values included, `Execute`
returns the same value, processor (clusters, labels, output buffer), progress and host
calls as with `step = 2`, and after any number `n` of completed iterations the processor is
the one obtained by seeding with grid spacing 2 and iterating with search radius 2. -/
theorem step_clamping {R : Type} [DoubleOps R] (K : HostConsts) (p : SLICProcessor R)
    (step : Int) (m : R) (host : Nat → Int) (pCurrentProgress : Option Int)
    (progressUnit : Int) (hstep : step < 2) :
    Execute K p step m host pCurrentProgress progressUnit
      = Execute K p 2 m host pCurrentProgress progressUnit
    ∧ ∀ n : Nat, afterIterations p step m n
        = iterationsFrom m 2 n 0 { p with clusters := seedClusters p 2 } := by
  have e : clampStep step = 2 := by
    unfold clampStep
    rw [if_pos hstep]
  have e2 : clampStep 2 = 2 := by decide
  refine ⟨?_, ?_⟩
  · unfold Execute
    simp only [e, e2]
  · intro n
    unfold afterIterations
    rw [e]

/-- C8, cooperative control: `Execute` makes at most 10 polls.  If the poll of round `i` is
the first to return exit or restart, `Execute` returns that result, its calls to the host
are those of `i + 1` rounds (per round the progress report, then one poll; `i + 1` polls in
all), the processor is the one after `i` completed iterations (round `i` runs no assignment
or update, and nothing is rendered), and `resultRGB` is what `Initialize` wrote, the bytes of
the source pixels.  If no poll returns exit or restart, `Execute` returns continue after 10
rounds with 10 polls, one more progress report and the render loop.  Provided continue is
neither exit nor restart, `Execute` returns continue only if none of the 10 polls returned
exit or restart. -/
theorem cooperative_control {R : Type} [DoubleOps R] (K : HostConsts) (p0 : SLICProcessor R)
    (w h : Int) (src : Int → BYTE) (rowBytes pixelBytes step : Int) (m : R) (host : Nat → Int)
    (pCurrentProgress : Option Int) (progressUnit : Int) :
    (polls (Execute K (Initialize p0 w h src rowBytes pixelBytes) step m host pCurrentProgress
        progressUnit).2.calls).length ≤ 10
    ∧ (∀ i, i < 10 → (∀ j, j < i → ¬ isStop K (host j)) → isStop K (host i) →
        (Execute K (Initialize p0 w h src rowBytes pixelBytes) step m host pCurrentProgress
          progressUnit).1 = host i
        ∧ (Execute K (Initialize p0 w h src rowBytes pixelBytes) step m host pCurrentProgress
          progressUnit).2.calls = roundCalls K progressUnit (i + 1) pCurrentProgress
        ∧ (polls (Execute K (Initialize p0 w h src rowBytes pixelBytes) step m host
          pCurrentProgress progressUnit).2.calls).length = i + 1
        ∧ (Execute K (Initialize p0 w h src rowBytes pixelBytes) step m host pCurrentProgress
          progressUnit).2.proc
            = afterIterations (Initialize p0 w h src rowBytes pixelBytes) step m i
        ∧ (Execute K (Initialize p0 w h src rowBytes pixelBytes) step m host pCurrentProgress
          progressUnit).2.proc.resultRGB = (Initialize p0 w h src rowBytes pixelBytes).resultRGB
        ∧ ∀ x y : Int, 0 ≤ x → x < w → 0 ≤ y → y < h →
          (Execute K (Initialize p0 w h src rowBytes pixelBytes) step m host pCurrentProgress
              progressUnit).2.proc.resultRGB.getD ((y * w + x).toNat * 4 + 0) 0
            = src (y * rowBytes + x * pixelBytes + 0) ∧
          (Execute K (Initialize p0 w h src rowBytes pixelBytes) step m host pCurrentProgress
              progressUnit).2.proc.resultRGB.getD ((y * w + x).toNat * 4 + 1) 0
            = src (y * rowBytes + x * pixelBytes + 1) ∧
          (Execute K (Initialize p0 w h src rowBytes pixelBytes) step m host pCurrentProgress
              progressUnit).2.proc.resultRGB.getD ((y * w + x).toNat * 4 + 2) 0
            = src (y * rowBytes + x * pixelBytes + 2) ∧
          (Execute K (Initialize p0 w h src rowBytes pixelBytes) step m host pCurrentProgress
              progressUnit).2.proc.resultRGB.getD ((y * w + x).toNat * 4 + 3) 0
            = srcAlpha src rowBytes pixelBytes x y)
    ∧ ((∀ j, j < 10 → ¬ isStop K (host j)) →
        (Execute K (Initialize p0 w h src rowBytes pixelBytes) step m host pCurrentProgress
          progressUnit).1 = K.kTriglavPlugInFilterRunProcessResultContinue
        ∧ (Execute K (Initialize p0 w h src rowBytes pixelBytes) step m host pCurrentProgress
          progressUnit).2.calls
            = roundCalls K progressUnit 10 pCurrentProgress ++
              (match progressAfter progressUnit 10 pCurrentProgress with
                | none => []
                | some c => [HostCall.FilterRunSetProgressDone (c + progressUnit)])
        ∧ (polls (Execute K (Initialize p0 w h src rowBytes pixelBytes) step m host
          pCurrentProgress progressUnit).2.calls).length = 10
        ∧ (Execute K (Initialize p0 w h src rowBytes pixelBytes) step m host pCurrentProgress
          progressUnit).2.proc
            = render (afterIterations (Initialize p0 w h src rowBytes pixelBytes) step m 10))
    ∧ (¬ isStop K K.kTriglavPlugInFilterRunProcessResultContinue →
        (Execute K (Initialize p0 w h src rowBytes pixelBytes) step m host pCurrentProgress
          progressUnit).1 = K.kTriglavPlugInFilterRunProcessResultContinue →
        ∀ j, j < 10 → ¬ isStop K (host j)) := by
  have hstop : ∀ i, i < 10 → (∀ j, j < i → ¬ isStop K (host j)) → isStop K (host i) →
      (Execute K (Initialize p0 w h src rowBytes pixelBytes) step m host pCurrentProgress
        progressUnit)
        = (host i, ⟨afterIterations (Initialize p0 w h src rowBytes pixelBytes) step m i,
            progressAfter progressUnit (i + 1) pCurrentProgress,
            roundCalls K progressUnit (i + 1) pCurrentProgress⟩) :=
    fun i hi hb hs => Execute_stop K _ step m host pCurrentProgress progressUnit i hi hb hs
  have hcomp := Execute_complete K (Initialize p0 w h src rowBytes pixelBytes) step m host
    pCurrentProgress progressUnit
  have hpolls10 : (polls (roundCalls K progressUnit 10 pCurrentProgress ++
      (match progressAfter progressUnit 10 pCurrentProgress with
        | none => []
        | some c => [HostCall.FilterRunSetProgressDone (c + progressUnit)]))).length = 10 := by
    have := polls_roundCalls K progressUnit 10 pCurrentProgress
    unfold polls at this ⊢
    rw [List.filter_append, List.length_append, this]
    cases progressAfter progressUnit 10 pCurrentProgress <;> simp
  refine ⟨?_, ?_, ?_, ?_⟩
  · rcases first_stop K host 10 with hall | ⟨i, hi, hb, hs⟩
    · rw [hcomp hall]
      exact le_of_eq hpolls10
    · rw [hstop i hi hb hs]
      simp only [polls_roundCalls]
      omega
  · intro i hi hb hs
    rw [hstop i hi hb hs]
    have hres := (afterIterations_frame (Initialize p0 w h src rowBytes pixelBytes) step m
      i).2.2.2.2.1
    refine ⟨rfl, rfl, polls_roundCalls K progressUnit (i + 1) pCurrentProgress, rfl, hres, ?_⟩
    intro x y hx hxw hy hyh
    obtain ⟨-, -, q3, q4, q5, q6⟩ :=
      (Initialize_spec p0 w h src rowBytes pixelBytes).2 x y hx hxw hy hyh
    rw [hres]
    exact ⟨q3, q4, q5, q6⟩
  · intro hall
    rw [hcomp hall]
    exact ⟨rfl, rfl, hpolls10, rfl⟩
  · intro hK hret
    rcases first_stop K host 10 with hall | ⟨i, hi, hb, hs⟩
    · exact hall
    · rw [hstop i hi hb hs] at hret
      simp only at hret
      rw [hret] at hs
      exact absurd hs hK

/-- C9, progress protocol: in a pass that reaches the progress setup, the one total declared
is 12.  If no poll returns exit or restart, the values reported as done are 1 (after
ingestion), 2 to 11 (at the start of the ten iterations) and 12 (at render), so the last
one is the total.  If the poll of round `i` is the first to return exit or restart, the
values reported are 1, 2, ..., `i + 2`: strictly increasing and at most 11. -/
theorem progress_protocol {R : Type} [DoubleOps R] (K : HostConsts)
    (processor : SLICProcessor R) (width height : Int) (srcRaw : Int → BYTE)
    (srcRowBytes srcPixelBytes cellSize : Int) (compactness : R) (host : Nat → Int) :
    totals (filterRunProcess K processor width height srcRaw srcRowBytes srcPixelBytes cellSize
      compactness host).2.calls = [12]
    ∧ ((∀ j, j < 10 → ¬ isStop K (host j)) →
        doneValues (filterRunProcess K processor width height srcRaw srcRowBytes srcPixelBytes
          cellSize compactness host).2.calls = [1, 2, 3, 4, 5, 6, 7, 8, 9, 10, 11, 12])
    ∧ (∀ i, i < 10 → (∀ j, j < i → ¬ isStop K (host j)) → isStop K (host i) →
        doneValues (filterRunProcess K processor width height srcRaw srcRowBytes srcPixelBytes
          cellSize compactness host).2.calls
            = (List.range (i + 2)).map (fun (j : Nat) => (j : Int) + 1)
        ∧ List.Pairwise (· < ·)
            (doneValues (filterRunProcess K processor width height srcRaw srcRowBytes
              srcPixelBytes cellSize compactness host).2.calls)
        ∧ ∀ v ∈ doneValues (filterRunProcess K processor width height srcRaw srcRowBytes
            srcPixelBytes cellSize compactness host).2.calls, v ≤ 11) := by
  have hstopv : ∀ i, i < 10 → (∀ j, j < i → ¬ isStop K (host j)) → isStop K (host i) →
      doneValues (filterRunProcess K processor width height srcRaw srcRowBytes srcPixelBytes
        cellSize compactness host).2.calls
          = (List.range (i + 2)).map (fun (j : Nat) => (j : Int) + 1) := by
    intro i hi hb hs
    unfold filterRunProcess
    simp only
    rw [Execute_stop K _ cellSize compactness host (some 1) 1 i hi hb hs]
    simp only [doneValues, List.filterMap_append]
    have := doneValues_roundCalls K 1 (i + 1) 1
    simp only [doneValues] at this
    rw [this, List.range_succ_eq_map (i + 1), List.map_cons, List.map_map]
    simp only [List.filterMap_cons, List.filterMap_nil, List.nil_append, List.singleton_append,
      List.cons.injEq]
    refine ⟨by norm_num, ?_⟩
    apply List.map_congr_left
    intro j _
    simp only [Function.comp, Nat.succ_eq_add_one]
    push_cast
    ring
  refine ⟨?_, ?_, ?_⟩
  · unfold filterRunProcess
    simp only
    rcases first_stop K host 10 with hall | ⟨i, hi, hb, hs⟩
    · rw [Execute_complete K _ cellSize compactness host (some 1) 1 hall]
      simp only [totals, List.filterMap_append]
      have := totals_roundCalls K 1 10 (some 1)
      simp only [totals] at this
      rw [this]
      rfl
    · rw [Execute_stop K _ cellSize compactness host (some 1) 1 i hi hb hs]
      simp only [totals, List.filterMap_append]
      have := totals_roundCalls K 1 (i + 1) (some 1)
      simp only [totals] at this
      rw [this]
      rfl
  · intro hall
    unfold filterRunProcess
    simp only
    rw [Execute_complete K _ cellSize compactness host (some 1) 1 hall]
    rfl
  · intro i hi hb hs
    rw [hstopv i hi hb hs]
    refine ⟨rfl, ?_, ?_⟩
    · rw [List.pairwise_map]
      apply List.Pairwise.imp _ (List.pairwise_lt_range (i + 2))
      intro a b hab
      omega
    · intro v hv
      obtain ⟨j, hj, rfl⟩ := List.mem_map.mp hv
      have := List.mem_range.mp hj
      omega

/-! ## The claims on a concrete image -/

set_option maxRecDepth 1000000

theorem hostContinue_never_stops : ∀ j, j < 10 → ¬ isStop sampleConsts (hostContinue j) := by
  intro j _
  show ¬ isStop sampleConsts 0x0101
  decide

theorem hostExitAtThree_before : ∀ j, j < 3 → ¬ isStop sampleConsts (hostExitAtThree j) := by
  intro j hj
  have : hostExitAtThree j = 0x0101 := by
    unfold hostExitAtThree
    rw [if_neg (by omega)]
  rw [this]
  decide

/-- C1 on the sample bitmap: the pixel `(0, 0)` keeps its alpha 0 through a complete run. -/
theorem alpha_preservation_witness :
    ((0 : Int) ≤ 0 ∧ (0 : Int) < 2 ∧ (0 : Int) ≤ 0 ∧ (0 : Int) < 2) ∧
    (Execute sampleConsts (Initialize freshProcessor 2 2 sampleBitmap 8 4) 2 (20 : ℚ)
        hostContinue (some 1) 1).2.proc.resultRGB.getD ((0 * 2 + 0 : Int).toNat * 4 + 3) 0
      = (if (4 : Int) ≥ 4 then sampleBitmap (0 * 8 + 0 * 4 + 3) else 255) :=
  ⟨by decide, alpha_preservation sampleConsts freshProcessor 2 2 sampleBitmap 8 4 2 (20 : ℚ)
    hostContinue (some 1) 1 0 0 (by decide) (by decide) (by decide) (by decide)⟩

/-- C3 on two clusters that sit on the one pixel of an image: the pixel goes to cluster 0,
cluster 1 stays empty, has count 0 after the accumulation and is rolled back. -/
theorem empty_cluster_rollback_witness :
    (1 < twoClustersOnePixel.clusters.length ∧
      ∀ i, i < (twoClustersOnePixel.width * twoClustersOnePixel.height).toNat →
        twoClustersOnePixel.validPixels.getD i false = true →
        (assignment twoClustersOnePixel 20 2).labels.getD i (-1) ≠ ((1 : Nat) : Int)) ∧
    ((accumulate (assignment twoClustersOnePixel 20 2)
        (zeroClusters (assignment twoClustersOnePixel 20 2).clusters)).getD 1 default).count = 0
    ∧ (iteration 20 2 0 twoClustersOnePixel).clusters.getD 1 default
        = twoClustersOnePixel.clusters.getD 1 default :=
  ⟨⟨by decide, by decide!⟩,
    (empty_cluster_rollback 20 2 0 twoClustersOnePixel 1 (by decide)).1 (by decide!),
    (empty_cluster_rollback 20 2 0 twoClustersOnePixel 1 (by decide)).2
      ((empty_cluster_rollback 20 2 0 twoClustersOnePixel 1 (by decide)).1 (by decide!))⟩

/-- C4 on the sample bitmap with step 2: the seeding creates a cluster, and it sits on a
valid pixel. -/
theorem seeds_on_valid_pixels_witness :
    0 < (seedClusters (Initialize freshProcessor 2 2 sampleBitmap 8 4) (clampStep 2)).length ∧
    ∃ cx cy : Int, 0 ≤ cx ∧ cx < 2 ∧ 0 ≤ cy ∧ cy < 2 ∧
      (if (4 : Int) ≥ 4 then sampleBitmap (cy * 8 + cx * 4 + 3) else 255) ≠ 0 ∧
      (seedClusters (Initialize freshProcessor 2 2 sampleBitmap 8 4) (clampStep 2)).getD 0 default
        = { l := (RGB2LAB (sampleBitmap (cy * 8 + cx * 4 + 0))
              (sampleBitmap (cy * 8 + cx * 4 + 1))
              (sampleBitmap (cy * 8 + cx * 4 + 2)) : SlicColor ℚ).l
            a := (RGB2LAB (sampleBitmap (cy * 8 + cx * 4 + 0))
              (sampleBitmap (cy * 8 + cx * 4 + 1))
              (sampleBitmap (cy * 8 + cx * 4 + 2)) : SlicColor ℚ).a
            b := (RGB2LAB (sampleBitmap (cy * 8 + cx * 4 + 0))
              (sampleBitmap (cy * 8 + cx * 4 + 1))
              (sampleBitmap (cy * 8 + cx * 4 + 2)) : SlicColor ℚ).b
            x := DoubleOps.ofInt cx, y := DoubleOps.ofInt cy, count := 0 } :=
  ⟨by decide!, seeds_on_valid_pixels freshProcessor 2 2 sampleBitmap 8 4 2 0 (by decide!)⟩

/-- C5 on the sample bitmap: the transparent pixel `(0, 0)` comes out with its source
bytes. -/
theorem unlabelled_pixels_keep_colour_witness :
    (((0 : Int) ≤ 0 ∧ (0 : Int) < 2 ∧ (0 : Int) ≤ 0 ∧ (0 : Int) < 2) ∧
      (∀ j, j < 10 → ¬ isStop sampleConsts (hostContinue j)) ∧
      srcAlpha sampleBitmap 8 4 0 0 = 0) ∧
    (Execute sampleConsts (Initialize freshProcessor 2 2 sampleBitmap 8 4) 2 (20 : ℚ)
        hostContinue (some 1) 1).2.proc.resultRGB.getD ((0 * 2 + 0 : Int).toNat * 4 + 0) 0
      = sampleBitmap (0 * 8 + 0 * 4 + 0) ∧
    (Execute sampleConsts (Initialize freshProcessor 2 2 sampleBitmap 8 4) 2 (20 : ℚ)
        hostContinue (some 1) 1).2.proc.resultRGB.getD ((0 * 2 + 0 : Int).toNat * 4 + 1) 0
      = sampleBitmap (0 * 8 + 0 * 4 + 1) ∧
    (Execute sampleConsts (Initialize freshProcessor 2 2 sampleBitmap 8 4) 2 (20 : ℚ)
        hostContinue (some 1) 1).2.proc.resultRGB.getD ((0 * 2 + 0 : Int).toNat * 4 + 2) 0
      = sampleBitmap (0 * 8 + 0 * 4 + 2) ∧
    (Execute sampleConsts (Initialize freshProcessor 2 2 sampleBitmap 8 4) 2 (20 : ℚ)
        hostContinue (some 1) 1).2.proc.resultRGB.getD ((0 * 2 + 0 : Int).toNat * 4 + 3) 0
      = srcAlpha sampleBitmap 8 4 0 0 :=
  ⟨⟨by decide, hostContinue_never_stops, by decide⟩,
    (unlabelled_pixels_keep_colour sampleConsts freshProcessor 2 2 sampleBitmap 8 4 2 (20 : ℚ)
      hostContinue (some 1) 1 0 0 (by decide) (by decide) (by decide) (by decide)
      hostContinue_never_stops).1 (Or.inl (by decide))⟩

/-- The label of the pixel `(1, 1)` of the sample bitmap after a complete run with step 2
is in range. -/
theorem sample_label_in_range :
    labelInRange
      (Execute sampleConsts (Initialize freshProcessor 2 2 sampleBitmap 8 4) 2 (20 : ℚ)
        hostContinue (some 1) 1).2.proc
      ((Execute sampleConsts (Initialize freshProcessor 2 2 sampleBitmap 8 4) 2 (20 : ℚ)
        hostContinue (some 1) 1).2.proc.labels.getD (1 * 2 + 1 : Int).toNat (-1)) := by
  decide!

/-- C6 on the sample bitmap: the pixel `(1, 1)` ends with a label in range and comes out in
the colour of its cluster. -/
theorem region_rendering_witness :
    (((0 : Int) ≤ 1 ∧ (1 : Int) < 2 ∧ (0 : Int) ≤ 1 ∧ (1 : Int) < 2) ∧
      (∀ j, j < 10 → ¬ isStop sampleConsts (hostContinue j)) ∧
      labelInRange
        (Execute sampleConsts (Initialize freshProcessor 2 2 sampleBitmap 8 4) 2 (20 : ℚ)
          hostContinue (some 1) 1).2.proc
        ((Execute sampleConsts (Initialize freshProcessor 2 2 sampleBitmap 8 4) 2 (20 : ℚ)
          hostContinue (some 1) 1).2.proc.labels.getD (1 * 2 + 1 : Int).toNat (-1))) ∧
    ((Execute sampleConsts (Initialize freshProcessor 2 2 sampleBitmap 8 4) 2 (20 : ℚ)
          hostContinue (some 1) 1).2.proc.resultRGB.getD ((1 * 2 + 1 : Int).toNat * 4 + 0) 0,
      (Execute sampleConsts (Initialize freshProcessor 2 2 sampleBitmap 8 4) 2 (20 : ℚ)
          hostContinue (some 1) 1).2.proc.resultRGB.getD ((1 * 2 + 1 : Int).toNat * 4 + 1) 0,
      (Execute sampleConsts (Initialize freshProcessor 2 2 sampleBitmap 8 4) 2 (20 : ℚ)
          hostContinue (some 1) 1).2.proc.resultRGB.getD ((1 * 2 + 1 : Int).toNat * 4 + 2) 0)
      = LAB2RGB
          ((Execute sampleConsts (Initialize freshProcessor 2 2 sampleBitmap 8 4) 2 (20 : ℚ)
            hostContinue (some 1) 1).2.proc.clusters.getD
              ((Execute sampleConsts (Initialize freshProcessor 2 2 sampleBitmap 8 4) 2 (20 : ℚ)
                hostContinue (some 1) 1).2.proc.labels.getD (1 * 2 + 1 : Int).toNat
                  (-1)).toNat default).l
          ((Execute sampleConsts (Initialize freshProcessor 2 2 sampleBitmap 8 4) 2 (20 : ℚ)
            hostContinue (some 1) 1).2.proc.clusters.getD
              ((Execute sampleConsts (Initialize freshProcessor 2 2 sampleBitmap 8 4) 2 (20 : ℚ)
                hostContinue (some 1) 1).2.proc.labels.getD (1 * 2 + 1 : Int).toNat
                  (-1)).toNat default).a
          ((Execute sampleConsts (Initialize freshProcessor 2 2 sampleBitmap 8 4) 2 (20 : ℚ)
            hostContinue (some 1) 1).2.proc.clusters.getD
              ((Execute sampleConsts (Initialize freshProcessor 2 2 sampleBitmap 8 4) 2 (20 : ℚ)
                hostContinue (some 1) 1).2.proc.labels.getD (1 * 2 + 1 : Int).toNat
                  (-1)).toNat default).b :=
  ⟨⟨by decide, hostContinue_never_stops, sample_label_in_range⟩,
    (region_rendering sampleConsts freshProcessor 2 2 sampleBitmap 8 4 2 (20 : ℚ)
      hostContinue (some 1) 1 1 1 (by decide) (by decide) (by decide) (by decide)
      hostContinue_never_stops sample_label_in_range).1⟩

/-- C7 on the sample bitmap: step 0 runs as step 2. -/
theorem step_clamping_witness :
    (0 : Int) < 2 ∧
    Execute sampleConsts (Initialize freshProcessor 2 2 sampleBitmap 8 4) 0 (20 : ℚ)
        hostContinue (some 1) 1
      = Execute sampleConsts (Initialize freshProcessor 2 2 sampleBitmap 8 4) 2 (20 : ℚ)
        hostContinue (some 1) 1 :=
  ⟨by decide, (step_clamping sampleConsts (Initialize freshProcessor 2 2 sampleBitmap 8 4) 0
    (20 : ℚ) hostContinue (some 1) 1 (by decide)).1⟩

/-- C8 on the sample bitmap with a host that exits at round 3: `Execute` returns exit after
4 polls and the output buffer is what `Initialize` wrote. -/
theorem cooperative_control_witness :
    (3 < 10 ∧ (∀ j, j < 3 → ¬ isStop sampleConsts (hostExitAtThree j)) ∧
      isStop sampleConsts (hostExitAtThree 3)) ∧
    (Execute sampleConsts (Initialize freshProcessor 2 2 sampleBitmap 8 4) 2 (20 : ℚ)
        hostExitAtThree (some 1) 1).1 = hostExitAtThree 3 ∧
    (polls (Execute sampleConsts (Initialize freshProcessor 2 2 sampleBitmap 8 4) 2 (20 : ℚ)
        hostExitAtThree (some 1) 1).2.calls).length = 3 + 1 ∧
    (Execute sampleConsts (Initialize freshProcessor 2 2 sampleBitmap 8 4) 2 (20 : ℚ)
        hostExitAtThree (some 1) 1).2.proc.resultRGB
      = (Initialize freshProcessor 2 2 sampleBitmap 8 4).resultRGB :=
  ⟨⟨by decide, hostExitAtThree_before, by decide⟩,
    ((cooperative_control sampleConsts freshProcessor 2 2 sampleBitmap 8 4 2 (20 : ℚ)
      hostExitAtThree (some 1) 1).2.1 3 (by decide) hostExitAtThree_before (by decide)).1,
    ((cooperative_control sampleConsts freshProcessor 2 2 sampleBitmap 8 4 2 (20 : ℚ)
      hostExitAtThree (some 1) 1).2.1 3 (by decide) hostExitAtThree_before
        (by decide)).2.2.1,
    ((cooperative_control sampleConsts freshProcessor 2 2 sampleBitmap 8 4 2 (20 : ℚ)
      hostExitAtThree (some 1) 1).2.1 3 (by decide) hostExitAtThree_before
        (by decide)).2.2.2.2.1⟩

/-- C9 on the sample bitmap: a complete pass reports 1 to 12 against the total 12, and a
pass whose host exits at round 3 reports 1 to 5. -/
theorem progress_protocol_witness :
    ((∀ j, j < 10 → ¬ isStop sampleConsts (hostContinue j)) ∧
      3 < 10 ∧ (∀ j, j < 3 → ¬ isStop sampleConsts (hostExitAtThree j)) ∧
      isStop sampleConsts (hostExitAtThree 3)) ∧
    totals (filterRunProcess sampleConsts freshProcessor 2 2 sampleBitmap 8 4 30 (20 : ℚ)
      hostContinue).2.calls = [12] ∧
    doneValues (filterRunProcess sampleConsts freshProcessor 2 2 sampleBitmap 8 4 30 (20 : ℚ)
      hostContinue).2.calls = [1, 2, 3, 4, 5, 6, 7, 8, 9, 10, 11, 12] ∧
    doneValues (filterRunProcess sampleConsts freshProcessor 2 2 sampleBitmap 8 4 30 (20 : ℚ)
      hostExitAtThree).2.calls = (List.range (3 + 2)).map (fun (j : Nat) => (j : Int) + 1) :=
  ⟨⟨hostContinue_never_stops, by decide, hostExitAtThree_before, by decide⟩,
    (progress_protocol sampleConsts freshProcessor 2 2 sampleBitmap 8 4 30 (20 : ℚ)
      hostContinue).1,
    (progress_protocol sampleConsts freshProcessor 2 2 sampleBitmap 8 4 30 (20 : ℚ)
      hostContinue).2.1 hostContinue_never_stops,
    ((progress_protocol sampleConsts freshProcessor 2 2 sampleBitmap 8 4 30 (20 : ℚ)
      hostExitAtThree).2.2 3 (by decide) hostExitAtThree_before (by decide)).1⟩

/-! ## Lemmas on the neighbourhood search -/

theorem pairwise_intRange (lo hi : Int) : (intRange lo hi).Pairwise (· < ·) := by
  unfold intRange
  rw [List.pairwise_map]
  apply List.Pairwise.imp _ (List.pairwise_lt_range _)
  intro a b hab
  omega

/-- In a split of a loop range at `a`, the values below `a` come before `a`. -/
theorem intRange_split {lo hi a : Int} {l₁ l₂ : List Int} (h : intRange lo hi = l₁ ++ a :: l₂)
    (v : Int) (hlo : lo ≤ v) (hva : v < a) : v ∈ l₁ := by
  have hp := pairwise_intRange lo hi
  rw [h] at hp
  have ha : a ∈ intRange lo hi := by rw [h]; simp
  have hv : v ∈ intRange lo hi := mem_intRange.mpr ⟨hlo, by have := (mem_intRange.mp ha).2; omega⟩
  rw [h] at hv
  rcases List.mem_append.mp hv with h1 | h2
  · exact h1
  · rcases List.mem_cons.mp h2 with e | h3
    · omega
    · have := (List.pairwise_cons.mp (List.pairwise_append.mp hp).2.1).1 v h3
      omega

theorem findValid_none_iff {R : Type} (p : SLICProcessor R) (sx ex sy ey : Int) :
    findValid p sx ex sy ey = none ↔
      ∀ ax ay, sx ≤ ax → ax < ex → sy ≤ ay → ay < ey → validAt p ax ay = false := by
  unfold findValid validAt
  simp only [List.findSome?_eq_none_iff, mem_intRange]
  constructor
  · intro h ax ay h1 h2 h3 h4
    have := h ay ⟨h3, h4⟩ ax ⟨h1, h2⟩
    cases hb : p.validPixels.getD (ay * p.width + ax).toNat false
    · rfl
    · rw [hb] at this; simp at this
  · intro h ay hy ax hx
    rw [h ax ay hx.1 hx.2 hy.1 hy.2]
    simp

/-- Every pixel of the rectangle before the one `findValid` returns is invalid. -/
theorem findValid_first {R : Type} (p : SLICProcessor R) (sx ex sy ey nx ny : Int)
    (h : findValid p sx ex sy ey = some (nx, ny)) :
    ∀ ax ay, sx ≤ ax → ax < ex → sy ≤ ay → ay < ey → (ay < ny ∨ (ay = ny ∧ ax < nx)) →
      validAt p ax ay = false := by
  unfold findValid at h
  obtain ⟨l₁, b, l₂, hsplit, hb, hbefore⟩ := List.findSome?_eq_some_iff.mp h
  obtain ⟨m₁, a, m₂, hsplit', ha, hbefore'⟩ := List.findSome?_eq_some_iff.mp hb
  have hab : a = nx ∧ b = ny := by
    split at ha
    · simpa using ha
    · simp at ha
  obtain ⟨rfl, rfl⟩ := hab
  intro ax ay h1 h2 h3 h4 hlt
  have hnone : ∀ (y' : Int) (x' : Int), sx ≤ x' → x' < ex →
      (List.findSome? (fun nx => if p.validPixels.getD (y' * p.width + nx).toNat false = true
        then some (nx, y') else none) (intRange sx ex) = none) → validAt p x' y' = false := by
    intro y' x' hx1 hx2 hn
    have := List.findSome?_eq_none_iff.mp hn x' (mem_intRange.mpr ⟨hx1, hx2⟩)
    unfold validAt
    cases hv : p.validPixels.getD (y' * p.width + x').toNat false
    · rfl
    · rw [hv] at this; simp at this
  rcases hlt with hlt | ⟨rfl, hlt⟩
  · exact hnone ay ax h1 h2 (hbefore ay (intRange_split hsplit ay h3 hlt))
  · have := hbefore' ax (intRange_split hsplit' ax h1 hlt)
    unfold validAt
    cases hv : p.validPixels.getD (ay * p.width + ax).toNat false
    · rfl
    · rw [hv] at this; simp at this

/-- What `findValid` returns for the square around a grid point is the first valid pixel of
the square. -/
theorem findValid_firstValid {R : Type} (p : SLICProcessor R) (step x y nx ny : Int)
    (h : findValid p (max 0 (x - step / 2)) (min p.width (x + step / 2))
      (max 0 (y - step / 2)) (min p.height (y + step / 2)) = some (nx, ny)) :
    FirstValid p step x y nx ny := by
  have h1 := findValid_some p _ _ _ _ nx ny h
  refine ⟨⟨h1.1, h1.2.1, h1.2.2.1, h1.2.2.2.1⟩, h1.2.2.2.2, ?_⟩
  intro ax ay hin hlt
  exact findValid_first p _ _ _ _ nx ny h ax ay hin.1 hin.2.1 hin.2.2.1 hin.2.2.2 hlt

/-! ## Claims on the relocation of seeds -/

/-- C16, seeder relocation rule: at a grid point `(x, y)` whose own pixel is valid the
seeding appends the cluster of `(x, y)` itself, never a relocated one.  At a grid point
whose own pixel is invalid, with the square `[x - h, x + h) x [y - h, y + h)` clipped to the
image, `h = step / 2`: either the square holds no valid pixel and no cluster is created, or
the seeding appends exactly the cluster of the first valid pixel of the square in row-major
order (ascending `y`, then ascending `x`). -/
theorem seeder_relocation_rule {R : Type} [DoubleOps R] (p : SLICProcessor R)
    (step y x : Int) (clusters : List (SlicCluster R)) :
    (validAt p x y = true → seedPoint p step y x clusters = clusters ++ [seedCluster p x y])
    ∧ (validAt p x y = false →
        ((∀ ax ay, inSearchSquare p step x y ax ay → validAt p ax ay = false) ∧
          seedPoint p step y x clusters = clusters)
        ∨ (∃ nx ny, FirstValid p step x y nx ny ∧
          seedPoint p step y x clusters = clusters ++ [seedCluster p nx ny])) := by
  constructor
  · intro hv
    unfold validAt at hv
    unfold seedPoint
    simp only [hv, Bool.not_true, Bool.false_eq_true, if_false]
  · intro hv
    unfold validAt at hv
    unfold seedPoint
    simp only [hv, Bool.not_false, if_true]
    cases hf : findValid p (max 0 (x - step / 2)) (min p.width (x + step / 2))
      (max 0 (y - step / 2)) (min p.height (y + step / 2)) with
    | none =>
      left
      refine ⟨?_, rfl⟩
      intro ax ay hin
      exact (findValid_none_iff p _ _ _ _).mp hf ax ay hin.1 hin.2.1 hin.2.2.1 hin.2.2.2
    | some c =>
      obtain ⟨nx, ny⟩ := c
      right
      exact ⟨nx, ny, findValid_firstValid p step x y nx ny hf, rfl⟩

/-- C17 as amended, relocation takes the first valid pixel, not the nearest: the pixel
`(nx, ny)` that the neighbourhood search returns for a grid point `(x, y)` is a valid pixel
of the clipped square of half-width `step / 2`, so it is within `step / 2` of the grid point
on each axis, and among the valid pixels of that square it is the one in the topmost row,
and the leftmost one of that row. -/
theorem relocation_first_in_row_major {R : Type} (p : SLICProcessor R) (step x y nx ny : Int)
    (hfound : findValid p (max 0 (x - step / 2)) (min p.width (x + step / 2))
      (max 0 (y - step / 2)) (min p.height (y + step / 2)) = some (nx, ny)) :
    validAt p nx ny = true ∧ inSearchSquare p step x y nx ny ∧
      (x - step / 2 ≤ nx ∧ nx < x + step / 2 ∧ y - step / 2 ≤ ny ∧ ny < y + step / 2) ∧
      ∀ ax ay, inSearchSquare p step x y ax ay → validAt p ax ay = true →
        ny ≤ ay ∧ (ay = ny → nx ≤ ax) := by
  obtain ⟨hin, hv, hfirst⟩ := findValid_firstValid p step x y nx ny hfound
  refine ⟨hv, hin, ?_, ?_⟩
  · obtain ⟨h1, h2, h3, h4⟩ := hin
    omega
  · intro ax ay hain hav
    constructor
    · by_contra hlt
      have := hfirst ax ay hain (Or.inl (by omega))
      rw [this] at hav
      exact absurd hav (by decide)
    · intro e
      by_contra hlt
      have := hfirst ax ay hain (Or.inr ⟨e, by omega⟩)
      rw [this] at hav
      exact absurd hav (by decide)

/-! ## Lemmas on the grid of seeds -/

theorem gridCount_of_le {start step bound : Int} (hstep : 1 ≤ step) (h : bound ≤ start) :
    gridCount start step bound = 0 := by
  unfold gridCount
  have : (bound - start + step - 1) / step < 1 :=
    Int.ediv_lt_of_lt_mul (by omega) (by omega)
  omega

theorem gridCount_succ {start step bound : Int} (hstep : 1 ≤ step) (h : start < bound) :
    gridCount start step bound = gridCount (start + step) step bound + 1 := by
  unfold gridCount
  have e : bound - start + step - 1 = (bound - (start + step) + step - 1) + 1 * step := by ring
  rw [e, Int.add_mul_ediv_right _ _ (by omega : step ≠ 0)]
  have : 0 ≤ (bound - (start + step) + step - 1) / step :=
    Int.ediv_nonneg (by omega) (by omega)
  omega

/-- Round `j` of a stride loop exists exactly when its value is below the bound. -/
theorem lt_gridCount_iff {step bound : Int} (hstep : 1 ≤ step) :
    ∀ (j : Nat) (start : Int), j < gridCount start step bound ↔ start + (j : Int) * step < bound := by
  intro j
  induction j with
  | zero =>
    intro start
    by_cases h : start < bound
    · rw [gridCount_succ hstep h]
      simp only [Nat.cast_zero, zero_mul, add_zero]
      exact ⟨fun _ => h, fun _ => by omega⟩
    · rw [gridCount_of_le hstep (by omega)]
      simp only [Nat.cast_zero, zero_mul, add_zero]
      exact ⟨fun h' => by omega, fun h' => absurd h' h⟩
  | succ n ih =>
    intro start
    have e : start + ((n + 1 : Nat) : Int) * step = (start + step) + (n : Int) * step := by
      push_cast; ring
    have hn : 0 ≤ (n : Int) * step := mul_nonneg (by omega) (by omega)
    rw [e]
    by_cases h : start < bound
    · rw [gridCount_succ hstep h, ← ih (start + step)]
      omega
    · rw [gridCount_of_le hstep (by omega)]
      exact ⟨fun h' => by omega, fun h' => by omega⟩

/-- The values of a stride loop are `start + j * step` for the rounds `j` that exist. -/
theorem strideFrom_eq_map {step bound : Int} (hstep : 1 ≤ step) :
    ∀ (fuel : Nat) (v : Int), (bound - v).toNat ≤ fuel →
      strideFrom step bound fuel v
        = (List.range (gridCount v step bound)).map (fun (j : Nat) => v + (j : Int) * step) := by
  intro fuel
  induction fuel with
  | zero =>
    intro v h
    rw [gridCount_of_le hstep (by omega)]
    rfl
  | succ n ih =>
    intro v h
    have e1 : strideFrom step bound (n + 1) v
        = if v < bound then v :: strideFrom step bound n (v + step) else [] := rfl
    rw [e1]
    by_cases hv : v < bound
    · rw [if_pos hv, ih (v + step) (by omega), gridCount_succ hstep hv, List.range_succ_eq_map,
        List.map_cons, List.map_map]
      simp only [Nat.cast_zero, zero_mul, add_zero, List.cons.injEq, true_and]
      apply List.map_congr_left
      intro j _
      simp only [Function.comp, Nat.succ_eq_add_one]
      push_cast
      ring
    · rw [if_neg hv, gridCount_of_le hstep (by omega)]
      rfl

theorem strideRange_eq_map {start step bound : Int} (hstart : 0 ≤ start) (hstep : 1 ≤ step) :
    strideRange start step bound
      = (List.range (gridCount start step bound)).map
          (fun (j : Nat) => start + (j : Int) * step) :=
  strideFrom_eq_map hstep _ _ (by omega)

/-- A property indexed by the round number that every round passes on holds after a loop
over the rounds `0, ..., n - 1`. -/
theorem foldl_range_inv {σ : Type} (f : σ → Nat → σ) (P : Nat → σ → Prop) :
    ∀ (n : Nat) (s : σ), P 0 s → (∀ j s, j < n → P j s → P (j + 1) (f s j)) →
      P n ((List.range n).foldl f s) := by
  intro n
  induction n with
  | zero => intro s h _; exact h
  | succ n ih =>
    intro s h0 hs
    rw [List.range_succ, List.foldl_append]
    exact hs n _ (by omega) (ih s h0 (fun j s hj hp => hs j s (by omega) hp))

/-- The seeding as loops over the row and column numbers of the grid. -/
theorem seedClusters_eq_range {R : Type} [DoubleOps R] (p : SLICProcessor R) (S : Int)
    (hS : 2 ≤ S) :
    seedClusters p S
      = (List.range (gridCount (S / 2) S p.height)).foldl
          (fun cl (i : Nat) => (List.range (gridCount (S / 2) S p.width)).foldl
            (fun cl (j : Nat) => seedPoint p S (S / 2 + (i : Int) * S) (S / 2 + (j : Int) * S) cl)
            cl) [] := by
  unfold seedClusters
  rw [strideRange_eq_map (by omega) (by omega), strideRange_eq_map (by omega) (by omega),
    List.foldl_map]
  congr 1
  funext cl i
  rw [List.foldl_map]

theorem length_flatMap_range {α : Type} (g : Nat → Nat → α) (nx : Nat) :
    ∀ ny : Nat, ((List.range ny).flatMap (fun i => (List.range nx).map (g i))).length
      = ny * nx := by
  intro ny
  induction ny with
  | zero => simp
  | succ n ih =>
    rw [List.range_succ, List.flatMap_append, List.length_append, ih]
    simp [Nat.succ_mul]

/-- Entry `i * nx + j` of `ny` rows of `nx` items is item `j` of row `i`. -/
theorem getD_flatMap_range {α : Type} (g : Nat → Nat → α) (d : α) (nx : Nat) :
    ∀ (ny i j : Nat), i < ny → j < nx →
      ((List.range ny).flatMap (fun i => (List.range nx).map (g i))).getD (i * nx + j) d
        = g i j := by
  intro ny
  induction ny with
  | zero => intro i j hi; omega
  | succ n ih =>
    intro i j hi hj
    have hlen := length_flatMap_range g nx n
    rw [List.range_succ, List.flatMap_append, List.getD_eq_getElem?_getD]
    by_cases hin : i < n
    · have hlt : i * nx + j < n * nx := by
        have : (i + 1) * nx ≤ n * nx := Nat.mul_le_mul_right nx (by omega)
        rw [Nat.succ_mul] at this
        omega
      rw [List.getElem?_append_left (by rw [hlen]; exact hlt), ← List.getD_eq_getElem?_getD]
      exact ih i j hin hj
    · have e : i = n := by omega
      subst e
      rw [List.getElem?_append_right (by rw [hlen]; omega), hlen]
      simp [hj]

theorem seedPoint_valid {R : Type} [DoubleOps R] (p : SLICProcessor R) (step y x : Int)
    (cl : List (SlicCluster R)) (hv : validAt p x y = true) :
    seedPoint p step y x cl = cl ++ [seedCluster p x y] := by
  unfold validAt at hv
  unfold seedPoint
  simp only [hv, Bool.not_true, Bool.false_eq_true, if_false]

/-- A round of the seeding appends nothing, or one cluster whose centre lies in the square
`[x - step/2, x + step/2) x [y - step/2, y + step/2)` around the grid point. -/
theorem seedPoint_cases {R : Type} [DoubleOps R] (p : SLICProcessor R) (step y x : Int)
    (cl : List (SlicCluster R)) (hstep : 2 ≤ step) :
    seedPoint p step y x cl = cl ∨
      ∃ nx ny, (x - step / 2 ≤ nx ∧ nx < x + step / 2 ∧ y - step / 2 ≤ ny ∧ ny < y + step / 2) ∧
        seedPoint p step y x cl = cl ++ [seedCluster p nx ny] := by
  cases hv : validAt p x y
  · unfold validAt at hv
    unfold seedPoint
    simp only [hv, Bool.not_false, if_true]
    cases hf : findValid p (max 0 (x - step / 2)) (min p.width (x + step / 2))
      (max 0 (y - step / 2)) (min p.height (y + step / 2)) with
    | none => exact Or.inl rfl
    | some c =>
      obtain ⟨nx, ny⟩ := c
      right
      have := findValid_some p _ _ _ _ nx ny hf
      exact ⟨nx, ny, by omega, rfl⟩
  · right
    exact ⟨x, y, by omega, seedPoint_valid p step y x cl hv⟩

/-- On an image all of whose pixels are valid the seeding creates, row by row, the clusters
of the grid points `(S / 2 + j * S, S / 2 + i * S)` inside the image. -/
theorem seedClusters_grid {R : Type} [DoubleOps R] (p : SLICProcessor R) (S : Int)
    (hS : 2 ≤ S)
    (hvalid : ∀ x y, 0 ≤ x → x < p.width → 0 ≤ y → y < p.height → validAt p x y = true) :
    seedClusters p S
      = (List.range (gridCount (S / 2) S p.height)).flatMap (fun (i : Nat) =>
          (List.range (gridCount (S / 2) S p.width)).map (fun (j : Nat) =>
            seedCluster p (S / 2 + (j : Int) * S) (S / 2 + (i : Int) * S))) := by
  rw [seedClusters_eq_range p S hS]
  apply foldl_range_inv _
    (fun (n : Nat) (cl : List (SlicCluster R)) => cl
      = (List.range n).flatMap (fun (i : Nat) =>
          (List.range (gridCount (S / 2) S p.width)).map (fun (j : Nat) =>
            seedCluster p (S / 2 + (j : Int) * S) (S / 2 + (i : Int) * S)))) _ _ rfl
  intro i cl hi hcl
  have hy := (lt_gridCount_iff (by omega : 1 ≤ S) i (S / 2)).mp hi
  have hy0 : 0 ≤ (i : Int) * S := mul_nonneg (by omega) (by omega)
  rw [List.range_succ, List.flatMap_append]
  simp only [List.flatMap_cons, List.flatMap_nil, List.append_nil]
  rw [← hcl]
  apply foldl_range_inv _
    (fun (n : Nat) (c : List (SlicCluster R)) => c
      = cl ++ (List.range n).map (fun (j : Nat) =>
          seedCluster p (S / 2 + (j : Int) * S) (S / 2 + (i : Int) * S))) _ _ (by simp)
  intro j c hj hc
  have hx := (lt_gridCount_iff (by omega : 1 ≤ S) j (S / 2)).mp hj
  have hx0 : 0 ≤ (j : Int) * S := mul_nonneg (by omega) (by omega)
  rw [seedPoint_valid p S _ _ c (hvalid _ _ (by omega) hx (by omega) hy), hc,
    List.range_succ, List.map_append, List.append_assoc]
  rfl

/-- The clusters of the seeding are those of a list of pairwise different centres: each
centre lies in the cell of its own grid point, and the cells are disjoint. -/
theorem seedClusters_centres {R : Type} [DoubleOps R] (p : SLICProcessor R) (S : Int)
    (hS : 2 ≤ S) : CentresBefore p S (gridCount (S / 2) S p.height) 0 (seedClusters p S) := by
  rw [seedClusters_eq_range p S hS]
  apply foldl_range_inv _
    (fun (n : Nat) (cl : List (SlicCluster R)) => CentresBefore p S n 0 cl) _ _
    ⟨[], rfl, List.nodup_nil, by simp⟩
  intro i cl _ hcl
  have hrow : CentresBefore p S i (gridCount (S / 2) S p.width)
      ((List.range (gridCount (S / 2) S p.width)).foldl
        (fun cl (j : Nat) => seedPoint p S (S / 2 + (i : Int) * S) (S / 2 + (j : Int) * S) cl)
        cl) := by
    apply foldl_range_inv _
      (fun (n : Nat) (c : List (SlicCluster R)) => CentresBefore p S i n c) _ _ hcl
    intro j c _ hc
    obtain ⟨cs, hcs, hnd, hbefore⟩ := hc
    have ej : (((j + 1 : Nat) : Int)) * S = (j : Int) * S + S := by push_cast; ring
    have ei : ((i : Int) + 1) * S = (i : Int) * S + S := by ring
    rcases seedPoint_cases p S (S / 2 + (i : Int) * S) (S / 2 + (j : Int) * S) c hS
      with e | ⟨nx, ny, hcell, e⟩
    · rw [e]
      refine ⟨cs, hcs, hnd, ?_⟩
      intro q hq
      rcases hbefore q hq with h1 | h2
      · exact Or.inl h1
      · exact Or.inr ⟨h2.1, by omega⟩
    · rw [e]
      refine ⟨cs ++ [(nx, ny)], by rw [hcs]; simp, ?_, ?_⟩
      · apply List.Nodup.append hnd (List.nodup_singleton _)
        intro q hq hq'
        simp only [List.mem_singleton] at hq'
        subst hq'
        rcases hbefore _ hq with h1 | h2
        · simp only at h1; omega
        · simp only at h2; omega
      · intro q hq
        rcases List.mem_append.mp hq with hq | hq
        · rcases hbefore q hq with h1 | h2
          · exact Or.inl h1
          · exact Or.inr ⟨h2.1, by omega⟩
        · simp only [List.mem_singleton] at hq
          subst hq
          right
          simp only
          omega
  obtain ⟨cs, hcs, hnd, hbefore⟩ := hrow
  refine ⟨cs, hcs, hnd, ?_⟩
  intro q hq
  left
  have ei : (((i + 1 : Nat) : Int)) * S = (i : Int) * S + S := by push_cast; ring
  have ei' : ((i : Int) + 1) * S = (i : Int) * S + S := by ring
  rcases hbefore q hq with h1 | h2
  · omega
  · omega

/-! ## Claims on the grid of seeds -/

/-- C18, seeder grid layout: for an image all of whose pixels are valid, with
`S = max(step, 2)` and `h = S / 2`, the clusters after seeding are, row by row (ascending
`y`, then ascending `x`), those of the grid points `(h + j * S, h + i * S)`; the rounds
`i`, `j` present are exactly those with `h + j * S < width` and `h + i * S < height`; the
number of clusters is `ceil((width - h) / S) * ceil((height - h) / S)` (each factor taken as
0 when negative); and the cluster at index `i * nx + j`, the value a label takes for it, has
the Lab colour of its own pixel, the position `(h + j * S, h + i * S)` and count 0. -/
theorem seeder_grid_layout {R : Type} [DoubleOps R] (p : SLICProcessor R) (step : Int)
    (hvalid : ∀ x y, 0 ≤ x → x < p.width → 0 ≤ y → y < p.height → validAt p x y = true) :
    seedClusters p (clampStep step)
      = (List.range (gridCount (clampStep step / 2) (clampStep step) p.height)).flatMap
          (fun (i : Nat) =>
            (List.range (gridCount (clampStep step / 2) (clampStep step) p.width)).map
              (fun (j : Nat) => seedCluster p (clampStep step / 2 + (j : Int) * clampStep step)
                (clampStep step / 2 + (i : Int) * clampStep step)))
    ∧ (∀ i j : Nat,
        (i < gridCount (clampStep step / 2) (clampStep step) p.height ∧
          j < gridCount (clampStep step / 2) (clampStep step) p.width)
        ↔ (clampStep step / 2 + (j : Int) * clampStep step < p.width ∧
          clampStep step / 2 + (i : Int) * clampStep step < p.height))
    ∧ (seedClusters p (clampStep step)).length
        = ((p.width - clampStep step / 2 + clampStep step - 1) / clampStep step).toNat
          * ((p.height - clampStep step / 2 + clampStep step - 1) / clampStep step).toNat
    ∧ (∀ i j : Nat, i < gridCount (clampStep step / 2) (clampStep step) p.height →
        j < gridCount (clampStep step / 2) (clampStep step) p.width →
        (seedClusters p (clampStep step)).getD
            (i * gridCount (clampStep step / 2) (clampStep step) p.width + j) default
          = { l := (p.labData.getD ((clampStep step / 2 + (i : Int) * clampStep step) * p.width
                  + (clampStep step / 2 + (j : Int) * clampStep step)).toNat default).l
              a := (p.labData.getD ((clampStep step / 2 + (i : Int) * clampStep step) * p.width
                  + (clampStep step / 2 + (j : Int) * clampStep step)).toNat default).a
              b := (p.labData.getD ((clampStep step / 2 + (i : Int) * clampStep step) * p.width
                  + (clampStep step / 2 + (j : Int) * clampStep step)).toNat default).b
              x := ofInt (clampStep step / 2 + (j : Int) * clampStep step)
              y := ofInt (clampStep step / 2 + (i : Int) * clampStep step)
              count := 0 }) := by
  have hS := two_le_clampStep step
  generalize clampStep step = S at hS ⊢
  have hlist := seedClusters_grid p S hS hvalid
  refine ⟨hlist, ?_, ?_, ?_⟩
  · intro i j
    rw [lt_gridCount_iff (by omega : 1 ≤ S) i (S / 2),
      lt_gridCount_iff (by omega : 1 ≤ S) j (S / 2)]
    exact And.comm
  · rw [hlist, length_flatMap_range]
    exact Nat.mul_comm _ _
  · intro i j hi hj
    rw [hlist, getD_flatMap_range _ default _ _ i j hi hj]
    rfl

/-- C20, seeded centres are pairwise distinct: for every image, validity mask and step, the
clusters produced by the seeding are those of a list of pairwise different integer centres
(each relocated centre stays in the square of its own grid point, and the squares of
different grid points are disjoint); so, the conversion of integers to `double` being
injective, no two of the clusters have the same `(x, y)` position. -/
theorem seeded_centres_distinct {R : Type} [DoubleOps R] (p : SLICProcessor R) (step : Int) :
    (∃ centres : List (Int × Int), centres.Nodup ∧
      seedClusters p (clampStep step) = centres.map (fun c => seedCluster p c.1 c.2))
    ∧ (Function.Injective (ofInt : Int → R) →
        (seedClusters p (clampStep step)).Pairwise (fun a b => ¬ (a.x = b.x ∧ a.y = b.y))) := by
  have hS := two_le_clampStep step
  generalize clampStep step = S at hS ⊢
  have key := seedClusters_centres p S hS
  obtain ⟨cs, hcs, hnd, -⟩ := key
  refine ⟨⟨cs, hnd, hcs⟩, ?_⟩
  intro hinj
  rw [hcs, List.pairwise_map]
  apply List.Pairwise.imp _ hnd
  intro a b hab hxy
  apply hab
  have h1 : a.1 = b.1 := hinj hxy.1
  have h2 : a.2 = b.2 := hinj hxy.2
  exact Prod.ext h1 h2

/-! ## The claims on the seeding, on concrete images -/

/-- The validity of a pixel after `Initialize` is that of the source pixel. -/
theorem Initialize_validAt {R : Type} [DoubleOps R] (p0 : SLICProcessor R) (w h : Int)
    (src : Int → BYTE) (rb pb x y : Int) (hx : 0 ≤ x) (hxw : x < w) (hy : 0 ≤ y) (hyh : y < h) :
    validAt (Initialize p0 w h src rb pb) x y = (srcAlpha src rb pb x y != 0) := by
  obtain ⟨hfr, hpix⟩ := Initialize_spec p0 w h src rb pb
  unfold validAt
  rw [hfr.1]
  exact (hpix x y hx hxw hy hyh).2.1

theorem redBitmap_valid (x y : Int) (hx : 0 ≤ x) (hxw : x < 4) (hy : 0 ≤ y) (hyh : y < 4) :
    validAt (Initialize freshProcessor 4 4 redBitmap 16 4) x y = true := by
  rw [Initialize_validAt freshProcessor 4 4 redBitmap 16 4 x y hx hxw hy hyh]
  have : srcAlpha redBitmap 16 4 x y = 255 := by
    unfold srcAlpha srcByte redBitmap
    have : (y * 16 + x * 4 + 3) % 4 = 3 := by omega
    simp [this]
  rw [this]
  decide

theorem holeBitmap_found :
    findValid (Initialize freshProcessor 4 4 holeBitmap 16 4) (max 0 (2 - 4 / 2))
      (min (Initialize freshProcessor 4 4 holeBitmap 16 4).width (2 + 4 / 2)) (max 0 (2 - 4 / 2))
      (min (Initialize freshProcessor 4 4 holeBitmap 16 4).height (2 + 4 / 2)) = some (0, 0) := by
  decide!

/-- C16 on the bitmap with a hole at `(2, 2)` and step 4: the grid point `(2, 2)` is invalid
and its cluster is placed at the first valid pixel of the square, `(0, 0)`. -/
theorem seeder_relocation_rule_witness :
    validAt (Initialize freshProcessor 4 4 holeBitmap 16 4) 2 2 = false ∧
    (((∀ ax ay, inSearchSquare (Initialize freshProcessor 4 4 holeBitmap 16 4) 4 2 2 ax ay →
          validAt (Initialize freshProcessor 4 4 holeBitmap 16 4) ax ay = false) ∧
        seedPoint (Initialize freshProcessor 4 4 holeBitmap 16 4) 4 2 2 [] = [])
      ∨ (∃ nx ny, FirstValid (Initialize freshProcessor 4 4 holeBitmap 16 4) 4 2 2 nx ny ∧
        seedPoint (Initialize freshProcessor 4 4 holeBitmap 16 4) 4 2 2 []
          = [] ++ [seedCluster (Initialize freshProcessor 4 4 holeBitmap 16 4) nx ny])) :=
  ⟨by decide!,
    (seeder_relocation_rule (Initialize freshProcessor 4 4 holeBitmap 16 4) 4 2 2 []).2
      (by decide!)⟩

/-- C17 refuted on the bitmap with a hole at `(2, 2)` and step 4: the grid point `(2, 2)` is
invalid, the search returns `(0, 0)` at squared distance 8, and the valid pixel `(2, 1)` of
the square is at squared distance 1. -/
theorem relocation_not_nearest :
    validAt (Initialize freshProcessor 4 4 holeBitmap 16 4) 2 2 = false ∧
    ¬ RelocatesToNearest (Initialize freshProcessor 4 4 holeBitmap 16 4) 4 2 2 := by
  refine ⟨by decide!, ?_⟩
  intro h
  exact h 0 0 holeBitmap_found 2 1 (by decide!) (by decide!) (by decide)

/-- C17 as amended, on the bitmap with a hole at `(2, 2)` and step 4: the search returns
`(0, 0)`, the first valid pixel of the square. -/
theorem relocation_first_in_row_major_witness :
    findValid (Initialize freshProcessor 4 4 holeBitmap 16 4) (max 0 (2 - 4 / 2))
      (min (Initialize freshProcessor 4 4 holeBitmap 16 4).width (2 + 4 / 2)) (max 0 (2 - 4 / 2))
      (min (Initialize freshProcessor 4 4 holeBitmap 16 4).height (2 + 4 / 2)) = some (0, 0) ∧
    validAt (Initialize freshProcessor 4 4 holeBitmap 16 4) 0 0 = true ∧
    ((2 : Int) - 4 / 2 ≤ 0 ∧ (0 : Int) < 2 + 4 / 2 ∧ (2 : Int) - 4 / 2 ≤ 0 ∧ (0 : Int) < 2 + 4 / 2) :=
  ⟨holeBitmap_found,
    (relocation_first_in_row_major (Initialize freshProcessor 4 4 holeBitmap 16 4) 4 2 2 0 0
      holeBitmap_found).1,
    (relocation_first_in_row_major (Initialize freshProcessor 4 4 holeBitmap 16 4) 4 2 2 0 0
      holeBitmap_found).2.2.1⟩

/-- C18 on the 4x4 red bitmap with step 2: every pixel is valid and the seeding creates
`ceil(3 / 2) * ceil(3 / 2)` clusters. -/
theorem seeder_grid_layout_witness :
    (∀ x y, 0 ≤ x → x < (Initialize freshProcessor 4 4 redBitmap 16 4).width → 0 ≤ y →
      y < (Initialize freshProcessor 4 4 redBitmap 16 4).height →
      validAt (Initialize freshProcessor 4 4 redBitmap 16 4) x y = true) ∧
    (seedClusters (Initialize freshProcessor 4 4 redBitmap 16 4) (clampStep 2)).length
      = (((Initialize freshProcessor 4 4 redBitmap 16 4).width - clampStep 2 / 2 + clampStep 2 - 1)
          / clampStep 2).toNat
        * (((Initialize freshProcessor 4 4 redBitmap 16 4).height - clampStep 2 / 2
          + clampStep 2 - 1) / clampStep 2).toNat :=
  ⟨fun x y hx hxw hy hyh => redBitmap_valid x y hx hxw hy hyh,
    (seeder_grid_layout (Initialize freshProcessor 4 4 redBitmap 16 4) 2
      (fun x y hx hxw hy hyh => redBitmap_valid x y hx hxw hy hyh)).2.2.1⟩

/-- C20 on the bitmap with a hole at `(2, 2)` and step 2: integers convert injectively to
rationals, and the seeded clusters have pairwise different positions. -/
theorem seeded_centres_distinct_witness :
    Function.Injective (DoubleOps.ofInt : Int → ℚ) ∧
    (seedClusters (Initialize freshProcessor 4 4 holeBitmap 16 4) (clampStep 2)).Pairwise
      (fun a b => ¬ (a.x = b.x ∧ a.y = b.y)) :=
  ⟨Int.cast_injective,
    (seeded_centres_distinct (Initialize freshProcessor 4 4 holeBitmap 16 4) 2).2
      Int.cast_injective⟩

/-! ## Lemmas on the accumulation -/

/-- The accumulation loop, cluster by cluster: cluster `k` receives its members in the order
of their indices. -/
theorem accumulate_getD {R : Type} [DoubleOps R] (p : SLICProcessor R)
    (cl : List (SlicCluster R)) (k : Nat) (hk : k < cl.length) :
    (accumulate p cl).getD k default = (members p k).foldl (addPixel p) (cl.getD k default) := by
  unfold accumulate members
  have := foldl_range_inv (fun (c : List (SlicCluster R)) (i : Nat) => accumulatePixel p i c)
    (fun (n : Nat) (s : List (SlicCluster R)) => s.length = cl.length ∧
      s.getD k default = ((List.range n).filter
        (fun i => p.validPixels.getD i false && decide (p.labels.getD i (-1) = (k : Int)))).foldl
          (addPixel p) (cl.getD k default))
    (p.width * p.height).toNat cl ⟨rfl, rfl⟩
    (by
      intro i s _ hs
      obtain ⟨hlen, hval⟩ := hs
      rw [List.range_succ, List.filter_append, List.foldl_append, ← hval, List.filter_cons,
        List.filter_nil]
      unfold accumulatePixel
      simp only
      cases hv : p.validPixels.getD i false
      · simp only [Bool.not_false, if_true, Bool.false_and, Bool.false_eq_true, if_false,
          List.foldl_nil]
        exact ⟨hlen, trivial⟩
      · simp only [Bool.not_true, Bool.false_eq_true, if_false, Bool.true_and,
          decide_eq_true_eq]
        by_cases hin : p.labels.getD i (-1) ≥ 0 ∧ p.labels.getD i (-1) < (s.length : Int)
        · rw [if_pos hin]
          refine ⟨by simpa using hlen, ?_⟩
          by_cases hlab : p.labels.getD i (-1) = (k : Int)
          · have e : (p.labels.getD i (-1)).toNat = k := by omega
            rw [e, getD_set_self _ _ _ (by omega), if_pos hlab]
            rfl
          · have e : (p.labels.getD i (-1)).toNat ≠ k := by omega
            rw [getD_set_ne _ _ _ e, if_neg hlab]
            rfl
        · rw [if_neg hin]
          refine ⟨hlen, ?_⟩
          have hlab : ¬ p.labels.getD i (-1) = (k : Int) := by
            intro e
            apply hin
            rw [e, hlen]
            omega
          rw [if_neg hlab]
          rfl)
  exact this.2

/-- The fields of a cluster after pixels have been added to it. -/
theorem foldl_addPixel {R : Type} [DoubleOps R] (p : SLICProcessor R) :
    ∀ (l : List Nat) (c : SlicCluster R),
      (l.foldl (addPixel p) c).count = c.count + (l.length : Int) ∧
      (l.foldl (addPixel p) c).l
        = (l.map (fun i => (p.labData.getD i default).l)).foldl (· + ·) c.l ∧
      (l.foldl (addPixel p) c).a
        = (l.map (fun i => (p.labData.getD i default).a)).foldl (· + ·) c.a ∧
      (l.foldl (addPixel p) c).b
        = (l.map (fun i => (p.labData.getD i default).b)).foldl (· + ·) c.b ∧
      (l.foldl (addPixel p) c).x
        = (l.map (fun (i : Nat) => (ofInt ((i : Int) % p.width) : R))).foldl (· + ·) c.x ∧
      (l.foldl (addPixel p) c).y
        = (l.map (fun (i : Nat) => (ofInt ((i : Int) / p.width) : R))).foldl (· + ·) c.y := by
  intro l
  induction l with
  | nil => intro c; simp
  | cons i tl ih =>
    intro c
    obtain ⟨h1, h2, h3, h4, h5, h6⟩ := ih (addPixel p c i)
    simp only [List.foldl_cons, List.map_cons, List.length_cons]
    refine ⟨?_, h2, h3, h4, h5, h6⟩
    rw [h1]
    simp only [addPixel]
    push_cast
    ring

/-- In exact rational arithmetic `sumOf` is the sum. -/
theorem sumOf_rat (vals : List ℚ) : sumOf vals = vals.sum := by
  unfold sumOf
  have : ∀ (l : List ℚ) (a : ℚ), l.foldl (· + ·) a = a + l.sum := by
    intro l
    induction l with
    | nil => intro a; simp
    | cons x tl ih => intro a; simp only [List.foldl_cons, List.sum_cons, ih]; ring
  rw [this]
  show (OfScientific.ofScientific 0 true 1 : ℚ) + vals.sum = vals.sum
  norm_num

/-! ## Claim on the update -/

/-- C19, the update step computes the mean: after the update and average steps on any
processor (so in any iteration), for a cluster `k` with at least one member (a valid pixel
labelled `k`; invalid pixels and pixels with the sentinel label are members of no cluster),
`count` is the number of members and `l`, `a`, `b`, `x`, `y` are the sums over the members,
formed in the order of their indices, of the Lab components and of the coordinates
`x = i mod width`, `y = i div width`, divided by the count. -/
theorem update_computes_mean {R : Type} [DoubleOps R] (p : SLICProcessor R) (k : Nat)
    (hk : k < p.clusters.length) (hne : members p k ≠ []) :
    (∀ i, i ∈ members p k ↔ (i < (p.width * p.height).toNat ∧
      p.validPixels.getD i false = true ∧ p.labels.getD i (-1) = (k : Int)))
    ∧ ((updateClusters p).clusters.getD k default).count = ((members p k).length : Int)
    ∧ ((updateClusters p).clusters.getD k default).l
        = sumOf ((members p k).map (fun i => (p.labData.getD i default).l))
          / ofInt ((members p k).length : Int)
    ∧ ((updateClusters p).clusters.getD k default).a
        = sumOf ((members p k).map (fun i => (p.labData.getD i default).a))
          / ofInt ((members p k).length : Int)
    ∧ ((updateClusters p).clusters.getD k default).b
        = sumOf ((members p k).map (fun i => (p.labData.getD i default).b))
          / ofInt ((members p k).length : Int)
    ∧ ((updateClusters p).clusters.getD k default).x
        = sumOf ((members p k).map (fun (i : Nat) => (ofInt ((i : Int) % p.width) : R)))
          / ofInt ((members p k).length : Int)
    ∧ ((updateClusters p).clusters.getD k default).y
        = sumOf ((members p k).map (fun (i : Nat) => (ofInt ((i : Int) / p.width) : R)))
          / ofInt ((members p k).length : Int) := by
  have hmem : ∀ i, i ∈ members p k ↔ (i < (p.width * p.height).toNat ∧
      p.validPixels.getD i false = true ∧ p.labels.getD i (-1) = (k : Int)) := by
    intro i
    unfold members
    simp [List.mem_filter]
  have hkz : k < (zeroClusters p.clusters).length := by simpa [zeroClusters] using hk
  have hz : (zeroClusters p.clusters).getD k default
      = ({ l := 0.0, a := 0.0, b := 0.0, x := 0.0, y := 0.0, count := 0 } : SlicCluster R) := by
    unfold zeroClusters
    rw [List.getD_eq_getElem?_getD, List.getElem?_map, List.getElem?_eq_getElem hk]
    rfl
  have hacc := accumulate_getD p (zeroClusters p.clusters) k hkz
  rw [hz] at hacc
  obtain ⟨f1, f2, f3, f4, f5, f6⟩ := foldl_addPixel p (members p k)
    ({ l := 0.0, a := 0.0, b := 0.0, x := 0.0, y := 0.0, count := 0 } : SlicCluster R)
  rw [← hacc] at f1 f2 f3 f4 f5 f6
  have hlen : 0 < (members p k).length := List.length_pos.mpr hne
  have hcount : ((accumulate p (zeroClusters p.clusters)).getD k default).count
      = ((members p k).length : Int) := by
    rw [f1]; simp
  have hupd : (updateClusters p).clusters.getD k default
      = { l := ((accumulate p (zeroClusters p.clusters)).getD k default).l
            / ofInt ((accumulate p (zeroClusters p.clusters)).getD k default).count
          a := ((accumulate p (zeroClusters p.clusters)).getD k default).a
            / ofInt ((accumulate p (zeroClusters p.clusters)).getD k default).count
          b := ((accumulate p (zeroClusters p.clusters)).getD k default).b
            / ofInt ((accumulate p (zeroClusters p.clusters)).getD k default).count
          x := ((accumulate p (zeroClusters p.clusters)).getD k default).x
            / ofInt ((accumulate p (zeroClusters p.clusters)).getD k default).count
          y := ((accumulate p (zeroClusters p.clusters)).getD k default).y
            / ofInt ((accumulate p (zeroClusters p.clusters)).getD k default).count
          count := ((accumulate p (zeroClusters p.clusters)).getD k default).count } := by
    unfold updateClusters
    simp only
    rw [average_getD _ _ k (by rw [length_accumulate]; exact hkz),
      if_pos (by rw [hcount]; omega)]
  rw [hupd]
  simp only [hcount]
  exact ⟨hmem, trivial, by rw [f2]; rfl, by rw [f3]; rfl, by rw [f4]; rfl, by rw [f5]; rfl,
    by rw [f6]; rfl⟩

/-- C19 on the sample bitmap after one assignment sweep: cluster 0 has the three opaque
pixels as members, and its count after the update is 3. -/
theorem update_computes_mean_witness :
    (0 < sampleAssigned.clusters.length ∧ members sampleAssigned 0 ≠ []) ∧
    members sampleAssigned 0 = [1, 2, 3] ∧
    ((updateClusters sampleAssigned).clusters.getD 0 default).count
      = ((members sampleAssigned 0).length : Int) ∧
    ((updateClusters sampleAssigned).clusters.getD 0 default).x
      = sumOf ((members sampleAssigned 0).map
          (fun (i : Nat) => (DoubleOps.ofInt ((i : Int) % sampleAssigned.width) : ℚ)))
        / DoubleOps.ofInt ((members sampleAssigned 0).length : Int) :=
  ⟨⟨by decide!, by decide!⟩, by decide!,
    (update_computes_mean sampleAssigned 0 (by decide!) (by decide!)).2.1,
    (update_computes_mean sampleAssigned 0 (by decide!) (by decide!)).2.2.2.2.2.1⟩

/-! ## Claim on the property callback -/

/-- C13, parameter dirty-check: with the filter info and its property service present, on a
value-changed notification for the cell size the callback returns modify and stores the new
value when it differs from the stored one (`value != cellSize`), and returns no-modify and
changes nothing when it does not; on a value-changed notification for the compactness it
returns modify and stores the new value when `|compactness - value| > 1e-6`, and returns
no-modify and changes nothing otherwise; for every other notification or item key, and when
the filter info or the property service is null, it returns no-modify and changes nothing. -/
theorem parameter_dirty_check {R : Type} [DoubleOps R] (C : PropertyConsts)
    (itemKey notify : Int) (info : SLICFilterInfo R) (service : TriglavPlugInPropertyService R)
    (hservice : info.pPropertyService = some service) :
    (notify = C.kTriglavPlugInPropertyCallBackNotifyValueChanged → itemKey = kItemKeyCellSize →
      (service.getIntegerValueProc itemKey ≠ info.cellSize →
        TriglavPlugInFilterPropertyCallBack C itemKey notify (some info)
          = (C.kTriglavPlugInPropertyCallBackResultModify,
              some { info with cellSize := service.getIntegerValueProc itemKey }))
      ∧ (service.getIntegerValueProc itemKey = info.cellSize →
        TriglavPlugInFilterPropertyCallBack C itemKey notify (some info)
          = (C.kTriglavPlugInPropertyCallBackResultNoModify, some info)))
    ∧ (notify = C.kTriglavPlugInPropertyCallBackNotifyValueChanged →
        itemKey = kItemKeyCompactness →
      (dgt (abs (info.compactness - service.getDecimalValueProc itemKey)) 1e-6 = true →
        TriglavPlugInFilterPropertyCallBack C itemKey notify (some info)
          = (C.kTriglavPlugInPropertyCallBackResultModify,
              some { info with compactness := service.getDecimalValueProc itemKey }))
      ∧ (dgt (abs (info.compactness - service.getDecimalValueProc itemKey)) 1e-6 = false →
        TriglavPlugInFilterPropertyCallBack C itemKey notify (some info)
          = (C.kTriglavPlugInPropertyCallBackResultNoModify, some info)))
    ∧ ((notify ≠ C.kTriglavPlugInPropertyCallBackNotifyValueChanged ∨
        (itemKey ≠ kItemKeyCellSize ∧ itemKey ≠ kItemKeyCompactness)) →
      TriglavPlugInFilterPropertyCallBack C itemKey notify (some info)
        = (C.kTriglavPlugInPropertyCallBackResultNoModify, some info))
    ∧ (TriglavPlugInFilterPropertyCallBack C itemKey notify (none : Option (SLICFilterInfo R))
        = (C.kTriglavPlugInPropertyCallBackResultNoModify, none))
    ∧ (TriglavPlugInFilterPropertyCallBack C itemKey notify
          (some { info with pPropertyService := none })
        = (C.kTriglavPlugInPropertyCallBackResultNoModify,
            some { info with pPropertyService := none })) := by
  refine ⟨?_, ?_, ?_, rfl, rfl⟩
  · intro hn hk
    constructor
    · intro hne
      unfold TriglavPlugInFilterPropertyCallBack
      simp only [hservice, hn, hk, if_true]
      rw [if_pos (by rw [← hk]; exact fun e => hne e.symm)]
    · intro he
      unfold TriglavPlugInFilterPropertyCallBack
      simp only [hservice, hn, hk, if_true]
      rw [if_neg (by rw [← hk, he]; exact fun e => e rfl)]
  · intro hn hk
    have hk' : ¬ itemKey = kItemKeyCellSize := by rw [hk]; decide
    constructor
    · intro hd
      unfold TriglavPlugInFilterPropertyCallBack
      simp only [hservice, hn, if_true, if_neg hk', if_pos hk, hd]
    · intro hd
      unfold TriglavPlugInFilterPropertyCallBack
      simp only [hservice, hn, if_true, if_neg hk', if_pos hk, hd, Bool.false_eq_true, if_false]
  · intro h
    unfold TriglavPlugInFilterPropertyCallBack
    simp only [hservice]
    rcases h with hn | ⟨h1, h2⟩
    · rw [if_neg hn]
    · rw [if_neg h1, if_neg h2]
      simp

/-- C13 on the filter info of the module with a property service holding cell size 40: the
value-changed notification for the cell size returns modify and stores 40. -/
theorem parameter_dirty_check_witness :
    (sampleFilterInfo.pPropertyService = some sampleService ∧
      ((0x21 : Int) = samplePropertyConsts.kTriglavPlugInPropertyCallBackNotifyValueChanged) ∧
      (1 : Int) = kItemKeyCellSize ∧
      sampleService.getIntegerValueProc 1 ≠ sampleFilterInfo.cellSize) ∧
    TriglavPlugInFilterPropertyCallBack samplePropertyConsts 1 0x21 (some sampleFilterInfo)
      = (samplePropertyConsts.kTriglavPlugInPropertyCallBackResultModify,
          some { sampleFilterInfo with cellSize := sampleService.getIntegerValueProc 1 }) :=
  ⟨⟨rfl, rfl, rfl, by decide⟩,
    ((parameter_dirty_check samplePropertyConsts 1 0x21 sampleFilterInfo sampleService rfl).1
      rfl rfl).1 (by decide)⟩

/-! ## Claim on the invalid geometry -/

theorem filterRunPass_invalid {R : Type} [DoubleOps R] (K : HostConsts) (Kr : RunConsts)
    (processor : SLICProcessor R) (a : PassAnswers R)
    (hgeom : a.right - a.left ≤ 0 ∨ a.bottom - a.top ≤ 0) :
    filterRunPass K Kr processor a
      = ⟨PassEnd.breakLoop, processor,
          [HostCall.FilterRunProcess Kr.kTriglavPlugInFilterRunProcessStateStart]⟩ := by
  unfold filterRunPass
  simp only [if_pos hgeom]
  split <;> rfl

/-- C11 as amended, invalid geometry: when the source extent has non-positive width or
height, the pass ends by `break` right after the poll with state start: the poll is its
only call to the host (no bitmap is created, nothing is written to the destination) and the
processor is untouched; the loop of the filter run ends with that pass; a run whose first
pass meets such an extent returns with that one call and reports success to the host; and
a run with the services present that returns always reports success, never failure. -/
theorem invalid_geometry_aborts {R : Type} [DoubleOps R] (K : HostConsts) (Kr : RunConsts)
    (processor : SLICProcessor R) (a : PassAnswers R)
    (hgeom : a.right - a.left ≤ 0 ∨ a.bottom - a.top ≤ 0) :
    (filterRunPass K Kr processor a).ending = PassEnd.breakLoop
    ∧ (filterRunPass K Kr processor a).processor = processor
    ∧ (filterRunPass K Kr processor a).calls
        = [HostCall.FilterRunProcess Kr.kTriglavPlugInFilterRunProcessStateStart]
    ∧ (∀ (answers : Nat → PassAnswers R) (fuel n : Nat) (calls : List HostCall),
        answers n = a →
        filterRunLoop K Kr answers (fuel + 1) n processor calls
          = some (processor,
              calls ++ [HostCall.FilterRunProcess Kr.kTriglavPlugInFilterRunProcessStateStart]))
    ∧ (∀ (answers : Nat → PassAnswers R) (fuel : Nat), answers 0 = a →
        TriglavPluginCallFilterRun K Kr true answers (fuel + 1)
          = some (Kr.kTriglavPlugInCallResultSuccess,
              [HostCall.FilterRunProcess Kr.kTriglavPlugInFilterRunProcessStateStart]))
    ∧ (∀ (answers : Nat → PassAnswers R) (fuel : Nat) (r : Int × List HostCall),
        TriglavPluginCallFilterRun K Kr true answers fuel = some r →
        r.1 = Kr.kTriglavPlugInCallResultSuccess) := by
  have hpass := fun (q : SLICProcessor R) => filterRunPass_invalid K Kr q a hgeom
  have hloop : ∀ (answers : Nat → PassAnswers R) (fuel n : Nat) (q : SLICProcessor R)
      (calls : List HostCall), answers n = a →
      filterRunLoop K Kr answers (fuel + 1) n q calls
        = some (q, calls ++
            [HostCall.FilterRunProcess Kr.kTriglavPlugInFilterRunProcessStateStart]) := by
    intro answers fuel n q calls hn
    unfold filterRunLoop
    simp only [hn, hpass q]
  refine ⟨by rw [hpass], by rw [hpass], by rw [hpass], ?_, ?_, ?_⟩
  · intro answers fuel n calls hn
    exact hloop answers fuel n processor calls hn
  · intro answers fuel h0
    unfold TriglavPluginCallFilterRun
    simp only [if_true, hloop answers fuel 0 _ [] h0, List.nil_append]
  · intro answers fuel r h
    unfold TriglavPluginCallFilterRun at h
    simp only [if_true] at h
    split at h
    · simp at h
    · simp only [Option.some.injEq] at h
      rw [← h]

/-- C11 refuted on a source offscreen of width 0: the filter run returns after the poll
with state start and reports success, which is not the failed result. -/
theorem invalid_geometry_reports_success :
    TriglavPluginCallFilterRun sampleConsts sampleRunConsts true (fun _ => emptyExtentAnswers) 1
      = some (sampleRunConsts.kTriglavPlugInCallResultSuccess,
          [HostCall.FilterRunProcess 0x0101])
    ∧ sampleRunConsts.kTriglavPlugInCallResultSuccess
        ≠ sampleRunConsts.kTriglavPlugInCallResultFailed := by
  constructor
  · decide!
  · decide

/-- C11 as amended, on a source offscreen of width 0. -/
theorem invalid_geometry_aborts_witness :
    (emptyExtentAnswers.right - emptyExtentAnswers.left ≤ 0 ∨
      emptyExtentAnswers.bottom - emptyExtentAnswers.top ≤ 0) ∧
    (filterRunPass sampleConsts sampleRunConsts freshProcessor emptyExtentAnswers).calls
      = [HostCall.FilterRunProcess sampleRunConsts.kTriglavPlugInFilterRunProcessStateStart] :=
  ⟨by decide, (invalid_geometry_aborts sampleConsts sampleRunConsts freshProcessor
    emptyExtentAnswers (by decide)).2.2.1⟩

/-! ## Lemmas on the assignment sweep -/

/-- A projection of the state that every round of a loop transforms by `g` is transformed
by the loop as by the loop of `g`. -/
theorem foldl_proj {σ α τ : Type} (f : σ → α → σ) (v : σ → τ) (g : τ → α → τ)
    (P : σ → Prop) :
    ∀ (l : List α) (s : σ), P s →
      (∀ s a, a ∈ l → P s → P (f s a) ∧ v (f s a) = g (v s) a) →
      P (l.foldl f s) ∧ v (l.foldl f s) = l.foldl g (v s) := by
  intro l
  induction l with
  | nil => intro s h _; exact ⟨h, rfl⟩
  | cons a tl ih =>
    intro s h hstep
    have h1 := hstep s a (List.mem_cons_self a tl) h
    have := ih (f s a) h1.1 (fun s' b hb hs' => hstep s' b (List.mem_cons_of_mem a hb) hs')
    simp only [List.foldl_cons]
    rw [← h1.2]
    exact this

/-- A loop over distinct items that acts in the round of `a` only acts once, or not at
all. -/
theorem foldl_ite_once {α τ : Type} [DecidableEq α] (a : α) (h : τ → τ) :
    ∀ (l : List α) (t : τ), l.Nodup →
      l.foldl (fun t b => if b = a then h t else t) t = if a ∈ l then h t else t := by
  intro l
  induction l with
  | nil => intro t _; rfl
  | cons b tl ih =>
    intro t hnd
    have hnd' := List.nodup_cons.mp hnd
    simp only [List.foldl_cons]
    rw [ih _ hnd'.2]
    by_cases e : b = a
    · subst e
      simp [hnd'.1]
    · have : ¬ a = b := fun e' => e e'.symm
      simp [e, this]

/-- A round of the assignment loops, seen from the pixel `(x, y)`: the round of `(x, y)`
itself compares and possibly stores, every other round of the image leaves the entries of
`(x, y)` alone. -/
theorem assignPixel_at {R : Type} [DoubleOps R] (p : SLICProcessor R) (m : R) (ns : Int)
    (k : Nat) (x y x' y' : Int) (ld : List Int × List R)
    (hx : 0 ≤ x) (hxw : x < p.width) (hy : 0 ≤ y)
    (hx' : 0 ≤ x') (hxw' : x' < p.width) (hy' : 0 ≤ y')
    (hv : validAt p x y = true)
    (hl : (y * p.width + x).toNat < ld.1.length) (hd : (y * p.width + x).toNat < ld.2.length) :
    ((y * p.width + x).toNat < (assignPixel p m ns k y' x' ld).1.length ∧
      (y * p.width + x).toNat < (assignPixel p m ns k y' x' ld).2.length) ∧
    ((assignPixel p m ns k y' x' ld).1.getD (y * p.width + x).toNat (-1),
      (assignPixel p m ns k y' x' ld).2.getD (y * p.width + x).toNat dblMax)
      = if (x', y') = (x, y) then
          (if lt (distTo p m ns (p.clusters.getD k default) x y)
              (ld.2.getD (y * p.width + x).toNat dblMax) = true then
            ((k : Int), distTo p m ns (p.clusters.getD k default) x y)
          else (ld.1.getD (y * p.width + x).toNat (-1), ld.2.getD (y * p.width + x).toNat dblMax))
        else (ld.1.getD (y * p.width + x).toNat (-1), ld.2.getD (y * p.width + x).toNat dblMax) := by
  unfold validAt at hv
  by_cases e : (x', y') = (x, y)
  · simp only [Prod.mk.injEq] at e
    obtain ⟨rfl, rfl⟩ := e
    simp only [if_true]
    unfold assignPixel
    simp only [hv, Bool.not_true, Bool.false_eq_true, if_false]
    by_cases hlt : lt (distTo p m ns (p.clusters.getD k default) x' y')
        (ld.2.getD (y' * p.width + x').toNat dblMax) = true
    · have hlt' := hlt
      unfold distTo at hlt'
      rw [if_pos hlt', if_pos hlt]
      simp only [List.length_set]
      refine ⟨⟨hl, hd⟩, ?_⟩
      rw [getD_set_self _ _ _ hl, getD_set_self _ _ _ hd]
      rfl
    · have hlt' := hlt
      unfold distTo at hlt'
      rw [if_neg hlt', if_neg hlt]
      exact ⟨⟨hl, hd⟩, rfl⟩
  · rw [if_neg e]
    have hne : (y' * p.width + x').toNat ≠ (y * p.width + x).toNat := by
      intro h
      have := idx_inj hx' hxw' hx hxw hy' hy h
      exact e (by rw [this.1, this.2])
    unfold assignPixel
    simp only
    split
    · exact ⟨⟨hl, hd⟩, rfl⟩
    · split
      · simp only [List.length_set]
        refine ⟨⟨hl, hd⟩, ?_⟩
        rw [getD_set_ne _ _ _ hne, getD_set_ne _ _ _ hne]
      · exact ⟨⟨hl, hd⟩, rfl⟩

/-- The window scan of cluster `k`, seen from the valid pixel `(x, y)`: it is `pixelStep`. -/
theorem assignCluster_at {R : Type} [DoubleOps R] (p : SLICProcessor R) (m : R) (ns : Int)
    (k : Nat) (x y : Int) (ld : List Int × List R)
    (hx : 0 ≤ x) (hxw : x < p.width) (hy : 0 ≤ y) (hv : validAt p x y = true)
    (hl : (y * p.width + x).toNat < ld.1.length) (hd : (y * p.width + x).toNat < ld.2.length) :
    ((y * p.width + x).toNat < (assignCluster p m ns k ld).1.length ∧
      (y * p.width + x).toNat < (assignCluster p m ns k ld).2.length) ∧
    ((assignCluster p m ns k ld).1.getD (y * p.width + x).toNat (-1),
      (assignCluster p m ns k ld).2.getD (y * p.width + x).toNat dblMax)
      = pixelStep p m ns x y
          (ld.1.getD (y * p.width + x).toNat (-1), ld.2.getD (y * p.width + x).toNat dblMax) k := by
  have inner : ∀ (y' : Int) (s : List Int × List R), 0 ≤ y' →
      ((y * p.width + x).toNat < s.1.length ∧ (y * p.width + x).toNat < s.2.length) →
      ((y * p.width + x).toNat < ((intRange (max 0 (toInt (p.clusters.getD k default).x - ns))
          (min p.width (toInt (p.clusters.getD k default).x + ns))).foldl
          (fun ld x' => assignPixel p m ns k y' x' ld) s).1.length ∧
        (y * p.width + x).toNat < ((intRange (max 0 (toInt (p.clusters.getD k default).x - ns))
          (min p.width (toInt (p.clusters.getD k default).x + ns))).foldl
          (fun ld x' => assignPixel p m ns k y' x' ld) s).2.length) ∧
      (((intRange (max 0 (toInt (p.clusters.getD k default).x - ns))
          (min p.width (toInt (p.clusters.getD k default).x + ns))).foldl
          (fun ld x' => assignPixel p m ns k y' x' ld) s).1.getD (y * p.width + x).toNat (-1),
        ((intRange (max 0 (toInt (p.clusters.getD k default).x - ns))
          (min p.width (toInt (p.clusters.getD k default).x + ns))).foldl
          (fun ld x' => assignPixel p m ns k y' x' ld) s).2.getD (y * p.width + x).toNat dblMax)
        = if y' = y then
            (if x ∈ intRange (max 0 (toInt (p.clusters.getD k default).x - ns))
                (min p.width (toInt (p.clusters.getD k default).x + ns)) then
              (if lt (distTo p m ns (p.clusters.getD k default) x y)
                  (s.2.getD (y * p.width + x).toNat dblMax) = true then
                ((k : Int), distTo p m ns (p.clusters.getD k default) x y)
              else (s.1.getD (y * p.width + x).toNat (-1),
                s.2.getD (y * p.width + x).toNat dblMax))
            else (s.1.getD (y * p.width + x).toNat (-1),
              s.2.getD (y * p.width + x).toNat dblMax))
          else (s.1.getD (y * p.width + x).toNat (-1),
            s.2.getD (y * p.width + x).toNat dblMax) := by
    intro y' s hy' hs
    have := foldl_proj (fun (ld : List Int × List R) (x' : Int) => assignPixel p m ns k y' x' ld)
      (fun (ld : List Int × List R) =>
        (ld.1.getD (y * p.width + x).toNat (-1), ld.2.getD (y * p.width + x).toNat dblMax))
      (fun (t : Int × R) (x' : Int) => if x' = x then
        (if y' = y then
          (if lt (distTo p m ns (p.clusters.getD k default) x y) t.2 = true then
            ((k : Int), distTo p m ns (p.clusters.getD k default) x y) else t)
        else t) else t)
      (fun (ld : List Int × List R) =>
        (y * p.width + x).toNat < ld.1.length ∧ (y * p.width + x).toNat < ld.2.length)
      (intRange (max 0 (toInt (p.clusters.getD k default).x - ns))
        (min p.width (toInt (p.clusters.getD k default).x + ns))) s hs
      (by
        intro s' x' hx'mem hs'
        have hb := mem_intRange.mp hx'mem
        have := assignPixel_at p m ns k x y x' y' s' hx hxw hy (by omega) (by omega) hy' hv
          hs'.1 hs'.2
        refine ⟨this.1, ?_⟩
        beta_reduce
        rw [this.2]
        by_cases e1 : x' = x
        · by_cases e2 : y' = y
          · simp [e1, e2]
          · simp [e1, e2]
        · simp [e1])
    beta_reduce at this
    refine ⟨this.1, ?_⟩
    rw [this.2, foldl_ite_once x _ _ _ (nodup_intRange _ _)]
    by_cases e2 : y' = y
    · simp [e2]
    · simp [e2]
  unfold assignCluster
  simp only
  have outer := foldl_proj
    (fun (ld : List Int × List R) (y' : Int) =>
      (intRange (max 0 (toInt (p.clusters.getD k default).x - ns))
        (min p.width (toInt (p.clusters.getD k default).x + ns))).foldl
        (fun ld x' => assignPixel p m ns k y' x' ld) ld)
    (fun (ld : List Int × List R) =>
      (ld.1.getD (y * p.width + x).toNat (-1), ld.2.getD (y * p.width + x).toNat dblMax))
    (fun (t : Int × R) (y' : Int) => if y' = y then
      (if x ∈ intRange (max 0 (toInt (p.clusters.getD k default).x - ns))
          (min p.width (toInt (p.clusters.getD k default).x + ns)) then
        (if lt (distTo p m ns (p.clusters.getD k default) x y) t.2 = true then
          ((k : Int), distTo p m ns (p.clusters.getD k default) x y) else t)
      else t) else t)
    (fun (ld : List Int × List R) =>
      (y * p.width + x).toNat < ld.1.length ∧ (y * p.width + x).toNat < ld.2.length)
    (intRange (max 0 (toInt (p.clusters.getD k default).y - ns))
      (min p.height (toInt (p.clusters.getD k default).y + ns))) ld ⟨hl, hd⟩
    (by
      intro s' y' hy'mem hs'
      have hb := mem_intRange.mp hy'mem
      exact inner y' s' (by omega) hs')
  beta_reduce at outer
  refine ⟨outer.1, ?_⟩
  rw [outer.2, foldl_ite_once y _ _ _ (nodup_intRange _ _)]
  unfold pixelStep inWindow
  simp only [mem_intRange]
  by_cases h1 : max 0 (toInt (p.clusters.getD k default).y - ns) ≤ y ∧
      y < min p.height (toInt (p.clusters.getD k default).y + ns)
  · by_cases h2 : max 0 (toInt (p.clusters.getD k default).x - ns) ≤ x ∧
        x < min p.width (toInt (p.clusters.getD k default).x + ns)
    · by_cases h3 : lt (distTo p m ns (p.clusters.getD k default) x y)
          (ld.2.getD (y * p.width + x).toNat dblMax) = true
      · rw [if_pos h1, if_pos h2, if_pos h3, if_pos ⟨⟨h2.1, h2.2, h1.1, h1.2⟩, h3⟩]
      · rw [if_pos h1, if_pos h2, if_neg h3, if_neg (fun h => h3 h.2)]
    · rw [if_pos h1, if_neg h2, if_neg (fun h => h2 ⟨h.1.1, h.1.2.1⟩)]
  · rw [if_neg h1, if_neg (fun h => h1 ⟨h.1.2.2.1, h.1.2.2.2⟩)]

/-- The assignment sweep, seen from the valid pixel `(x, y)`: one pair of label and stored
distance runs through the clusters in the order of their indices. -/
theorem assignment_at {R : Type} [DoubleOps R] (p : SLICProcessor R) (m : R) (ns : Int)
    (x y : Int) (hx : 0 ≤ x) (hxw : x < p.width) (hy : 0 ≤ y) (hv : validAt p x y = true)
    (hl : (y * p.width + x).toNat < p.labels.length)
    (hd : (y * p.width + x).toNat < p.distances.length) :
    ((assignment p m ns).labels.getD (y * p.width + x).toNat (-1),
      (assignment p m ns).distances.getD (y * p.width + x).toNat dblMax)
      = (List.range p.clusters.length).foldl (pixelStep p m ns x y)
          (p.labels.getD (y * p.width + x).toNat (-1),
            p.distances.getD (y * p.width + x).toNat dblMax) := by
  unfold assignment
  simp only
  have := foldl_proj (fun (ld : List Int × List R) (k : Nat) => assignCluster p m ns k ld)
    (fun (ld : List Int × List R) =>
      (ld.1.getD (y * p.width + x).toNat (-1), ld.2.getD (y * p.width + x).toNat dblMax))
    (pixelStep p m ns x y)
    (fun (ld : List Int × List R) =>
      (y * p.width + x).toNat < ld.1.length ∧ (y * p.width + x).toNat < ld.2.length)
    (List.range p.clusters.length) (p.labels, p.distances) ⟨hl, hd⟩
    (by
      intro s k _ hs
      exact assignCluster_at p m ns k x y s hx hxw hy hv hs.1 hs.2)
  exact this.2

/-- With `<` irreflexive and transitive, `a < b` excludes `b < a`. -/
theorem LtStrict.asymm {R : Type} [DoubleOps R] (ho : LtStrict R) (a b : R)
    (h : lt a b = true) : lt b a = false := by
  cases hb : lt b a
  · rfl
  · have := ho.trans a b a h hb
    rw [ho.irrefl a] at this
    exact absurd this (by decide)

/-- A running minimum with strict comparison over the rounds `0, ..., n - 1`: either no
round that counts is below the start value and the pair is unchanged, or the pair is that
of a round `ks` that counts, whose value is below the start value, with no round that
counts below it and no earlier round that counts of the same value. -/
theorem runningMin_spec {R : Type} [DoubleOps R] (ho : LtStrict R) (cov : Nat → Prop)
    [DecidablePred cov] (D : Nat → R) (l0 : Int) (d0 : R) :
    ∀ n : Nat,
      ((List.range n).foldl (fun (ld : Int × R) (k : Nat) =>
          if cov k ∧ lt (D k) ld.2 = true then ((k : Int), D k) else ld) (l0, d0) = (l0, d0) ∧
        ∀ k, k < n → cov k → lt (D k) d0 = false)
      ∨ ∃ ks, ks < n ∧ cov ks ∧
          (List.range n).foldl (fun (ld : Int × R) (k : Nat) =>
            if cov k ∧ lt (D k) ld.2 = true then ((k : Int), D k) else ld) (l0, d0)
            = ((ks : Int), D ks) ∧
          lt (D ks) d0 = true ∧ (∀ k, k < n → cov k → lt (D k) (D ks) = false) ∧
          (∀ k, k < ks → cov k → D k ≠ D ks) := by
  intro n
  induction n with
  | zero => left; exact ⟨rfl, fun k hk => by omega⟩
  | succ n ih =>
    rw [List.range_succ, List.foldl_append]
    simp only [List.foldl_cons, List.foldl_nil]
    rcases ih with ⟨hr, hnone⟩ | ⟨ks, hks, hcov, hr, hlt, hmin, hfirst⟩
    · rw [hr]
      by_cases hc : cov n ∧ lt (D n) d0 = true
      · right
        refine ⟨n, by omega, hc.1, by rw [if_pos hc], hc.2, ?_, ?_⟩
        · intro k hk hck
          by_cases e : k = n
          · rw [e]; exact ho.irrefl _
          · cases hb : lt (D k) (D n)
            · rfl
            · have := ho.trans _ _ _ hb hc.2
              rw [hnone k (by omega) hck] at this
              exact absurd this (by decide)
        · intro k hk hck heq
          have := hnone k hk hck
          rw [heq, hc.2] at this
          exact absurd this (by decide)
      · left
        refine ⟨by rw [if_neg hc], ?_⟩
        intro k hk hck
        by_cases e : k = n
        · subst e
          cases hb : lt (D k) d0
          · rfl
          · exact absurd ⟨hck, hb⟩ hc
        · exact hnone k (by omega) hck
    · rw [hr]
      right
      by_cases hc : cov n ∧ lt (D n) (D ks) = true
      · refine ⟨n, by omega, hc.1, by rw [if_pos hc], ho.trans _ _ _ hc.2 hlt, ?_, ?_⟩
        · intro k hk hck
          by_cases e : k = n
          · rw [e]; exact ho.irrefl _
          · cases hb : lt (D k) (D n)
            · rfl
            · have := ho.trans _ _ _ hb hc.2
              rw [hmin k (by omega) hck] at this
              exact absurd this (by decide)
        · intro k hk hck heq
          have := hmin k (by omega) hck
          rw [heq, hc.2] at this
          exact absurd this (by decide)
      · refine ⟨ks, by omega, hcov, by rw [if_neg hc], hlt, ?_, hfirst⟩
        intro k hk hck
        by_cases e : k = n
        · subst e
          cases hb : lt (D k) (D ks)
          · rfl
          · exact absurd ⟨hck, hb⟩ hc
        · exact hmin k (by omega) hck

/-- The sweep at a valid pixel whose stored distance is `d0`: the pair of label and stored
distance is unchanged when no cluster whose window contains the pixel is below `d0`, and
else it is that of a cluster whose window contains the pixel, with no such cluster below
it and no such cluster of smaller index at the same distance. -/
theorem assignment_min {R : Type} [DoubleOps R] (ho : LtStrict R) (p : SLICProcessor R)
    (m : R) (ns : Int) (x y : Int) (hx : 0 ≤ x) (hxw : x < p.width) (hy : 0 ≤ y)
    (hv : validAt p x y = true) (hl : (y * p.width + x).toNat < p.labels.length)
    (hd : (y * p.width + x).toNat < p.distances.length) :
    (((assignment p m ns).labels.getD (y * p.width + x).toNat (-1),
        (assignment p m ns).distances.getD (y * p.width + x).toNat dblMax)
        = (p.labels.getD (y * p.width + x).toNat (-1),
            p.distances.getD (y * p.width + x).toNat dblMax) ∧
      ∀ k, k < p.clusters.length → inWindow p ns (p.clusters.getD k default) x y →
        lt (distTo p m ns (p.clusters.getD k default) x y)
          (p.distances.getD (y * p.width + x).toNat dblMax) = false)
    ∨ ∃ ks, ks < p.clusters.length ∧ inWindow p ns (p.clusters.getD ks default) x y ∧
        ((assignment p m ns).labels.getD (y * p.width + x).toNat (-1),
          (assignment p m ns).distances.getD (y * p.width + x).toNat dblMax)
          = ((ks : Int), distTo p m ns (p.clusters.getD ks default) x y) ∧
        lt (distTo p m ns (p.clusters.getD ks default) x y)
          (p.distances.getD (y * p.width + x).toNat dblMax) = true ∧
        (∀ k, k < p.clusters.length → inWindow p ns (p.clusters.getD k default) x y →
          lt (distTo p m ns (p.clusters.getD k default) x y)
            (distTo p m ns (p.clusters.getD ks default) x y) = false) ∧
        (∀ k, k < ks → inWindow p ns (p.clusters.getD k default) x y →
          distTo p m ns (p.clusters.getD k default) x y
            ≠ distTo p m ns (p.clusters.getD ks default) x y) := by
  rw [assignment_at p m ns x y hx hxw hy hv hl hd]
  exact runningMin_spec ho (fun k => inWindow p ns (p.clusters.getD k default) x y)
    (fun k => distTo p m ns (p.clusters.getD k default) x y) _ _ p.clusters.length

/-! ## Claims on the assignment sweep -/

/-- The cluster that alone has the least distance to a pixel, below the stored distance,
among the clusters whose window contains the pixel, owns the pixel after the sweep. -/
theorem owner_of_unique_min {R : Type} [DoubleOps R] (ho : LtStrict R) (p : SLICProcessor R)
    (m : R) (ns : Int) (x y : Int) (hx : 0 ≤ x) (hxw : x < p.width) (hy : 0 ≤ y)
    (hv : validAt p x y = true) (hl : (y * p.width + x).toNat < p.labels.length)
    (hd : (y * p.width + x).toNat < p.distances.length)
    (c0 : SlicCluster R) (hc0 : c0 ∈ p.clusters) (hwin : inWindow p ns c0 x y)
    (hbelow : lt (distTo p m ns c0 x y)
      (p.distances.getD (y * p.width + x).toNat dblMax) = true)
    (huniq : ∀ c ∈ p.clusters, inWindow p ns c x y → c ≠ c0 →
      lt (distTo p m ns c0 x y) (distTo p m ns c x y) = true) :
    p.clusters.getD ((assignment p m ns).labels.getD (y * p.width + x).toNat (-1)).toNat default
      = c0 := by
  obtain ⟨k0, hk0, e0⟩ := List.getElem_of_mem hc0
  have e0' : p.clusters.getD k0 default = c0 := by
    rw [List.getD_eq_getElem?_getD, List.getElem?_eq_getElem hk0]
    exact e0
  rcases assignment_min ho p m ns x y hx hxw hy hv hl hd with ⟨-, h⟩ | ⟨ks, hks, hws, e, -, hle, -⟩
  · have := h k0 hk0 (by rw [e0']; exact hwin)
    rw [e0', hbelow] at this
    exact absurd this (by decide)
  · have e1 : (assignment p m ns).labels.getD (y * p.width + x).toNat (-1) = (ks : Int) :=
      congrArg Prod.fst e
    rw [e1, Int.toNat_ofNat]
    by_contra hne
    have hmem : p.clusters.getD ks default ∈ p.clusters := by
      rw [List.getD_eq_getElem?_getD, List.getElem?_eq_getElem hks]
      exact List.getElem_mem hks
    have h1 := huniq _ hmem hws hne
    have h2 := hle k0 hk0 (by rw [e0']; exact hwin)
    rw [e0', h1] at h2
    exact absurd h2 (by decide)

/-- C15 as amended, order independence without ties: with the comparison `<` of the
doubles irreflexive and transitive, if at a valid pixel one cluster `c0` whose window
contains the pixel has a distance below the stored one and strictly below that of every
other cluster whose window contains the pixel, then the pixel is labelled with `c0` after
the sweep, and also after the sweep over the clusters in any other order. -/
theorem assignment_order_without_ties {R : Type} [DoubleOps R] (ho : LtStrict R)
    (p : SLICProcessor R) (reordered : List (SlicCluster R))
    (hperm : reordered.Perm p.clusters) (m : R) (ns : Int) (x y : Int)
    (hx : 0 ≤ x) (hxw : x < p.width) (hy : 0 ≤ y) (hv : validAt p x y = true)
    (hl : (y * p.width + x).toNat < p.labels.length)
    (hd : (y * p.width + x).toNat < p.distances.length)
    (c0 : SlicCluster R) (hc0 : c0 ∈ p.clusters) (hwin : inWindow p ns c0 x y)
    (hbelow : lt (distTo p m ns c0 x y)
      (p.distances.getD (y * p.width + x).toNat dblMax) = true)
    (huniq : ∀ c ∈ p.clusters, inWindow p ns c x y → c ≠ c0 →
      lt (distTo p m ns c0 x y) (distTo p m ns c x y) = true) :
    p.clusters.getD ((assignment p m ns).labels.getD (y * p.width + x).toNat (-1)).toNat default
      = c0
    ∧ reordered.getD ((assignment { p with clusters := reordered } m ns).labels.getD
        (y * p.width + x).toNat (-1)).toNat default = c0 :=
  ⟨owner_of_unique_min ho p m ns x y hx hxw hy hv hl hd c0 hc0 hwin hbelow huniq,
    owner_of_unique_min ho { p with clusters := reordered } m ns x y hx hxw hy hv hl hd c0
      (hperm.mem_iff.mpr hc0) hwin hbelow
      (fun c hc hw hne => huniq c (hperm.mem_iff.mp hc) hw hne)⟩

/-! ## The assignment sweep on concrete images -/

/-- Comparison of rationals is irreflexive and transitive. -/
theorem ratOps_ltStrict : LtStrict ℚ where
  irrefl a := by
    show decide (a < a) = false
    simp
  trans a b c h1 h2 := by
    have h1 : a < b := of_decide_eq_true h1
    have h2 : b < c := of_decide_eq_true h2
    exact decide_eq_true (lt_trans h1 h2)

/-- C15 fails as stated: on the 3x1 image of one colour with clusters at `(0, 0)` and
`(2, 0)`, compactness 10 and step 2, pixel `(1, 0)` is equally far from both clusters; the
sweep gives it to the cluster processed first, so swapping the two clusters changes its
owner. -/
theorem assignment_order_matters : ¬ OwnerOrderIndependent tiePixels 10 2 1 := by
  intro h
  have e := h [⟨50, 0, 0, 2, 0, 0⟩, ⟨50, 0, 0, 0, 0, 0⟩] (List.Perm.swap _ _ _)
  have ex := congrArg SlicCluster.x e
  revert ex
  decide!

/-- The amended C15 at pixel `(0, 0)` of the 3x1 image, whose only nearest cluster is the
one at `(0, 0)`. -/
theorem assignment_order_without_ties_witness :
    (validAt tiePixels 0 0 = true ∧
      inWindow tiePixels 2 (⟨50, 0, 0, 0, 0, 0⟩ : SlicCluster ℚ) 0 0)
    ∧ tiePixels.clusters.getD ((assignment tiePixels 10 2).labels.getD
        (0 * tiePixels.width + 0).toNat (-1)).toNat default = ⟨50, 0, 0, 0, 0, 0⟩
    ∧ List.getD [(⟨50, 0, 0, 2, 0, 0⟩ : SlicCluster ℚ), ⟨50, 0, 0, 0, 0, 0⟩]
        ((assignment { tiePixels with
            clusters := [⟨50, 0, 0, 2, 0, 0⟩, ⟨50, 0, 0, 0, 0, 0⟩] } 10 2).labels.getD
          (0 * tiePixels.width + 0).toNat (-1)).toNat default = ⟨50, 0, 0, 0, 0, 0⟩ := by
  have hwin : inWindow tiePixels 2 (⟨50, 0, 0, 0, 0, 0⟩ : SlicCluster ℚ) 0 0 := by decide!
  refine ⟨⟨by decide!, hwin⟩, ?_⟩
  refine assignment_order_without_ties ratOps_ltStrict tiePixels
    [⟨50, 0, 0, 2, 0, 0⟩, ⟨50, 0, 0, 0, 0, 0⟩] (List.Perm.swap _ _ _) 10 2 0 0
    (by decide) (by decide!) (by decide) (by decide!) (by decide!) (by decide!)
    ⟨50, 0, 0, 0, 0, 0⟩ (List.mem_cons_self _ _) hwin (by decide!) ?_
  intro c hc hw hne
  have hc2 : c = ⟨50, 0, 0, 0, 0, 0⟩ ∨ c = ⟨50, 0, 0, 2, 0, 0⟩ := by
    simpa [tiePixels] using hc
  rcases hc2 with rfl | rfl
  · exact absurd rfl hne
  · decide!

/-- The run of the solid-red scenario: the 4x4 fully opaque image of pixels
`(255, 0, 0, 255)`, step 2, compactness 10, a host that always answers continue.  `Execute`
completes, four clusters exist, and the labels are as listed.  Every pixel has the same
colour, so the colour terms of all distances are equal and the labels are decided by the
positions alone. -/
theorem red_run :
    (Execute sampleConsts (Initialize freshProcessor 4 4 redBitmap 16 4) 2 (10 : ℚ)
        hostContinue (some 1) 1).1 = sampleConsts.kTriglavPlugInFilterRunProcessResultContinue
    ∧ (Execute sampleConsts (Initialize freshProcessor 4 4 redBitmap 16 4) 2 (10 : ℚ)
        hostContinue (some 1) 1).2.proc.clusters.length = 4
    ∧ (Execute sampleConsts (Initialize freshProcessor 4 4 redBitmap 16 4) 2 (10 : ℚ)
        hostContinue (some 1) 1).2.proc.labels
      = [0, 0, 0, 1, 0, 0, 0, 1, 0, 0, 0, 1, 2, 2, 2, 3] := by
  decide!

/-- C12 fails as stated: after `Execute` completes on the solid-red 4x4 image with step 2
and compactness 10, no single label is carried by all 16 pixels. -/
theorem red_image_not_one_region :
    ¬ ∃ k : Int, ∀ i : Fin 16,
      (Execute sampleConsts (Initialize freshProcessor 4 4 redBitmap 16 4) 2 (10 : ℚ)
        hostContinue (some 1) 1).2.proc.labels.getD i.val (-1) = k := by
  rintro ⟨k, h⟩
  have h0 := h 0
  have h15 := h 15
  rw [red_run.2.2] at h0 h15
  have : (0 : Int) = 3 := h0.trans h15.symm
  exact absurd this (by decide)

/-- C12 as amended, the solid-red scenario: after `Execute` completes on the 4x4 fully
opaque image of pixels `(255, 0, 0, 255)` with step 2, compactness 10 and a host that always
answers continue, four regions cover the pixels: label 0 on columns 0..2 of rows 0..2,
label 1 on column 3 of rows 0..2, label 2 on columns 0..2 of row 3 and label 3 on pixel
`(3, 3)`. -/
theorem red_image_four_regions :
    (Execute sampleConsts (Initialize freshProcessor 4 4 redBitmap 16 4) 2 (10 : ℚ)
        hostContinue (some 1) 1).1 = sampleConsts.kTriglavPlugInFilterRunProcessResultContinue
    ∧ (Execute sampleConsts (Initialize freshProcessor 4 4 redBitmap 16 4) 2 (10 : ℚ)
        hostContinue (some 1) 1).2.proc.clusters.length = 4
    ∧ ∀ x y : Fin 4,
        (Execute sampleConsts (Initialize freshProcessor 4 4 redBitmap 16 4) 2 (10 : ℚ)
          hostContinue (some 1) 1).2.proc.labels.getD (y.val * 4 + x.val) (-1)
        = if y.val < 3 then (if x.val < 3 then 0 else 1) else (if x.val < 3 then 2 else 3) := by
  refine ⟨red_run.1, red_run.2.1, ?_⟩
  intro x y
  rw [red_run.2.2]
  fin_cases x <;> fin_cases y <;> rfl

/-! ## Lemmas on a run without clusters -/

/-- A loop `for (v = start; v < bound; v += step)` whose start is not below the bound has
no round. -/
theorem strideRange_nil {start step bound : Int} (h : bound ≤ start) :
    strideRange start step bound = [] := by
  unfold strideRange
  cases bound.toNat with
  | zero => rfl
  | succ n =>
    unfold strideFrom
    rw [if_neg (by omega)]

/-- An image not wider, or not higher, than the start of the grid gets no cluster. -/
theorem seedClusters_small {R : Type} [DoubleOps R] (p : SLICProcessor R) (S : Int)
    (h : p.width ≤ S / 2 ∨ p.height ≤ S / 2) : seedClusters p S = [] := by
  unfold seedClusters
  rcases h with hw | hh
  · rw [strideRange_nil hw]
    apply foldl_inv _ (fun (cl : List (SlicCluster R)) => cl = [])
    · rfl
    · intro s a _ hs
      exact hs
  · rw [strideRange_nil hh]
    rfl

/-- Without clusters an iteration creates none and leaves the labels alone. -/
theorem iteration_noClusters {R : Type} [DoubleOps R] (m : R) (ns : Int) (iter : Nat)
    (p : SLICProcessor R) (h : p.clusters = []) :
    (iteration m ns iter p).clusters = [] ∧ (iteration m ns iter p).labels = p.labels := by
  have ha : assignment p m ns = p := by
    have hr : List.range p.clusters.length = [] := by rw [h]; rfl
    unfold assignment
    simp only [hr, List.foldl_nil]
  have hu : (updateClusters p).clusters = [] := by
    apply List.eq_nil_of_length_eq_zero
    rw [length_updateClusters, h]
    rfl
  have hl : (updateClusters p).labels = p.labels := rfl
  unfold iteration
  simp only [ha]
  split
  · exact ⟨hu, hl⟩
  · exact ⟨hu, hl⟩

/-- Without clusters no number of iterations creates one or changes a label. -/
theorem iterationsFrom_noClusters {R : Type} [DoubleOps R] (m : R) (ns : Int) :
    ∀ (n iter : Nat) (p : SLICProcessor R), p.clusters = [] →
      (iterationsFrom m ns n iter p).clusters = [] ∧
        (iterationsFrom m ns n iter p).labels = p.labels := by
  intro n
  induction n with
  | zero =>
    intro iter p h
    exact ⟨h, rfl⟩
  | succ n ih =>
    intro iter p h
    have h1 := iteration_noClusters m ns iter p h
    have h2 := ih (iter + 1) (iteration m ns iter p) h1.1
    exact ⟨h2.1, h2.2.trans h1.2⟩

/-- Without clusters the render loop leaves the output buffer as it is. -/
theorem render_noClusters {R : Type} [DoubleOps R] (p : SLICProcessor R)
    (h : p.clusters = []) : (render p).resultRGB = p.resultRGB := by
  unfold render
  simp only
  apply foldl_inv _ (fun (res : List BYTE) => res = p.resultRGB)
  · rfl
  · intro s a _ hs
    unfold renderPixel
    simp only [h, List.length_nil]
    rw [if_neg (by intro hc; have := hc.1; have := hc.2; simp at *; omega)]
    exact hs

/-! ## Claim on an image smaller than half a cell -/

/-- C23, image smaller than half a cell: with `S = max(step, 2)`, the step as `Execute`
clamps it, if `width ≤ S/2` or `height ≤ S/2` then the seeding creates no cluster, after
every number of iterations there is still no cluster and every label is the sentinel `-1`,
and a completed `Execute` (no poll stops it) returns continue with every label `-1` and the
output buffer equal to the buffer that `Initialize` sampled from the input: each pixel has
its source R, G, B and alpha bytes. -/
theorem image_below_half_cell {R : Type} [DoubleOps R] (K : HostConsts) (p0 : SLICProcessor R)
    (w h : Int) (src : Int → BYTE) (rowBytes pixelBytes step : Int) (m : R) (host : Nat → Int)
    (pCurrentProgress : Option Int) (progressUnit : Int)
    (hsmall : w ≤ max step 2 / 2 ∨ h ≤ max step 2 / 2)
    (hhost : ∀ j, j < 10 → ¬ isStop K (host j)) :
    clampStep step = max step 2
    ∧ seedClusters (Initialize p0 w h src rowBytes pixelBytes) (clampStep step) = []
    ∧ (∀ n : Nat,
        (afterIterations (Initialize p0 w h src rowBytes pixelBytes) step m n).clusters = [] ∧
        (afterIterations (Initialize p0 w h src rowBytes pixelBytes) step m n).labels
          = List.replicate (w.toNat * h.toNat) (-1))
    ∧ (Execute K (Initialize p0 w h src rowBytes pixelBytes) step m host pCurrentProgress
        progressUnit).1 = K.kTriglavPlugInFilterRunProcessResultContinue
    ∧ (Execute K (Initialize p0 w h src rowBytes pixelBytes) step m host pCurrentProgress
        progressUnit).2.proc.labels = List.replicate (w.toNat * h.toNat) (-1)
    ∧ (Execute K (Initialize p0 w h src rowBytes pixelBytes) step m host pCurrentProgress
        progressUnit).2.proc.resultRGB
        = (Initialize p0 w h src rowBytes pixelBytes).resultRGB
    ∧ ∀ x y : Int, 0 ≤ x → x < w → 0 ≤ y → y < h →
        (Execute K (Initialize p0 w h src rowBytes pixelBytes) step m host pCurrentProgress
            progressUnit).2.proc.resultRGB.getD ((y * w + x).toNat * 4 + 0) 0
          = src (y * rowBytes + x * pixelBytes + 0) ∧
        (Execute K (Initialize p0 w h src rowBytes pixelBytes) step m host pCurrentProgress
            progressUnit).2.proc.resultRGB.getD ((y * w + x).toNat * 4 + 1) 0
          = src (y * rowBytes + x * pixelBytes + 1) ∧
        (Execute K (Initialize p0 w h src rowBytes pixelBytes) step m host pCurrentProgress
            progressUnit).2.proc.resultRGB.getD ((y * w + x).toNat * 4 + 2) 0
          = src (y * rowBytes + x * pixelBytes + 2) ∧
        (Execute K (Initialize p0 w h src rowBytes pixelBytes) step m host pCurrentProgress
            progressUnit).2.proc.resultRGB.getD ((y * w + x).toNat * 4 + 3) 0
          = (if pixelBytes ≥ 4 then src (y * rowBytes + x * pixelBytes + 3) else 255) := by
  have hclamp : clampStep step = max step 2 := by
    unfold clampStep
    split <;> omega
  obtain ⟨hfr, hpix⟩ := Initialize_spec p0 w h src rowBytes pixelBytes
  have hseed : seedClusters (Initialize p0 w h src rowBytes pixelBytes) (clampStep step) = [] := by
    apply seedClusters_small
    rw [hfr.1, hfr.2.1, hclamp]
    exact hsmall
  have hiter : ∀ n : Nat,
      (afterIterations (Initialize p0 w h src rowBytes pixelBytes) step m n).clusters = [] ∧
      (afterIterations (Initialize p0 w h src rowBytes pixelBytes) step m n).labels
        = List.replicate (w.toNat * h.toNat) (-1) := by
    intro n
    have := iterationsFrom_noClusters m (clampStep step) n 0
      { Initialize p0 w h src rowBytes pixelBytes with
        clusters := seedClusters (Initialize p0 w h src rowBytes pixelBytes) (clampStep step) }
      hseed
    exact ⟨this.1, this.2.trans hfr.2.2.1⟩
  have hres : (render (afterIterations (Initialize p0 w h src rowBytes pixelBytes) step m
      10)).resultRGB = (Initialize p0 w h src rowBytes pixelBytes).resultRGB := by
    rw [render_noClusters _ (hiter 10).1]
    exact (afterIterations_frame _ step m 10).2.2.2.2.1
  rw [Execute_complete K _ step m host pCurrentProgress progressUnit hhost]
  simp only
  refine ⟨hclamp, hseed, hiter, trivial, (hiter 10).2, hres, ?_⟩
  intro x y hx hxw hy hyh
  obtain ⟨-, -, q3, q4, q5, q6⟩ := hpix x y hx hxw hy hyh
  rw [hres]
  exact ⟨q3, q4, q5, q6⟩

/-! ## Lemmas on the coverage of the image by the windows of the seeds -/

/-- C23 on the 4x4 red bitmap with the default cell size 30: the image is returned
unchanged. -/
theorem image_below_half_cell_witness :
    ((4 : Int) ≤ max 30 2 / 2 ∨ (4 : Int) ≤ max 30 2 / 2)
    ∧ (∀ j, j < 10 → ¬ isStop sampleConsts (hostContinue j))
    ∧ (Execute sampleConsts (Initialize freshProcessor 4 4 redBitmap 16 4) 30 (20 : ℚ)
        hostContinue (some 1) 1).2.proc.resultRGB
      = (Initialize freshProcessor 4 4 redBitmap 16 4).resultRGB :=
  ⟨Or.inl (by decide), hostContinue_never_stops,
    (image_below_half_cell sampleConsts freshProcessor 4 4 redBitmap 16 4 30 (20 : ℚ)
      hostContinue (some 1) 1 (Or.inl (by decide)) hostContinue_never_stops).2.2.2.2.2.1⟩

end SLIC
